import Mathlib

/-
  Verification development for the SQL-to-NL benchmark generator.

  The development shallowly embeds the two core components of the repository:
  the schema-aware SQL query generator (generator.py) and the deterministic
  syntax-directed NL renderer with its perturbation taxonomy
  (src/core/nl_renderer.py), together with the variant-record assembly of
  main.py and the schema data of src/core/schema.py.

  Modelling conventions:
  - Machine randomness: the source constructs a fresh PRNG from the string
    "seed_context" for every stochastic choice (random.Random(seed_str)).
    We model such a PRNG as a deterministic stream of naturals derived by
    hashing the seed string together with a draw counter.  Every theorem
    quantified over seeds or oracles is independent of the concrete hash;
    closed witnesses evaluate the concrete stand-in.
  - The generator uses the module-level random stream; we model it as an
    abstract oracle (a function from draw index to natural number) threaded
    in state-passing style, and quantify over all oracles.
  - Python exceptions (IndexError of random.choice on an empty list,
    KeyError of a schema lookup, ValueError of randint/sample) are modelled
    by Option: a none result means the source would have raised.
  - The renderer additionally returns a ghost counter of the number of
    pronoun substitutions that reached the output text; the source performs
    these substitutions inline and keeps no counter.
-/

namespace SqlToNl

/-! Basic string machinery shared by the embedding. -/

/-- Prefix test on character lists. -/
def isPre : List Char → List Char → Bool
  | [], _ => true
  | _ :: _, [] => false
  | c :: p, d :: s => c == d && isPre p s

/-- Occurrence test: does `p` occur as a contiguous sublist of the second list?
Mirrors the semantics of the Python `in` operator on strings. -/
def occursL (p : List Char) : List Char → Bool
  | [] => p.isEmpty
  | d :: s => isPre p (d :: s) || occursL p s

/-- `hasSub s pat` holds when `pat` occurs as a substring of `s`
(Python: `pat in s`). -/
def hasSub (s pat : String) : Bool := occursL pat.data s.data

/-- `str.join` of Python: concatenate with a separator between elements. -/
def joinSep (sep : String) : List String → String
  | [] => ""
  | [s] => s
  | s :: rest => s ++ sep ++ joinSep sep rest

/-- Python `str.title()` on a single word: first character upper-cased,
the rest lower-cased. -/
def titleCase (s : String) : String :=
  match s.data with
  | [] => ""
  | c :: rest => String.mk (c.toUpper :: rest.map Char.toLower)

/-- Snake-case to camelCase conversion used by the COLUMN_VARIATIONS
perturbation: `parts[0] + ''.join(x.title() for x in parts[1:])`. -/
def camelCase (name : String) : String :=
  match name.split (· = '_') with
  | [] => ""
  | p0 :: rest => p0 ++ String.join (rest.map titleCase)

/-- Python `rstrip('.')`: drop every trailing dot. -/
def rstripDots (s : String) : String :=
  String.mk (s.data.reverse.dropWhile (· = '.') |>.reverse)

/-- Lower-casing character by character (Python `str.lower()` on the ASCII
names this system handles). -/
def toLowerStr (s : String) : String :=
  String.mk (s.data.map Char.toLower)

/-- Does the string end in a dot (Python `str.endswith('.')`)? -/
def endsDot (s : String) : Bool :=
  match s.data.getLast? with
  | some c => c == '.'
  | none => false

/-- Splitting accumulator for `splitWs`. -/
def wordsAux : List Char → List Char → List String
  | acc, [] => [String.mk acc.reverse]
  | acc, c :: cs =>
      if c = ' ' then String.mk acc.reverse :: wordsAux [] cs
      else wordsAux (c :: acc) cs

/-- Python `text.split()`: split on spaces and drop empty fragments. -/
def splitWs (text : String) : List String :=
  (wordsAux [] text.data).filter (· ≠ "")

/-- Terminal punctuation fix-up of `render_select`: append a dot unless the
sentence already ends in one. -/
def endDot (s : String) : String :=
  if endsDot s then s else s ++ "."

/-! Deterministic stand-in for `random.Random(seed_str)` (`_get_rng`,
nl_renderer.py lines 94-97).  A source of pseudo-random naturals fully
determined by its seed string and a draw counter. -/

/-- A simple string hash (polynomial rolling hash); the concrete function is
irrelevant to every universally quantified theorem below. -/
def strHash (s : String) : Nat :=
  s.data.foldl (fun h c => (h * 131 + c.toNat) % 1000003) 5381

/-- State of one context-local PRNG: the seed string and a draw counter. -/
structure RSrc where
  tag : String
  k : Nat

/-- `_get_rng`: build the PRNG for a context from the configuration seed,
seeding it with the string `"{seed}_{extra_seed}"`. -/
def mkRng (seed : Int) (extra : String) : RSrc :=
  { tag := toString seed ++ "_" ++ extra, k := 0 }

/-- Draw one natural below `bound` (at least 1 is enforced) and advance. -/
def RSrc.next (r : RSrc) (bound : Nat) : Nat × RSrc :=
  (strHash (r.tag ++ "#" ++ toString r.k) % max bound 1, { r with k := r.k + 1 })

/-- `rng.random() < thr/1000000`: one draw, compared against a threshold in
millionths. -/
def RSrc.below (r : RSrc) (thr : Nat) : Bool × RSrc :=
  let (n, r') := r.next 1000000
  (n < thr, r')

/-- `rng.randint a b` (inclusive bounds, `a ≤ b` at every call site). -/
def RSrc.randint (r : RSrc) (a b : Nat) : Nat × RSrc :=
  let (n, r') := r.next (b + 1 - a)
  (a + n, r')

/-! The perturbation taxonomy (`PerturbationType`, nl_renderer.py lines
12-25) and the perturbation configuration. -/

/-- The closed enumeration of perturbation categories of the renderer. -/
inductive PerturbationType where
  | underSpecification
  | implicitBusinessLogic
  | synonymSubstitution
  | incompleteJoins
  | relativeTemporal
  | ambiguousPronouns
  | vagueAggregation
  | columnVariations
  | missingWhereDetails
  | typos
  deriving DecidableEq, BEq, Repr, Fintype

/-- The string value of each enumeration member. -/
def PerturbationType.value : PerturbationType → String
  | .underSpecification => "under_specification"
  | .implicitBusinessLogic => "implicit_business_logic"
  | .synonymSubstitution => "synonym_substitution"
  | .incompleteJoins => "incomplete_joins"
  | .relativeTemporal => "relative_temporal"
  | .ambiguousPronouns => "ambiguous_pronouns"
  | .vagueAggregation => "vague_aggregation"
  | .columnVariations => "column_variations"
  | .missingWhereDetails => "missing_where_details"
  | .typos => "typos"

/-- `list(PerturbationType)`: the members in declaration order, as iterated
by `generate_benchmark_dataset` in main.py. -/
def perturbationTypes : List PerturbationType :=
  [.underSpecification, .implicitBusinessLogic, .synonymSubstitution,
   .incompleteJoins, .relativeTemporal, .ambiguousPronouns,
   .vagueAggregation, .columnVariations, .missingWhereDetails, .typos]

/-- `PerturbationConfig`: the active set of perturbations plus the seed. -/
structure PerturbationConfig where
  activePerturbations : List PerturbationType
  seed : Int := 42

/-- `PerturbationConfig.is_active`: membership in the active set. -/
def PerturbationConfig.isActive (cfg : PerturbationConfig) (p : PerturbationType) : Bool :=
  cfg.activePerturbations.contains p

/-! The query AST.  A deep embedding of the sqlglot node shapes that the
repository constructs and that the renderer dispatches on.  Node kinds the
renderer has no rule for are collapsed into `other` (rendered via the
generic fallback arm).  `EL` is the type of expression lists. -/

/-- Comparison operator kinds. -/
inductive Bop where
  | eq | neq | gt | gte | lt | lte | like
  deriving DecidableEq

/-- Aggregate function kinds. -/
inductive AggK where
  | count | sum | avg | min | max
  deriving DecidableEq

mutual
/-- Query AST expression / statement nodes. -/
inductive E where
  /-- `exp.Star`. -/
  | star
  /-- `exp.Table` with name and alias (empty alias when absent). -/
  | tbl (name aliasName : String)
  /-- `exp.Identifier`. -/
  | ident (s : String)
  /-- `exp.Column` with column name and table qualifier (empty when absent). -/
  | col (name table : String)
  /-- numeric `exp.Literal` (sqlglot stores its value as the string `toString n`). -/
  | litNum (n : Int)
  /-- string `exp.Literal`. -/
  | litStr (s : String)
  /-- `exp.Boolean`. -/
  | boolE (b : Bool)
  /-- comparison operators `exp.EQ/NEQ/GT/GTE/LT/LTE/Like`. -/
  | bin (op : Bop) (l r : E)
  /-- `exp.In` whose `query` arg is set (IN with a subquery). -/
  | inSub (l : E) (q : E)
  /-- `exp.In` with a value list in `expressions`. -/
  | inList (l : E) (vs : EL)
  /-- aggregate call `exp.Count/Sum/Avg/Min/Max`. -/
  | agg (k : AggK) (arg : E)
  /-- `exp.Anonymous` function call (e.g. NOW). -/
  | anon (name : String) (args : EL)
  /-- `exp.CurrentDate/CurrentTime/CurrentTimestamp`. -/
  | currentTs
  /-- `exp.DateSub` with date operand and subtrahend expression. -/
  | dateSub (d : E) (arg : E)
  /-- `exp.DateAdd`. -/
  | dateAdd (d : E) (arg : E)
  /-- `exp.Interval` with value and unit. -/
  | interval (v : E) (unit : String)
  /-- `exp.Ordered` item of an ORDER BY list. -/
  | ordered (e : E) (desc : Bool)
  /-- `exp.Limit`; the renderer unwraps it to its expression. -/
  | limitNode (e : E)
  /-- `exp.Alias` (e.g. aggregate select items built with `.as_`). -/
  | aliasE (e : E) (name : String)
  /-- `exp.Subquery` with alias. -/
  | subq (q : E) (aliasName : String)
  /-- `exp.Join`: side ("" when absent), joined table expression, ON condition. -/
  | join (side : String) (tblE : E) (onE : Option E)
  /-- `exp.Select`: select list, FROM source, joins, WHERE condition (the
  content of the `exp.Where` wrapper), GROUP BY expressions, HAVING
  condition, ORDER BY items, LIMIT. -/
  | select (cols : EL) (src : Option E) (joins : EL) (whereE : Option E)
      (group : EL) (having : Option E) (order : EL) (limit : Option E)
  /-- `exp.Insert` whose `this` is a Schema of table and column identifiers
  and whose `expression` holds the first VALUES tuple. -/
  | insert (tableE : E) (colsL : List String) (vals : EL)
  /-- `exp.Update` with SET expressions and optional WHERE condition. -/
  | update (tableE : E) (sets : EL) (whereE : Option E)
  /-- `exp.Delete` with optional WHERE condition. -/
  | delete (tableE : E) (whereE : Option E)
  /-- any other sqlglot node kind (no specific renderer rule). -/
  | other

/-- Lists of AST nodes. -/
inductive EL where
  | nil
  | cons (e : E) (es : EL)
end

/-- Length of an expression list. -/
def EL.length : EL → Nat
  | .nil => 0
  | .cons _ es => 1 + es.length

/-- Conversion from a Lean list. -/
def EL.ofList : List E → EL
  | [] => .nil
  | e :: es => .cons e (EL.ofList es)

/-- `rng.choice xs`: one draw below `xs.length`; the default is never used at
the renderer call sites, which all pass non-empty literal lists. -/
def RSrc.choiceD {α : Type} (r : RSrc) (xs : List α) (d : α) : α × RSrc :=
  let (n, r') := r.next xs.length
  (xs.getD n d, r')

/-! The renderer word banks (`SQLToNLRenderer.__init__`). -/

/-- `self.synonyms`: synonym bank per canonical keyword. -/
def synonyms : String → List String
  | "get" => ["Get", "Retrieve", "Fetch", "Select", "Show", "Find", "Pull",
      "Extract", "Obtain", "Display"]
  | "where" => ["where", "filtering by", "with condition", "such that",
      "that match", "when", "having condition"]
  | "from" => ["from", "in", "within", "from table", "out of", "using"]
  | "grouped by" => ["grouped by", "group by", "organized by", "categorized by",
      "partitioned by", "arranged by", "split by"]
  | "ordered by" => ["ordered by", "sorted by", "arranged by", "organized by",
      "ranked by", "sequenced by"]
  | "limited to" => ["limited to", "with limit of", "taking only",
      "restricted to", "top", "capped at", "max"]
  | "having" => ["having", "with condition", "where aggregate", "filtered by",
      "with filter"]
  | "joined with" => ["joined with", "join", "combined with", "merged with",
      "linked to", "connected to"]
  | "equals" => ["equals", "is", "matches", "=", "is equal to"]
  | "not equals" => ["not equals", "is not", "differs from", "!=", "<>",
      "does not equal"]
  | "greater than" => ["greater than", "more than", "exceeds", "above", ">",
      "larger than"]
  | "less than" => ["less than", "below", "under", "fewer than", "<",
      "smaller than"]
  | "greater than or equal to" => ["greater than or equal to", "at least",
      ">=", "no less than", "minimum of"]
  | "less than or equal to" => ["less than or equal to", "at most", "<=",
      "no more than", "maximum of"]
  | "like" => ["like", "matching pattern", "similar to", "matches",
      "containing", "with pattern"]
  | "in" => ["in", "within", "among", "one of", "part of", "included in"]
  | _ => []

/-- `self.synonyms.get(canonical_form, [canonical_form])`. -/
def synOptions (canonical : String) : List String :=
  match synonyms canonical with
  | [] => [canonical]
  | l => l

/-- `self.agg_variations`. -/
def aggVariations : AggK → List String
  | .count => ["count of", "number of", "how many", "total count of",
      "tally of", "quantity of"]
  | .sum => ["sum of", "total", "add up", "combined", "total of",
      "aggregate of"]
  | .avg => ["average of", "mean", "avg", "average value of",
      "mean value of", "typical"]
  | .min => ["minimum of", "smallest", "lowest", "min", "minimum value of",
      "least"]
  | .max => ["maximum of", "largest", "highest", "max", "maximum value of",
      "greatest"]

/-- The `vague_maps` of `_render_aggregate` (VAGUE_AGGREGATION). -/
def vagueMaps : AggK → List String
  | .count => ["number", "total", "how many"]
  | .sum => ["total", "combined amount"]
  | .avg => ["average", "typical value"]
  | .min => ["smallest", "minimum"]
  | .max => ["largest", "maximum"]

/-- `self.pronouns['table']`. -/
def pronounsTable : List String := ["it", "that table", "them", "those"]

/-- `self.pronouns['column']`. -/
def pronounsColumn : List String := ["that field", "it", "the column", "that value"]

/-- `self.pronouns['id']`. -/
def pronounsId : List String := ["that one", "it", "that ID", "the specified one"]

/-- `_choose_word`: canonical first option when SYNONYM_SUBSTITUTION is
inactive, context-seeded pick otherwise. -/
def chooseWord (act : PerturbationType → Bool) (seed : Int) (canonical ctx : String) : String :=
  if !(act .synonymSubstitution) then
    (synOptions canonical).headD canonical
  else
    let r := mkRng seed ("synonym_" ++ canonical ++ "_" ++ ctx)
    ((r.choiceD (synOptions canonical) canonical).1)

/-- Node kinds `_render_table` treats as explicit table references in the
UNDER_SPECIFICATION branch (`exp.Table`, `exp.Identifier`, `str`). -/
def isTableLike : E → Bool
  | .tbl _ _ => true
  | .ident _ => true
  | _ => false

/-- `_render_table` (nl_renderer.py lines 344-372).  The second component
counts pronoun substitutions that reach the output. -/
def renderTable (act : PerturbationType → Bool) (seed : Int) (e : E) (ctx : String) :
    String × Nat :=
  let r := mkRng seed ctx
  let name :=
    match e with
    | .tbl n _ => n
    | .ident s => s
    | _ => "table"
  let al :=
    match e with
    | .tbl _ a => a
    | _ => ""
  if act .underSpecification && isTableLike e then
    ("the appropriate table", 0)
  else if act .ambiguousPronouns then
    ((r.choiceD pronounsTable "it").1, 1)
  else
    (name ++ (if al != "" && !(act .underSpecification) then " (as " ++ al ++ ")" else ""), 0)

/-- `_render_column` (nl_renderer.py lines 374-406); it is only ever applied
to `exp.Column` nodes, whose name and table qualifier are passed here. -/
def renderColumn (act : PerturbationType → Bool) (seed : Int) (name0 table0 ctx : String) :
    String × Nat :=
  let r := mkRng seed ctx
  let table1 := if act .underSpecification then "" else table0
  let (name1, r1) :=
    if act .columnVariations && hasSub name0 "_" then
      let (b, r') := r.choiceD [true, false] true
      (if b then camelCase name0 else name0, r')
    else (name0, r)
  let plain := if table1 != "" then table1 ++ "." ++ name1 else name1
  if act .ambiguousPronouns &&
      (hasSub (toLowerStr ctx) "where" || hasSub (toLowerStr ctx) "having") then
    let (p, r2) := r1.below 400000
    if p then ((r2.choiceD pronounsColumn "it").1, 1) else (plain, 0)
  else (plain, 0)

/-- The `exp.Literal` branch of `_render_expression` (lines 414-430), on the
string form `val` of the literal value. -/
def renderLiteral (act : PerturbationType → Bool) (seed : Int) (val ctx : String) :
    String × Nat :=
  if act .relativeTemporal && decide (10 ≤ val.length) &&
      ((val.data.take 4).all Char.isDigit) && hasSub val "-" then
    let r := mkRng seed (ctx ++ "_temporal")
    ((r.choiceD ["recently", "last month", "yesterday", "this week"] "recently").1, 0)
  else if act .ambiguousPronouns && val != "" && val.data.all Char.isDigit &&
      hasSub (toLowerStr ctx) "where" then
    let r := mkRng seed (ctx ++ "_ambig_val")
    let (p, r2) := r.below 300000
    if p then ((r2.choiceD pronounsId "it").1, 1) else (val, 0)
  else (val, 0)

/-! String-level typo injection (`_apply_typos`, lines 690-734). -/

/-- Protected SQL keywords never modified by a typo. -/
def protectedWords : List String :=
  ["select", "from", "where", "insert", "update", "delete", "join", "group",
   "order", "limit"]

/-- Adjacent-character swap at `pos`:
`word[:pos] + word[pos+1] + word[pos] + word[pos+2:]`. -/
def swapAt (pos : Nat) (w : String) : String :=
  let cs := w.data
  String.mk (cs.take pos ++ [cs.getD (pos + 1) 'a', cs.getD pos 'a'] ++ cs.drop (pos + 2))

/-- Character deletion at `pos`: `word[:pos] + word[pos+1:]`. -/
def delAt (pos : Nat) (w : String) : String :=
  String.mk (w.data.take pos ++ w.data.drop (pos + 1))

/-- Character duplication at `pos`: `word[:pos] + word[pos] + word[pos:]`. -/
def dupAt (pos : Nat) (w : String) : String :=
  String.mk (w.data.take pos ++ [w.data.getD pos 'a'] ++ w.data.drop pos)

/-- One typo application to one word (the loop body of `_apply_typos`):
a draw decides the pattern, a position draw picks where. -/
def typoWord (r : RSrc) (w : String) : String × RSrc :=
  let (pc, r1) := r.next 1000000
  if pc < 500000 then
    if 2 < w.length then
      let (pos, r2) := r1.randint 0 (w.length - 2)
      (swapAt pos w, r2)
    else (w, r1)
  else if pc < 800000 then
    if 3 < w.length then
      let (pos, r2) := r1.randint 1 (w.length - 1)
      (delAt pos w, r2)
    else (w, r1)
  else
    let (pos, r2) := r1.randint 0 (w.length - 1)
    (dupAt pos w, r2)

/-- Typo eligibility of one word: not a protected keyword (lower-cased) and
longer than three characters. -/
def eligibleWord (w : String) : Bool :=
  !(protectedWords.contains (toLowerStr w)) && decide (3 < w.length)

/-- Indexed scan behind `typoableIndices` (Python `enumerate` + filter). -/
def typoableIdxAux (i : Nat) : List String → List Nat
  | [] => []
  | w :: ws =>
      if eligibleWord w then i :: typoableIdxAux (i + 1) ws
      else typoableIdxAux (i + 1) ws

/-- Word indices eligible for a typo. -/
def typoableIndices (ws : List String) : List Nat := typoableIdxAux 0 ws

/-- `rng.sample xs k`: `k` distinct elements, modelled as a rotation
followed by a prefix. -/
def sampleIdx (r : RSrc) (xs : List Nat) (k : Nat) : List Nat × RSrc :=
  let (n, r') := r.next xs.length
  ((xs.rotate n).take k, r')

/-- Apply `typoWord` at each sampled index in turn (`for idx in indices`). -/
def applyTyposAt (r : RSrc) (ws : List String) : List Nat → List String × RSrc
  | [] => (ws, r)
  | i :: is =>
      let (w', r') := typoWord r (ws.getD i "")
      applyTyposAt r' (ws.set i w') is

/-- `_apply_typos`: the final string-level typo pass. -/
def applyTypos (seed : Int) (text : String) : String :=
  let r := mkRng seed "typos"
  let words := splitWs text
  if words.isEmpty then text
  else
    let (numTypos, r1) :=
      if words.length < 5 then
        let (p, r') := r.below 700000
        ((if p then 1 else 0), r')
      else
        let (p, r') := r.below 800000
        if p then r'.choiceD [1, 2] 1
        else (0, r')
    if numTypos = 0 then text
    else
      let typoable := typoableIndices words
      if typoable.isEmpty then text
      else
        let (idxs, r2) := sampleIdx r1 typoable (min numTypos typoable.length)
        joinSep " " (applyTyposAt r2 words idxs).1

/-- Combine rendered clause parts: join the texts, add the ghost counters. -/
def partsJoin (ps : List (String × Nat)) (sep : String) : String × Nat :=
  (joinSep sep (ps.map Prod.fst), (ps.map Prod.snd).sum)

/-- Flatten an optional clause into a part list. -/
def optPart : Option (String × Nat) → List (String × Nat)
  | none => []
  | some p => [p]

/-- The joined table expression of a join node (`join_node.this`). -/
def joinTableOf : E → E
  | .join _ tE _ => tE
  | e => e

/-- INSERT column list rendering (the column loop of `render_insert`). -/
def renderInsertCols (act : PerturbationType → Bool) (seed : Int) :
    Nat → List String → List String
  | _, [] => []
  | i, c :: cs =>
      (if act .columnVariations then
        let r := mkRng seed ("insert_col_" ++ toString i)
        if hasSub c "_" then
          let (b, _) := r.choiceD [true, false] true
          if b then camelCase c else c
        else c
      else c) :: renderInsertCols act seed (i + 1) cs

/-- `[f"{c} {v}" for c, v in zip(cols, vals)]`. -/
def zipPairs : List String → List String → List String
  | c :: cs, v :: vs => (c ++ " " ++ v) :: zipPairs cs vs
  | _, _ => []


/-! A structural size for AST nodes, used to supply sufficient fuel to the
recursive renderer below. -/

mutual
/-- Node count of an expression. -/
def sizeE : E → Nat
  | .star => 1
  | .tbl _ _ => 1
  | .ident _ => 1
  | .col _ _ => 1
  | .litNum _ => 1
  | .litStr _ => 1
  | .boolE _ => 1
  | .bin _ l r => 1 + sizeE l + sizeE r
  | .inSub l q => 1 + sizeE l + sizeE q
  | .inList l vs => 1 + sizeE l + sizeEL vs
  | .agg _ arg => 1 + sizeE arg
  | .anon _ args => 1 + sizeEL args
  | .currentTs => 1
  | .dateSub d arg => 1 + sizeE d + sizeE arg
  | .dateAdd d arg => 1 + sizeE d + sizeE arg
  | .interval v _ => 1 + sizeE v
  | .ordered e _ => 1 + sizeE e
  | .limitNode e => 1 + sizeE e
  | .aliasE e _ => 1 + sizeE e
  | .subq q _ => 1 + sizeE q
  | .join _ tE onE => 1 + sizeE tE + (match onE with | some c => sizeE c | none => 0)
  | .select cols src joins whereE group having order limit =>
      1 + sizeEL cols + (match src with | some s => sizeE s | none => 0) +
      sizeEL joins + (match whereE with | some w => sizeE w | none => 0) +
      sizeEL group + (match having with | some h => sizeE h | none => 0) +
      sizeEL order + (match limit with | some l => sizeE l | none => 0)
  | .insert tableE _ vals => 1 + sizeE tableE + sizeEL vals
  | .update tableE sets whereE =>
      1 + sizeE tableE + sizeEL sets + (match whereE with | some w => sizeE w | none => 0)
  | .delete tableE whereE =>
      1 + sizeE tableE + (match whereE with | some w => sizeE w | none => 0)
  | .other => 1

/-- Node count of an expression list. -/
def sizeEL : EL → Nat
  | .nil => 0
  | .cons e es => 1 + sizeE e + sizeEL es
end

/-! The recursive renderer core.  One function per method of
`SQLToNLRenderer`; every function carries the active-perturbation test and
the seed, and returns the rendered text together with the ghost pronoun
counter.  The recursion is bounded by an explicit fuel parameter so that
every function is structurally recursive and computable by the kernel; the
top-level entry point supplies fuel exceeding every chain of recursive
calls, so the out-of-fuel sentinel `("", 0)` is never reached from it. -/

set_option maxHeartbeats 2000000 in
mutual
/-- `_render_expression` (lines 408-500). -/
def renderExpr : Nat → (PerturbationType → Bool) → Int → E → String → String × Nat
  | 0, _, _, _, _ => ("", 0)
  | fuel + 1, act, seed, e, ctx =>
    match e with
    | .col n t => renderColumn act seed n t ctx
    | .litNum n => renderLiteral act seed (toString n) ctx
    | .litStr s => renderLiteral act seed s ctx
    | .boolE b => ((if b then "TRUE" else "FALSE"), 0)
    | .agg _ _ => renderAggregate fuel act seed e ctx
    | .bin _ _ _ => renderBinaryOp fuel act seed e ctx
    | .inSub l q =>
        let left := renderExpr fuel act seed l (ctx ++ "_left")
        (match q with
        | .subq inner _ =>
            (match inner with
            | .select _ _ _ _ _ _ _ _ =>
                let innerR := renderSelect fuel act seed inner
                (left.1 ++ " in (" ++ rstripDots innerR.1 ++ ")", left.2 + innerR.2)
            | _ => (left.1 ++ " in (subquery)", left.2))
        | _ => (left.1 ++ " in ()", left.2))
    | .inList l vs =>
        let left := renderExpr fuel act seed l (ctx ++ "_left")
        (match vs with
        | .nil => (left.1 ++ " in ()", left.2)
        | vs' =>
            let items := renderInItems fuel act seed ctx 0 vs'
            (left.1 ++ " in (" ++ joinSep ", " (items.map Prod.fst) ++ ")",
             left.2 + (items.map Prod.snd).sum))
    | .anon name args =>
        let argRs := renderAnonArgs fuel act seed ctx 0 args
        (name ++ "(" ++ joinSep ", " (argRs.map Prod.fst) ++ ")",
         (argRs.map Prod.snd).sum)
    | .currentTs => ("NOW()", 0)
    | .dateSub d arg =>
        let dateR := renderExpr fuel act seed d (ctx ++ "_date")
        (match arg with
        | .interval v unit =>
            let valueR := renderExpr fuel act seed v (ctx ++ "_interval_val")
            (dateR.1 ++ " minus " ++ valueR.1 ++ " " ++ toLowerStr unit ++ "s",
             dateR.2 + valueR.2)
        | _ => ("date subtraction from " ++ dateR.1, dateR.2))
    | .dateAdd d arg =>
        let dateR := renderExpr fuel act seed d (ctx ++ "_date")
        (match arg with
        | .interval v unit =>
            let valueR := renderExpr fuel act seed v (ctx ++ "_interval_val")
            (dateR.1 ++ " plus " ++ valueR.1 ++ " " ++ toLowerStr unit ++ "s",
             dateR.2 + valueR.2)
        | _ => ("date addition to " ++ dateR.1, dateR.2))
    | .interval v unit =>
        let valueR := renderExpr fuel act seed v (ctx ++ "_val")
        (valueR.1 ++ " " ++ toLowerStr unit ++ "s", valueR.2)
    | _ => ("expression", 0)
  termination_by structural fl => fl

/-- `_render_binary_op` (lines 502-535). -/
def renderBinaryOp : Nat → (PerturbationType → Bool) → Int → E → String → String × Nat
  | 0, _, _, _, _ => ("", 0)
  | fuel + 1, act, seed, e, ctx =>
    match e with
    | .bin op l rE =>
        let left := renderExpr fuel act seed l (ctx ++ "_left")
        let right := renderExpr fuel act seed rE (ctx ++ "_right")
        let opCanonical :=
          match op with
          | .eq => "equals"
          | .neq => "not equals"
          | .gt => "greater than"
          | .gte => "greater than or equal to"
          | .lt => "less than"
          | .lte => "less than or equal to"
          | .like => "like"
        let inWhere := hasSub (toLowerStr ctx) "where"
        if act .implicitBusinessLogic && inWhere && !(hasSub (toLowerStr ctx) "join")
            && op == .eq then
          let r := mkRng seed (ctx ++ "_biz")
          (left.1 ++ " is " ++ (r.choiceD ["valid", "active"] "valid").1, left.2)
        else if act .missingWhereDetails && inWhere && (op == .gt || op == .gte) then
          (left.1 ++ " " ++ chooseWord act seed opCanonical ctx ++ " the high threshold",
           left.2)
        else if act .missingWhereDetails && inWhere && (op == .lt || op == .lte) then
          (left.1 ++ " " ++ chooseWord act seed opCanonical ctx ++ " the low threshold",
           left.2)
        else if act .missingWhereDetails && inWhere && op == .eq then
          (left.1 ++ " is the relevant one", left.2)
        else if act .missingWhereDetails && inWhere && op == .like then
          (left.1 ++ " matches the pattern", left.2)
        else
          (left.1 ++ " " ++ chooseWord act seed opCanonical (ctx ++ "_op") ++ " " ++
            right.1, left.2 + right.2)
    | _ => ("expression", 0)
  termination_by structural fl => fl

/-- `_render_aggregate` (lines 537-567). -/
def renderAggregate : Nat → (PerturbationType → Bool) → Int → E → String → String × Nat
  | 0, _, _, _, _ => ("", 0)
  | fuel + 1, act, seed, e, ctx =>
    match e with
    | .agg k arg =>
        let r := mkRng seed (ctx ++ "_agg_var")
        let options := aggVariations k
        let template :=
          if act .vagueAggregation then (r.choiceD (vagueMaps k) "value").1
          else if !(act .synonymSubstitution) then options.headD ""
          else (r.choiceD options "").1
        (match arg with
        | .star =>
            ((if !(hasSub template "of") then template ++ " of all rows"
              else template ++ " all rows"), 0)
        | _ =>
            let colR := renderExpr fuel act seed arg (ctx ++ "_inner")
            ((if !(hasSub template "of") then template ++ " of " ++ colR.1
              else template ++ " " ++ colR.1), colR.2))
    | _ => ("expression", 0)
  termination_by structural fl => fl

/-- `_render_join` (lines 569-589). -/
def renderJoin : Nat → (PerturbationType → Bool) → Int → E → String → String × Nat
  | 0, _, _, _, _ => ("", 0)
  | fuel + 1, act, seed, e, ctx =>
    if act .incompleteJoins then
      let r := mkRng seed (ctx ++ "_inc_join")
      let connector := (r.choiceD ["with", "and their", "along with"] "with").1
      let tableR := renderTable act seed (joinTableOf e) (ctx ++ "_join_table")
      (connector ++ " " ++ tableR.1, tableR.2)
    else
      let side := match e with | .join s _ _ => s | _ => ""
      let joinType := if side != "" then side ++ " " else ""
      let tableR := renderTable act seed (joinTableOf e) (ctx ++ "_join_table")
      let onR :=
        match e with
        | .join _ _ (some onC) =>
            let condR := renderExpr fuel act seed onC (ctx ++ "_on")
            (" on " ++ condR.1, condR.2)
        | _ => ("", 0)
      let joinWord := chooseWord act seed "joined with" (ctx ++ "_join_kw")
      (joinType ++ joinWord ++ " " ++ tableR.1 ++ onR.1, tableR.2 + onR.2)
  termination_by structural fl => fl

/-- The item loop of `_render_select_clause`. -/
def renderSelectItems : Nat → (PerturbationType → Bool) → Int → Nat → EL →
    List (String × Nat)
  | 0, _, _, _, _ => []
  | fuel + 1, act, seed, i, es =>
    match es with
    | .nil => []
    | .cons e rest =>
        (match e with
        | .star => ("all columns", 0)
        | .agg _ _ => renderAggregate fuel act seed e ("expr_" ++ toString i)
        | _ => renderExpr fuel act seed e ("expr_" ++ toString i)) ::
        renderSelectItems fuel act seed (i + 1) rest
  termination_by structural fl => fl

/-- The join loop of `_render_from_clause`. -/
def renderJoins : Nat → (PerturbationType → Bool) → Int → Nat → EL →
    List (String × Nat)
  | 0, _, _, _, _ => []
  | fuel + 1, act, seed, i, js =>
    match js with
    | .nil => []
    | .cons j rest =>
        renderJoin fuel act seed j ("join_" ++ toString i) ::
        renderJoins fuel act seed (i + 1) rest
  termination_by structural fl => fl

/-- Generic indexed item loop used by GROUP BY (`group_{i}`). -/
def renderCtxItems : Nat → (PerturbationType → Bool) → Int → String → Nat → EL →
    List (String × Nat)
  | 0, _, _, _, _, _ => []
  | fuel + 1, act, seed, pre, i, es =>
    match es with
    | .nil => []
    | .cons e rest =>
        renderExpr fuel act seed e (pre ++ toString i) ::
        renderCtxItems fuel act seed pre (i + 1) rest
  termination_by structural fl => fl

/-- The item loop of `_render_order_by_clause` (`order_{i}`). -/
def renderOrderItems : Nat → (PerturbationType → Bool) → Int → Nat → EL →
    List (String × Nat)
  | 0, _, _, _, _ => []
  | fuel + 1, act, seed, i, es =>
    match es with
    | .nil => []
    | .cons e rest =>
        (match e with
        | .ordered x desc =>
            let colR := renderExpr fuel act seed x ("order_" ++ toString i)
            (colR.1 ++ " " ++ (if desc then "descending" else "ascending"), colR.2)
        | x => renderExpr fuel act seed x ("order_" ++ toString i)) ::
        renderOrderItems fuel act seed (i + 1) rest
  termination_by structural fl => fl

/-- The value loop of the IN-list branch of `_render_expression`
(`{seed_context}_in_{i}` contexts, braces standing for interpolation). -/
def renderInItems : Nat → (PerturbationType → Bool) → Int → String → Nat → EL →
    List (String × Nat)
  | 0, _, _, _, _, _ => []
  | fuel + 1, act, seed, ctx, i, vs =>
    match vs with
    | .nil => []
    | .cons v rest =>
        renderExpr fuel act seed v (ctx ++ "_in_" ++ toString i) ::
        renderInItems fuel act seed ctx (i + 1) rest
  termination_by structural fl => fl

/-- The argument loop of the `exp.Anonymous` branch. -/
def renderAnonArgs : Nat → (PerturbationType → Bool) → Int → String → Nat → EL →
    List (String × Nat)
  | 0, _, _, _, _, _ => []
  | fuel + 1, act, seed, ctx, i, as' =>
    match as' with
    | .nil => []
    | .cons a rest =>
        renderExpr fuel act seed a (ctx ++ "_arg_" ++ toString i) ::
        renderAnonArgs fuel act seed ctx (i + 1) rest
  termination_by structural fl => fl

/-- `_render_select_clause` (lines 238-255), on the select list. -/
def renderSelectClause : Nat → (PerturbationType → Bool) → Int → EL → String × Nat
  | 0, _, _, _ => ("", 0)
  | fuel + 1, act, seed, cols =>
    let getWord := chooseWord act seed "get" "select_clause_verb"
    match cols with
    | .nil => (getWord ++ " all columns", 0)
    | cs =>
        let items := renderSelectItems fuel act seed 0 cs
        (getWord ++ " " ++ joinSep ", " (items.map Prod.fst),
         (items.map Prod.snd).sum)
  termination_by structural fl => fl

/-- `_render_from_clause` (lines 257-273); `none` when the statement has no
FROM source. -/
def renderFromClause : Nat → (PerturbationType → Bool) → Int → E →
    Option (String × Nat)
  | 0, _, _, _ => none
  | fuel + 1, act, seed, node =>
    match node with
    | .select _ (some tE) joins _ _ _ _ _ =>
        let tableR := renderTable act seed tE "from_table"
        let fromWord := chooseWord act seed "from" "from_clause"
        some (partsJoin ((fromWord ++ " " ++ tableR.1, tableR.2) ::
          renderJoins fuel act seed 0 joins) " ")
    | _ => none
  termination_by structural fl => fl

/-- `_render_where_clause` (lines 275-283). -/
def renderWhereClause : Nat → (PerturbationType → Bool) → Int → E →
    Option (String × Nat)
  | 0, _, _, _ => none
  | fuel + 1, act, seed, node =>
    match node with
    | .select _ _ _ (some c) _ _ _ _ =>
        let condR := renderExpr fuel act seed c "where_condition"
        some (chooseWord act seed "where" "where_clause" ++ " " ++ condR.1, condR.2)
    | _ => none
  termination_by structural fl => fl

/-- `_render_group_by_clause` (lines 285-300). -/
def renderGroupByClause : Nat → (PerturbationType → Bool) → Int → E →
    Option (String × Nat)
  | 0, _, _, _ => none
  | fuel + 1, act, seed, node =>
    match node with
    | .select _ _ _ _ (.cons g gs) _ _ _ =>
        let cols := renderCtxItems fuel act seed "group_" 0 (.cons g gs)
        let groupedWord :=
          if act .vagueAggregation then
            ((mkRng seed "vague_group").choiceD ["by", "for each", "per"] "by").1
          else chooseWord act seed "grouped by" "group_clause"
        some (groupedWord ++ " " ++ joinSep ", " (cols.map Prod.fst),
          (cols.map Prod.snd).sum)
    | _ => none
  termination_by structural fl => fl

/-- `_render_having_clause` (lines 302-308). -/
def renderHavingClause : Nat → (PerturbationType → Bool) → Int → E →
    Option (String × Nat)
  | 0, _, _, _ => none
  | fuel + 1, act, seed, node =>
    match node with
    | .select _ _ _ _ _ (some h) _ _ =>
        let condR := renderExpr fuel act seed h "having_condition"
        some (chooseWord act seed "having" "having_clause" ++ " " ++ condR.1, condR.2)
    | _ => none
  termination_by structural fl => fl

/-- `_render_order_by_clause` (lines 310-327). -/
def renderOrderByClause : Nat → (PerturbationType → Bool) → Int → E →
    Option (String × Nat)
  | 0, _, _, _ => none
  | fuel + 1, act, seed, node =>
    match node with
    | .select _ _ _ _ _ _ (.cons o os) _ =>
        let items := renderOrderItems fuel act seed 0 (.cons o os)
        some (chooseWord act seed "ordered by" "order_clause" ++ " " ++
          joinSep ", " (items.map Prod.fst), (items.map Prod.snd).sum)
    | _ => none
  termination_by structural fl => fl

/-- `_render_limit_clause` (lines 329-340). -/
def renderLimitClause : Nat → (PerturbationType → Bool) → Int → E →
    Option (String × Nat)
  | 0, _, _, _ => none
  | fuel + 1, act, seed, node =>
    match node with
    | .select _ _ _ _ _ _ _ (some l) =>
        let valR :=
          match l with
          | .limitNode x => renderExpr fuel act seed x "limit_val"
          | x => renderExpr fuel act seed x "limit_val"
        some (chooseWord act seed "limited to" "limit_clause" ++ " " ++ valR.1 ++
          " results", valR.2)
    | _ => none
  termination_by structural fl => fl

/-- `render_select` (lines 194-236). -/
def renderSelect : Nat → (PerturbationType → Bool) → Int → E → String × Nat
  | 0, _, _, _ => ("", 0)
  | fuel + 1, act, seed, node =>
    match node with
    | .select cols _ _ _ _ _ _ _ =>
        let parts :=
          [renderSelectClause fuel act seed cols] ++
          optPart (renderFromClause fuel act seed node) ++
          optPart (renderWhereClause fuel act seed node) ++
          optPart (renderGroupByClause fuel act seed node) ++
          optPart (renderHavingClause fuel act seed node) ++
          optPart (renderOrderByClause fuel act seed node) ++
          optPart (renderLimitClause fuel act seed node)
        let full := partsJoin parts " "
        (endDot full.1, full.2)
    | _ => ("", 0)
  termination_by structural fl => fl

/-- The VALUES loop of `render_insert` (`insert_val_{i}`). -/
def renderInsertVals : Nat → (PerturbationType → Bool) → Int → Nat → EL →
    List (String × Nat)
  | 0, _, _, _, _ => []
  | fuel + 1, act, seed, i, vs =>
    match vs with
    | .nil => []
    | .cons v rest =>
        renderExpr fuel act seed v ("insert_val_" ++ toString i) ::
        renderInsertVals fuel act seed (i + 1) rest
  termination_by structural fl => fl

/-- The SET loop of `render_update`: only `exp.EQ` items are rendered, the
enumeration index advances over every item. -/
def renderUpdateSets : Nat → (PerturbationType → Bool) → Int → Nat → EL →
    List (String × Nat)
  | 0, _, _, _, _ => []
  | fuel + 1, act, seed, i, es =>
    match es with
    | .nil => []
    | .cons e rest =>
        match e with
        | .bin .eq l rE =>
            let colR := renderExpr fuel act seed l ("update_col_" ++ toString i)
            let valR := renderExpr fuel act seed rE ("update_val_" ++ toString i)
            (colR.1 ++ " = " ++ valR.1, colR.2 + valR.2) ::
              renderUpdateSets fuel act seed (i + 1) rest
        | _ => renderUpdateSets fuel act seed (i + 1) rest
  termination_by structural fl => fl

/-- `render_insert` (lines 592-647). -/
def renderInsertStmt : Nat → (PerturbationType → Bool) → Int → E → String × Nat
  | 0, _, _, _ => ("", 0)
  | fuel + 1, act, seed, node =>
    match node with
    | .insert tableE colsL vals =>
        let tableR := renderTable act seed tableE "insert_table"
        (match colsL, vals with
        | c :: cs, .cons v vs =>
            let colsRendered := renderInsertCols act seed 0 (c :: cs)
            let valsR := renderInsertVals fuel act seed 0 (.cons v vs)
            ("Insert into " ++ tableR.1 ++ " with " ++
              joinSep ", " (zipPairs colsRendered (valsR.map Prod.fst)) ++ ".",
             tableR.2 + (valsR.map Prod.snd).sum)
        | _, _ => ("Insert into " ++ tableR.1 ++ ".", tableR.2))
    | _ => ("", 0)

/-- `render_update` (lines 649-673). -/
def renderUpdateStmt : Nat → (PerturbationType → Bool) → Int → E → String × Nat
  | 0, _, _, _ => ("", 0)
  | fuel + 1, act, seed, node =>
    match node with
    | .update tableE sets whereE =>
        let tableR := renderTable act seed tableE "update_table"
        let setPairs := renderUpdateSets fuel act seed 0 sets
        let setParts :=
          match setPairs with
          | [] => []
          | ps => [("set " ++ joinSep ", " (ps.map Prod.fst), (ps.map Prod.snd).sum)]
        let whereParts :=
          match whereE with
          | some c =>
              let condR := renderExpr fuel act seed c "update_where"
              [(chooseWord act seed "where" "update_where_clause" ++ " " ++ condR.1,
                condR.2)]
          | none => []
        let full := partsJoin (("Update " ++ tableR.1, tableR.2) :: setParts ++
          whereParts) " "
        (full.1 ++ ".", full.2)
    | _ => ("", 0)

/-- `render_delete` (lines 675-687). -/
def renderDeleteStmt : Nat → (PerturbationType → Bool) → Int → E → String × Nat
  | 0, _, _, _ => ("", 0)
  | fuel + 1, act, seed, node =>
    match node with
    | .delete tableE whereE =>
        let tableR := renderTable act seed tableE "delete_table"
        let whereParts :=
          match whereE with
          | some c =>
              let condR := renderExpr fuel act seed c "delete_where"
              [(chooseWord act seed "where" "delete_where_clause" ++ " " ++ condR.1,
                condR.2)]
          | none => []
        let full := partsJoin (("Delete from " ++ tableR.1, tableR.2) :: whereParts) " "
        (full.1 ++ ".", full.2)
    | _ => ("", 0)
end

/-- Fuel sufficient for every chain of recursive calls on `ast`: each call
either strictly shrinks the node or moves (at most four times in a row) to a
helper on the same node. -/
def renderFuel (ast : E) : Nat := 8 * sizeE ast + 8

/-- `render` (lines 109-129): statement dispatch plus the final TYPOS pass.
`sqlText` models the external sqlglot serializer used only by the fallback
arm for non-statement roots. -/
def renderA (act : PerturbationType → Bool) (seed : Int) (sqlText : E → String) (ast : E) :
    String × Nat :=
  let fuel := renderFuel ast
  let base :=
    match ast with
    | .select _ _ _ _ _ _ _ _ => renderSelect fuel act seed ast
    | .insert _ _ _ => renderInsertStmt fuel act seed ast
    | .update _ _ _ => renderUpdateStmt fuel act seed ast
    | .delete _ _ => renderDeleteStmt fuel act seed ast
    | e => ("Execute statement: " ++ sqlText e, 0)
  if act .typos then (applyTypos seed base.1, base.2) else base

/-- Rendering under a `PerturbationConfig`: the configuration enters only
through its active-membership test and its seed. -/
def render (sqlText : E → String) (cfg : PerturbationConfig) (ast : E) : String × Nat :=
  renderA (fun p => cfg.isActive p) cfg.seed sqlText ast


/-! Walkers over the AST used by the applicability predicates
(`is_applicable`, nl_renderer.py lines 150-190).  Each mirrors
`ast.find`/`ast.find_all`/`ast.walk` restricted to the node kinds tested. -/

mutual
/-- Is there an `exp.Table` node anywhere in the tree? -/
def hasTableE : E → Bool
  | .tbl _ _ => true
  | .bin _ l r => hasTableE l || hasTableE r
  | .inSub l q => hasTableE l || hasTableE q
  | .inList l vs => hasTableE l || hasTableEL vs
  | .agg _ arg => hasTableE arg
  | .anon _ args => hasTableEL args
  | .dateSub d arg => hasTableE d || hasTableE arg
  | .dateAdd d arg => hasTableE d || hasTableE arg
  | .interval v _ => hasTableE v
  | .ordered e _ => hasTableE e
  | .limitNode e => hasTableE e
  | .aliasE e _ => hasTableE e
  | .subq q _ => hasTableE q
  | .join _ tE onE => hasTableE tE || (match onE with | some c => hasTableE c | none => false)
  | .select cols src joins whereE group having order limit =>
      hasTableEL cols || (match src with | some s => hasTableE s | none => false) ||
      hasTableEL joins || (match whereE with | some w => hasTableE w | none => false) ||
      hasTableEL group || (match having with | some h => hasTableE h | none => false) ||
      hasTableEL order || (match limit with | some l => hasTableE l | none => false)
  | .insert tableE _ vals => hasTableE tableE || hasTableEL vals
  | .update tableE sets whereE =>
      hasTableE tableE || hasTableEL sets ||
      (match whereE with | some w => hasTableE w | none => false)
  | .delete tableE whereE =>
      hasTableE tableE || (match whereE with | some w => hasTableE w | none => false)
  | _ => false

/-- List version of `hasTableE`. -/
def hasTableEL : EL → Bool
  | .nil => false
  | .cons e es => hasTableE e || hasTableEL es
end

mutual
/-- Is there an `exp.Column` node anywhere in the tree? -/
def hasColumnE : E → Bool
  | .col _ _ => true
  | .bin _ l r => hasColumnE l || hasColumnE r
  | .inSub l q => hasColumnE l || hasColumnE q
  | .inList l vs => hasColumnE l || hasColumnEL vs
  | .agg _ arg => hasColumnE arg
  | .anon _ args => hasColumnEL args
  | .dateSub d arg => hasColumnE d || hasColumnE arg
  | .dateAdd d arg => hasColumnE d || hasColumnE arg
  | .interval v _ => hasColumnE v
  | .ordered e _ => hasColumnE e
  | .limitNode e => hasColumnE e
  | .aliasE e _ => hasColumnE e
  | .subq q _ => hasColumnE q
  | .join _ tE onE => hasColumnE tE || (match onE with | some c => hasColumnE c | none => false)
  | .select cols src joins whereE group having order limit =>
      hasColumnEL cols || (match src with | some s => hasColumnE s | none => false) ||
      hasColumnEL joins || (match whereE with | some w => hasColumnE w | none => false) ||
      hasColumnEL group || (match having with | some h => hasColumnE h | none => false) ||
      hasColumnEL order || (match limit with | some l => hasColumnE l | none => false)
  | .insert tableE _ vals => hasColumnE tableE || hasColumnEL vals
  | .update tableE sets whereE =>
      hasColumnE tableE || hasColumnEL sets ||
      (match whereE with | some w => hasColumnE w | none => false)
  | .delete tableE whereE =>
      hasColumnE tableE || (match whereE with | some w => hasColumnE w | none => false)
  | _ => false

/-- List version of `hasColumnE`. -/
def hasColumnEL : EL → Bool
  | .nil => false
  | .cons e es => hasColumnE e || hasColumnEL es
end

mutual
/-- Is there an `exp.Where` node (a present WHERE argument of a
SELECT/UPDATE/DELETE) anywhere in the tree? -/
def hasWhereE : E → Bool
  | .bin _ l r => hasWhereE l || hasWhereE r
  | .inSub l q => hasWhereE l || hasWhereE q
  | .inList l vs => hasWhereE l || hasWhereEL vs
  | .agg _ arg => hasWhereE arg
  | .anon _ args => hasWhereEL args
  | .dateSub d arg => hasWhereE d || hasWhereE arg
  | .dateAdd d arg => hasWhereE d || hasWhereE arg
  | .interval v _ => hasWhereE v
  | .ordered e _ => hasWhereE e
  | .limitNode e => hasWhereE e
  | .aliasE e _ => hasWhereE e
  | .subq q _ => hasWhereE q
  | .join _ tE onE => hasWhereE tE || (match onE with | some c => hasWhereE c | none => false)
  | .select cols src joins whereE group having order limit =>
      whereE.isSome ||
      hasWhereEL cols || (match src with | some s => hasWhereE s | none => false) ||
      hasWhereEL joins || (match whereE with | some w => hasWhereE w | none => false) ||
      hasWhereEL group || (match having with | some h => hasWhereE h | none => false) ||
      hasWhereEL order || (match limit with | some l => hasWhereE l | none => false)
  | .insert tableE _ vals => hasWhereE tableE || hasWhereEL vals
  | .update tableE sets whereE =>
      whereE.isSome || hasWhereE tableE || hasWhereEL sets ||
      (match whereE with | some w => hasWhereE w | none => false)
  | .delete tableE whereE =>
      whereE.isSome || hasWhereE tableE ||
      (match whereE with | some w => hasWhereE w | none => false)
  | _ => false

/-- List version of `hasWhereE`. -/
def hasWhereEL : EL → Bool
  | .nil => false
  | .cons e es => hasWhereE e || hasWhereEL es
end

mutual
/-- Is there an `exp.Join` node anywhere in the tree? -/
def hasJoinE : E → Bool
  | .join _ _ _ => true
  | .bin _ l r => hasJoinE l || hasJoinE r
  | .inSub l q => hasJoinE l || hasJoinE q
  | .inList l vs => hasJoinE l || hasJoinEL vs
  | .agg _ arg => hasJoinE arg
  | .anon _ args => hasJoinEL args
  | .dateSub d arg => hasJoinE d || hasJoinE arg
  | .dateAdd d arg => hasJoinE d || hasJoinE arg
  | .interval v _ => hasJoinE v
  | .ordered e _ => hasJoinE e
  | .limitNode e => hasJoinE e
  | .aliasE e _ => hasJoinE e
  | .subq q _ => hasJoinE q
  | .select cols src joins whereE group having order limit =>
      hasJoinEL cols || (match src with | some s => hasJoinE s | none => false) ||
      hasJoinEL joins || (match whereE with | some w => hasJoinE w | none => false) ||
      hasJoinEL group || (match having with | some h => hasJoinE h | none => false) ||
      hasJoinEL order || (match limit with | some l => hasJoinE l | none => false)
  | .insert tableE _ vals => hasJoinE tableE || hasJoinEL vals
  | .update tableE sets whereE =>
      hasJoinE tableE || hasJoinEL sets ||
      (match whereE with | some w => hasJoinE w | none => false)
  | .delete tableE whereE =>
      hasJoinE tableE || (match whereE with | some w => hasJoinE w | none => false)
  | _ => false

/-- List version of `hasJoinE`. -/
def hasJoinEL : EL → Bool
  | .nil => false
  | .cons e es => hasJoinE e || hasJoinEL es
end

/-- The per-literal test of the RELATIVE_TEMPORAL walk: the literal value
string contains a dash and a digit (the "weak date check"). -/
def dateLikeStr (s : String) : Bool :=
  hasSub s "-" && s.data.any Char.isDigit

mutual
/-- The RELATIVE_TEMPORAL applicability walk: a date-like literal or one of
the `exp.Current*`/`exp.DateSub`/`exp.DateAdd` node kinds. -/
def hasTemporalE : E → Bool
  | .litNum n => dateLikeStr (toString n)
  | .litStr s => dateLikeStr s
  | .currentTs => true
  | .dateSub _ _ => true
  | .dateAdd _ _ => true
  | .bin _ l r => hasTemporalE l || hasTemporalE r
  | .inSub l q => hasTemporalE l || hasTemporalE q
  | .inList l vs => hasTemporalE l || hasTemporalEL vs
  | .agg _ arg => hasTemporalE arg
  | .anon _ args => hasTemporalEL args
  | .interval v _ => hasTemporalE v
  | .ordered e _ => hasTemporalE e
  | .limitNode e => hasTemporalE e
  | .aliasE e _ => hasTemporalE e
  | .subq q _ => hasTemporalE q
  | .join _ tE onE => hasTemporalE tE || (match onE with | some c => hasTemporalE c | none => false)
  | .select cols src joins whereE group having order limit =>
      hasTemporalEL cols || (match src with | some s => hasTemporalE s | none => false) ||
      hasTemporalEL joins || (match whereE with | some w => hasTemporalE w | none => false) ||
      hasTemporalEL group || (match having with | some h => hasTemporalE h | none => false) ||
      hasTemporalEL order || (match limit with | some l => hasTemporalE l | none => false)
  | .insert tableE _ vals => hasTemporalE tableE || hasTemporalEL vals
  | .update tableE sets whereE =>
      hasTemporalE tableE || hasTemporalEL sets ||
      (match whereE with | some w => hasTemporalE w | none => false)
  | .delete tableE whereE =>
      hasTemporalE tableE || (match whereE with | some w => hasTemporalE w | none => false)
  | _ => false

/-- List version of `hasTemporalE`. -/
def hasTemporalEL : EL → Bool
  | .nil => false
  | .cons e es => hasTemporalE e || hasTemporalEL es
end

mutual
/-- The VAGUE_AGGREGATION applicability walk: a GROUP BY (a non-empty group
argument) or an aggregate function node. -/
def hasGroupAggE : E → Bool
  | .agg _ _ => true
  | .bin _ l r => hasGroupAggE l || hasGroupAggE r
  | .inSub l q => hasGroupAggE l || hasGroupAggE q
  | .inList l vs => hasGroupAggE l || hasGroupAggEL vs
  | .anon _ args => hasGroupAggEL args
  | .dateSub d arg => hasGroupAggE d || hasGroupAggE arg
  | .dateAdd d arg => hasGroupAggE d || hasGroupAggE arg
  | .interval v _ => hasGroupAggE v
  | .ordered e _ => hasGroupAggE e
  | .limitNode e => hasGroupAggE e
  | .aliasE e _ => hasGroupAggE e
  | .subq q _ => hasGroupAggE q
  | .join _ tE onE => hasGroupAggE tE || (match onE with | some c => hasGroupAggE c | none => false)
  | .select cols src joins whereE group having order limit =>
      (match group with | .cons _ _ => true | .nil => false) ||
      hasGroupAggEL cols || (match src with | some s => hasGroupAggE s | none => false) ||
      hasGroupAggEL joins || (match whereE with | some w => hasGroupAggE w | none => false) ||
      hasGroupAggEL group || (match having with | some h => hasGroupAggE h | none => false) ||
      hasGroupAggEL order || (match limit with | some l => hasGroupAggE l | none => false)
  | .insert tableE _ vals => hasGroupAggE tableE || hasGroupAggEL vals
  | .update tableE sets whereE =>
      hasGroupAggE tableE || hasGroupAggEL sets ||
      (match whereE with | some w => hasGroupAggE w | none => false)
  | .delete tableE whereE =>
      hasGroupAggE tableE || (match whereE with | some w => hasGroupAggE w | none => false)
  | _ => false

/-- List version of `hasGroupAggE`. -/
def hasGroupAggEL : EL → Bool
  | .nil => false
  | .cons e es => hasGroupAggE e || hasGroupAggEL es
end

/-- `SQLToNLRenderer.is_applicable` (lines 150-190). -/
def isApplicable (ast : E) (p : PerturbationType) : Bool :=
  match p with
  | .typos => true
  | .synonymSubstitution => true
  | .underSpecification => hasTableE ast || hasColumnE ast
  | .implicitBusinessLogic => hasWhereE ast
  | .incompleteJoins => hasJoinE ast
  | .relativeTemporal => hasTemporalE ast
  | .ambiguousPronouns => hasTableE ast || hasColumnE ast
  | .vagueAggregation => hasGroupAggE ast
  | .columnVariations => hasColumnE ast
  | .missingWhereDetails => hasWhereE ast

/-! Variant-record assembly (`generate_benchmark_dataset`, main.py lines
76-100). -/

/-- One entry of the `single_perturbations` list. -/
structure PerturbationRecord where
  perturbationId : Nat
  perturbationName : String
  applicable : Bool
  perturbedNlPrompt : Option String
  changesMade : Option String
  reasonNotApplicable : Option String

/-- `get_change_description` (main.py lines 15-29). -/
def getChangeDescription : PerturbationType → String
  | .underSpecification => "Omitted explicit table or column names."
  | .implicitBusinessLogic =>
      "Replaced specific filter conditions with specific business logic terms."
  | .synonymSubstitution => "Replaced schema terms with synonyms."
  | .incompleteJoins => "Removed explicit keys and used natural language for joins."
  | .relativeTemporal => "Replaced absolute dates with relative terms."
  | .ambiguousPronouns => "Replaced schema references with ambiguous pronouns."
  | .vagueAggregation => "Replaced approximate aggregation functions with vague terms."
  | .columnVariations => "Modified column naming conventions."
  | .missingWhereDetails => "Used subjective terms in WHERE clauses."
  | .typos => "injected naturalistic typos."

/-- The per-perturbation record assembly of the dataset loop: applicability
is checked first; only applicable types are rendered (with exactly that one
type active and seed 42), inapplicable ones carry a null prompt and the
reason string. -/
def buildRecord (sqlText : E → String) (ast : E) (pid : Nat) (p : PerturbationType) :
    PerturbationRecord :=
  if isApplicable ast p then
    { perturbationId := pid
      perturbationName := p.value
      applicable := true
      perturbedNlPrompt := some (render sqlText { activePerturbations := [p], seed := 42 } ast).1
      changesMade := some (getChangeDescription p)
      reasonNotApplicable := none }
  else
    { perturbationId := pid
      perturbationName := p.value
      applicable := false
      perturbedNlPrompt := none
      changesMade := none
      reasonNotApplicable := some "Logic check failed." }

/-- Rendering with the post-call AST made explicit: the renderer only reads
the AST (no method of `SQLToNLRenderer` assigns into an AST node), so the
AST shared by reference with the caller is the input, unchanged. -/
def renderMutating (sqlText : E → String) (cfg : PerturbationConfig) (ast : E) :
    (String × Nat) × E :=
  (render sqlText cfg ast, ast)

/-- The AST that remains after `n` further render calls on it. -/
def renderIter (sqlText : E → String) (cfg : PerturbationConfig) : Nat → E → E
  | 0, ast => ast
  | n + 1, ast => renderIter sqlText cfg n (renderMutating sqlText cfg ast).2


/-! The schema data (src/core/schema.py). -/

/-- A schema: table name to ordered column/type list. -/
abbrev Schema := List (String × List (String × String))

/-- The Foreign-Key Graph: (left table, right table) to (left key, right key). -/
abbrev FKeys := List ((String × String) × (String × String))

/-- `SCHEMA` (schema.py lines 3-36). -/
def SCHEMA : Schema :=
  [("users", [("id", "int"), ("username", "varchar"), ("email", "varchar"),
      ("signup_date", "datetime"), ("is_verified", "boolean"),
      ("country_code", "varchar")]),
   ("posts", [("id", "int"), ("user_id", "int"), ("content", "text"),
      ("posted_at", "datetime"), ("view_count", "int")]),
   ("comments", [("id", "int"), ("user_id", "int"), ("post_id", "int"),
      ("comment_text", "text"), ("created_at", "datetime")]),
   ("likes", [("user_id", "int"), ("post_id", "int"), ("liked_at", "datetime")]),
   ("follows", [("follower_id", "int"), ("followee_id", "int"),
      ("followed_at", "datetime")])]

/-- `FOREIGN_KEYS` (schema.py lines 39-52). -/
def FOREIGN_KEYS : FKeys :=
  [(("users", "posts"), ("id", "user_id")),
   (("posts", "users"), ("user_id", "id")),
   (("users", "comments"), ("id", "user_id")),
   (("comments", "users"), ("user_id", "id")),
   (("posts", "comments"), ("id", "post_id")),
   (("comments", "posts"), ("post_id", "id")),
   (("users", "likes"), ("id", "user_id")),
   (("likes", "users"), ("user_id", "id")),
   (("posts", "likes"), ("id", "post_id")),
   (("likes", "posts"), ("post_id", "id")),
   (("users", "follows"), ("id", "follower_id")),
   (("follows", "users"), ("follower_id", "id"))]

/-- `NUMERIC_TYPES` (schema.py line 55). -/
def NUMERIC_TYPES : List String := ["int"]

/-- `TEXT_TYPES`. -/
def TEXT_TYPES : List String := ["varchar", "text"]

/-- `DATE_TYPES`. -/
def DATE_TYPES : List String := ["datetime"]

/-- `BOOLEAN_TYPES`. -/
def BOOLEAN_TYPES : List String := ["boolean"]

/-- The table names of a schema (`self.schema.keys()`). -/
def tableNames (s : Schema) : List String := s.map Prod.fst

/-- `self.schema[table]`: `none` models the KeyError. -/
def schemaCols (s : Schema) (t : String) : Option (List (String × String)) :=
  (s.find? (fun e => e.1 == t)).map Prod.snd

/-- `_get_column_type` on an already fetched column list
(`self.schema[table].get(column)`). -/
def getColumnType (colsT : List (String × String)) (c : String) : Option String :=
  (colsT.find? (fun e => e.1 == c)).map Prod.snd

/-- Does the optional type fall in the given category list
(`col_type in CATEGORY`)? -/
def typeIn (ct : Option String) (cat : List String) : Bool :=
  match ct with
  | some ty => cat.contains ty
  | none => false

/-! The module-level random stream of generator.py, modelled as an abstract
oracle: a function from draw index to natural number, threaded in
state-passing style.  Every theorem about the generator quantifies over the
oracle. -/

/-- Oracle state: the stream and the current draw position. -/
structure G where
  o : Nat → Nat
  k : Nat

/-- One draw below `bound` (at least 1). -/
def G.draw (g : G) (bound : Nat) : Nat × G :=
  (g.o g.k % max bound 1, { o := g.o, k := g.k + 1 })

/-- `random.choice xs`; `none` models the IndexError on an empty list. -/
def G.choose {α : Type} (g : G) (xs : List α) : Option α × G :=
  let (n, g') := g.draw xs.length
  (xs.get? n, g')

/-- `random.choice` on a literal non-empty list (never raising). -/
def G.choiceD {α : Type} (g : G) (xs : List α) (d : α) : α × G :=
  let (n, g') := g.draw xs.length
  (xs.getD n d, g')

/-- `random.random() < thr/1000000`. -/
def G.chance (g : G) (thr : Nat) : Bool × G :=
  let (n, g') := g.draw 1000000
  (n < thr, g')

/-- `random.randint a b`; `none` models the ValueError when `b < a`. -/
def G.randint (g : G) (a b : Nat) : Option Nat × G :=
  if b < a then (none, g)
  else
    let (n, g') := g.draw (b + 1 - a)
    (some (a + n), g')

/-- `random.randint a b` at call sites with literal bounds `a ≤ b`, where it
cannot raise. -/
def G.randintT (g : G) (a b : Nat) : Nat × G :=
  let (n, g') := g.draw (b + 1 - a)
  (a + n, g')

/-- `random.sample xs k` (`k` distinct elements, modelled as a rotation and
a prefix); `none` models the ValueError when `k > len xs`. -/
def G.sample {α : Type} (g : G) (xs : List α) (k : Nat) : Option (List α) × G :=
  let (n, g') := g.draw xs.length
  if xs.length < k then (none, g') else (some ((xs.rotate n).take k), g')

/-! `SQLQueryGenerator` (generator.py).  Every function takes the schema and
oracle explicitly; `none` results model raised exceptions. -/

/-- `_create_binary_op` (lines 95-102). -/
def createBinaryOp (op : String) (left right : E) : E :=
  if op == "=" then .bin .eq left right
  else if op == "!=" then .bin .neq left right
  else if op == ">" then .bin .gt left right
  else if op == "<" then .bin .lt left right
  else if op == ">=" then .bin .gte left right
  else if op == "<=" then .bin .lte left right
  else .bin .eq left right

/-- `generate_where` (lines 62-93).  The outer Option models exceptions, the
inner one the `return None` for an uncategorised column type.  The
`unit='DAY'` argument the source passes to `exp.DateSub` is not read by any
embedded operation and is not represented. -/
def generateWhere (s : Schema) (t : String) (al : Option String) (g : G) :
    Option (Option E) × G :=
  let tableAlias := al.getD t
  match schemaCols s t with
  | none => (none, g)
  | some colsT =>
      let (cq, g) := g.choose (colsT.map Prod.fst)
      match cq with
      | none => (none, g)
      | some colName =>
          let colType := getColumnType colsT colName
          let colExpr := E.col colName tableAlias
          if typeIn colType NUMERIC_TYPES then
            let (op, g) := g.choiceD ["=", "!=", ">", "<", ">=", "<="] "="
            let (v, g) := g.randintT 0 1000
            (some (some (createBinaryOp op colExpr (.litNum (Int.ofNat v)))), g)
          else if typeIn colType TEXT_TYPES then
            let (op, g) := g.choiceD ["=", "!=", "LIKE"] "="
            if op == "LIKE" then
              let (v, g) := g.choiceD ["%a%", "b%", "%c"] "%a%"
              (some (some (.bin .like colExpr (.litStr v))), g)
            else
              let (v, g) := g.choiceD ["test", "user", "admin"] "test"
              (some (some (createBinaryOp op colExpr (.litStr v))), g)
          else if typeIn colType DATE_TYPES then
            let (op, g) := g.choiceD [">", "<", ">=", "<="] ">"
            let (days, g) := g.randintT 1 30
            let dateExpr := E.dateSub (.anon "NOW" .nil) (.litNum (Int.ofNat days))
            (some (some (createBinaryOp op colExpr dateExpr)), g)
          else if typeIn colType BOOLEAN_TYPES then
            let (v, g) := g.choiceD [true, false] true
            (some (some (.bin .eq colExpr (.boolE v))), g)
          else
            (some none, g)

/-- `generate_select` (lines 14-60).  `group_by_cols` is the list of group
column names the generator passes (always names, never expressions). -/
def generateSelect (s : Schema) (t : String) (useAggregate : Bool)
    (groupByCols : List String) (al : Option String) (g : G) :
    Option (List E) × G :=
  let tableAlias := al.getD t
  match schemaCols s t with
  | none => (none, g)
  | some colsT =>
      let columns := colsT.map Prod.fst
      if useAggregate then
        let selectExprs := groupByCols.map (fun c => E.col c tableAlias)
        let (aggType, g) := g.choiceD ["COUNT", "SUM", "AVG", "MIN", "MAX"] "COUNT"
        let (acq, g) := g.choose columns
        match acq with
        | none => (none, g)
        | some aggCol =>
            if aggType == "COUNT" then
              let (h, g) := g.chance 500000
              if h then
                (some (selectExprs ++ [E.aliasE (.agg .count .star) "count_all"]), g)
              else
                (some (selectExprs ++
                  [E.aliasE (.agg .count (.col aggCol tableAlias)) ("count_" ++ aggCol)]), g)
            else if typeIn (getColumnType colsT aggCol) NUMERIC_TYPES then
              if aggType == "SUM" then
                (some (selectExprs ++
                  [E.aliasE (.agg .sum (.col aggCol tableAlias)) ("sum_" ++ aggCol)]), g)
              else if aggType == "AVG" then
                (some (selectExprs ++
                  [E.aliasE (.agg .avg (.col aggCol tableAlias)) ("avg_" ++ aggCol)]), g)
              else if aggType == "MIN" then
                (some (selectExprs ++
                  [E.aliasE (.agg .min (.col aggCol tableAlias)) ("min_" ++ aggCol)]), g)
              else if aggType == "MAX" then
                (some (selectExprs ++
                  [E.aliasE (.agg .max (.col aggCol tableAlias)) ("max_" ++ aggCol)]), g)
              else (some selectExprs, g)
            else
              (some (selectExprs ++ [E.aliasE (.agg .count .star) "count_all"]), g)
      else
        let (h, g) := g.chance 300000
        if h then (some [E.star], g)
        else
          let (ncq, g) := g.randint 1 (min 4 columns.length)
          match ncq with
          | none => (none, g)
          | some numCols =>
              let (selq, g) := g.sample columns numCols
              match selq with
              | none => (none, g)
              | some sel => (some (sel.map (fun c => E.col c tableAlias)), g)

/-- The per-column value loop of `generate_insert` (lines 109-126). -/
def generateInsertVals (colsT : List (String × String)) :
    List String → G → List E × G
  | [], g => ([], g)
  | c :: cs, g =>
      let ct := getColumnType colsT c
      let (v, g) :=
        if typeIn ct NUMERIC_TYPES then
          let (n, g') := g.randintT 1 1000
          (E.litNum (Int.ofNat n), g')
        else if typeIn ct TEXT_TYPES then
          if hasSub c "email" then
            let (n, g') := g.randintT 1 1000
            (E.litStr ("user" ++ toString n ++ "@example.com"), g')
          else if hasSub c "username" then
            let (n, g') := g.randintT 1 1000
            (E.litStr ("user" ++ toString n), g')
          else
            let (n, g') := g.randintT 1 100
            (E.litStr ("Sample text " ++ toString n), g')
        else if typeIn ct DATE_TYPES then
          (E.anon "NOW" .nil, g)
        else if typeIn ct BOOLEAN_TYPES then
          let (b, g') := g.choiceD [true, false] true
          (E.boolE b, g')
        else (E.litStr "val", g)
      let (rest, g) := generateInsertVals colsT cs g
      (v :: rest, g)

/-- `generate_insert` (lines 104-132). -/
def generateInsert (s : Schema) (t : String) (g : G) : Option E × G :=
  match schemaCols s t with
  | none => (none, g)
  | some colsT =>
      let columns := (colsT.map Prod.fst).filter (fun c => c != "id")
      let (vals, g) := generateInsertVals colsT columns g
      (some (.insert (.tbl t "") columns (EL.ofList vals)), g)

/-- `generate_update` (lines 134-159). -/
def generateUpdate (s : Schema) (t : String) (g : G) : Option E × G :=
  match schemaCols s t with
  | none => (none, g)
  | some colsT =>
      let columns := (colsT.map Prod.fst).filter (fun c => c != "id")
      let (cq, g) := g.choose columns
      match cq with
      | none => (none, g)
      | some colToUpdate =>
          let ct := getColumnType colsT colToUpdate
          let (v, g) :=
            if typeIn ct NUMERIC_TYPES then
              let (n, g') := g.randintT 1 1000
              (E.litNum (Int.ofNat n), g')
            else if typeIn ct TEXT_TYPES then
              let (n, g') := g.randintT 1 100
              (E.litStr ("Updated text " ++ toString n), g')
            else if typeIn ct DATE_TYPES then
              (E.anon "NOW" .nil, g)
            else if typeIn ct BOOLEAN_TYPES then
              let (b, g') := g.choiceD [true, false] true
              (E.boolE b, g')
            else (E.litStr "val", g)
          let (wq, g) := generateWhere s t none g
          match wq with
          | none => (none, g)
          | some whereOpt =>
              (some (.update (.tbl t "")
                (.cons (.bin .eq (.col colToUpdate "") v) .nil) whereOpt), g)

/-- `generate_delete` (lines 161-169). -/
def generateDelete (s : Schema) (t : String) (g : G) : Option E × G :=
  let (wq, g) := generateWhere s t none g
  match wq with
  | none => (none, g)
  | some whereOpt => (some (.delete (.tbl t "") whereOpt), g)

/-- The candidate scan of `generate_join` (lines 173-176): foreign-key edges
leaving `current` whose target is not already in the working set. -/
def fkCandidates (fks : FKeys) (current : String) (avail : List String) :
    List (String × String × String) :=
  fks.filterMap (fun e =>
    if e.1.1 == current && !(avail.contains e.1.2) then some (e.1.2, e.2.1, e.2.2)
    else none)

/-- `generate_join` (lines 171-189).  `some none` is the `return None` of an
empty candidate list; the outer `none` models a raised exception. -/
def generateJoin (fks : FKeys) (currentTable currentAlias : String)
    (availableTables : List String) (g : G) :
    Option (Option (String × String × E)) × G :=
  match fkCandidates fks currentTable availableTables with
  | [] => (some none, g)
  | c :: cs =>
      let (cq, g) := g.choose (c :: cs)
      match cq with
      | none => (none, g)
      | some (targetTable, leftKey, rightKey) =>
          if targetTable == "" then (none, g)
          else
            let (n, g) := g.randintT 1 9
            let targetAlias := String.mk (targetTable.data.take 1) ++ toString n
            let joinCondition :=
              E.bin .eq (.col leftKey currentAlias) (.col rightKey targetAlias)
            (some (some (targetTable, targetAlias, joinCondition)), g)

/-- The seven complexity classes. -/
inductive Complexity where
  | simple | join | aggregate | advanced | insert | update | delete
  deriving DecidableEq, BEq, Repr

/-- The class list of the weighted `random.choices` draw (the weights
0.35/0.25/0.15/0.05/0.1/0.05/0.05 only bias the draw; the draw is modelled
by an unweighted oracle pick over the same seven classes). -/
def complexityClasses : List Complexity :=
  [.simple, .join, .aggregate, .advanced, .insert, .update, .delete]

/-- The `subquery_where` subtype of the advanced class (lines 266-291).
`fkFrom` is its candidate scan (edges leaving the root, no exclusion). -/
def fkFrom (fks : FKeys) (root : String) : List (String × String × String) :=
  fks.filterMap (fun e =>
    if e.1.1 == root then some (e.1.2, e.2.1, e.2.2) else none)

/-- The `subquery_where` advanced subtype: a filtered IN-subquery over a
foreign-key target, or the fallback plain WHERE filter when no foreign key
leaves the root. -/
def genAdvSubqueryWhere (s : Schema) (fks : FKeys) (rootTable rootAlias : String)
    (g : G) : Option E × G :=
  let (selq, g) := generateSelect s rootTable false [] (some rootAlias) g
  match selq with
  | none => (none, g)
  | some selects =>
      match fkFrom fks rootTable with
      | [] =>
          let (wq, g) := generateWhere s rootTable (some rootAlias) g
          match wq with
          | none => (none, g)
          | some whereOpt =>
              (some (.select (EL.ofList selects) (some (.tbl rootTable rootAlias))
                .nil whereOpt .nil none .nil none), g)
      | c :: cs =>
          let (cq, g) := g.choose (c :: cs)
          match cq with
          | none => (none, g)
          | some (targetTable, leftKey, rightKey) =>
              if targetTable == "" then (none, g)
              else
                let subAlias := "sub_" ++ String.mk (targetTable.data.take 1)
                let (swq, g) := generateWhere s targetTable (some subAlias) g
                match swq with
                | none => (none, g)
                | some subWhereOpt =>
                    let subquery := E.select (.cons (.col rightKey subAlias) .nil)
                      (some (.tbl targetTable subAlias)) .nil subWhereOpt .nil none
                      .nil none
                    (some (.select (EL.ofList selects)
                      (some (.tbl rootTable rootAlias)) .nil
                      (some (.inList (.col leftKey rootAlias) (.cons subquery .nil)))
                      .nil none .nil none), g)

/-- The `subquery_from` advanced subtype (lines 293-315): a derived-table
subquery as FROM source, with an optional outer filter (the column pick of
the source is drawn and then unused, exactly as in the source). -/
def genAdvSubqueryFrom (s : Schema) (rootTable : String) (g : G) : Option E × G :=
  let innerAlias := "inner_" ++ rootTable
  let (iwq, g) := generateWhere s rootTable (some innerAlias) g
  match iwq with
  | none => (none, g)
  | some innerWhereOpt =>
      let innerQuery := E.select (.cons .star .nil) (some (.tbl rootTable innerAlias))
        .nil innerWhereOpt .nil none .nil none
      let (h, g) := g.chance 500000
      if h then
        match schemaCols s rootTable with
        | none => (none, g)
        | some colsT =>
            let (cq, g) := g.choose (colsT.map Prod.fst)
            match cq with
            | none => (none, g)
            | some _colName =>
                let (owq, g) := generateWhere s rootTable (some "derived_table") g
                match owq with
                | none => (none, g)
                | some outerWhereOpt =>
                    (some (.select (.cons .star .nil)
                      (some (.subq innerQuery "derived_table")) .nil outerWhereOpt
                      .nil none .nil none), g)
      else
        (some (.select (.cons .star .nil) (some (.subq innerQuery "derived_table"))
          .nil none .nil none .nil none), g)

/-- The `self_join` advanced subtype (lines 317-350) over the `follows`
relation; no join type is passed, so the join side is empty. -/
def genAdvSelfJoin (rootTable rootAlias : String) (g : G) : Option E × G :=
  let rt := if rootTable != "follows" then "follows" else rootTable
  let ra := if rootTable != "follows" then "f1" else rootAlias
  let targetAlias := "f2"
  let joinCond := E.bin .eq (.col "followee_id" ra) (.col "follower_id" targetAlias)
  let whereCond := E.bin .neq (.col "follower_id" ra) (.col "followee_id" targetAlias)
  let (h, g) := g.chance 300000
  let limitOpt := if h then some (E.limitNode (.litNum 10)) else none
  (some (.select
      (.cons (.aliasE (.col "follower_id" ra) "user")
        (.cons (.aliasE (.col "followee_id" targetAlias) "friend_of_friend") .nil))
      (some (.tbl rt ra))
      (.cons (.join "" (.tbl "follows" targetAlias) (some joinCond)) .nil)
      (some whereCond) .nil none .nil limitOpt), g)

/-- The body of `generate_query` (lines 191-352) for a drawn complexity
class and root table; `exp.to_table(t).as_(a)` is modelled as a table node
carrying its alias.  A drawn LEFT join kind sets the join side; INNER sets
the sqlglot kind argument, leaving the side empty. -/
def generateQueryWith (s : Schema) (fks : FKeys) (complexity : Complexity)
    (rootTable rootAlias : String) (g : G) : Option E × G :=
  match complexity with
  | .insert => generateInsert s rootTable g
  | .update => generateUpdate s rootTable g
  | .delete => generateDelete s rootTable g
  | .simple =>
      let (selq, g) := generateSelect s rootTable false [] (some rootAlias) g
      match selq with
      | none => (none, g)
      | some selects =>
          let (h1, g) := g.chance 500000
          let (wq, g) :=
            if h1 then generateWhere s rootTable (some rootAlias) g
            else (some none, g)
          match wq with
          | none => (none, g)
          | some whereOpt =>
              let (h2, g) := g.chance 300000
              let (ordq, g) :=
                if h2 then
                  match schemaCols s rootTable with
                  | none => (none, g)
                  | some colsT =>
                      let (cq, g') := g.choose (colsT.map Prod.fst)
                      match cq with
                      | none => (none, g')
                      | some c =>
                          let (dsc, g2) := g'.choiceD [true, false] true
                          (some (EL.cons (.ordered (.col c rootAlias) dsc) .nil), g2)
                else (some .nil, g)
              match ordq with
              | none => (none, g)
              | some orderEL =>
                  let (h3, g) := g.chance 300000
                  let (limitOpt, g) :=
                    if h3 then
                      let (n, g') := g.randintT 1 100
                      (some (E.limitNode (.litNum (Int.ofNat n))), g')
                    else (none, g)
                  (some (.select (EL.ofList selects)
                    (some (.tbl rootTable rootAlias)) .nil whereOpt .nil none
                    orderEL limitOpt), g)
  | .join =>
      let (jq, g) := generateJoin fks rootTable rootAlias [] g
      match jq with
      | none => (none, g)
      | some none =>
          let (selq, g) := generateSelect s rootTable false [] (some rootAlias) g
          match selq with
          | none => (none, g)
          | some selects =>
              (some (.select (EL.ofList selects) (some (.tbl rootTable rootAlias))
                .nil none .nil none .nil none), g)
      | some (some (targetTable, targetAlias, onClause)) =>
          let (kind, g) := g.choiceD ["INNER", "LEFT"] "INNER"
          let side := if kind == "LEFT" then "LEFT" else ""
          let (s1q, g) := generateSelect s rootTable false [] (some rootAlias) g
          match s1q with
          | none => (none, g)
          | some s1 =>
              let (s2q, g) := generateSelect s targetTable false [] (some targetAlias) g
              match s2q with
              | none => (none, g)
              | some s2 =>
                  let allSelects := s1 ++ s2
                  let (fsq, g) := g.sample allSelects (min allSelects.length 4)
                  match fsq with
                  | none => (none, g)
                  | some finalSelects =>
                      let (h, g) := g.chance 500000
                      let (wq, g) :=
                        if h then generateWhere s targetTable (some targetAlias) g
                        else (some none, g)
                      match wq with
                      | none => (none, g)
                      | some whereOpt =>
                          (some (.select (EL.ofList finalSelects)
                            (some (.tbl rootTable rootAlias))
                            (.cons (.join side (.tbl targetTable targetAlias)
                              (some onClause)) .nil)
                            whereOpt .nil none .nil none), g)
  | .aggregate =>
      match schemaCols s rootTable with
      | none => (none, g)
      | some colsT =>
          let (gcq, g) := g.choose (colsT.map Prod.fst)
          match gcq with
          | none => (none, g)
          | some groupCol =>
              let (selq, g) := generateSelect s rootTable true [groupCol]
                (some rootAlias) g
              match selq with
              | none => (none, g)
              | some selects =>
                  let (h, g) := g.chance 400000
                  let havingOpt :=
                    if h then some (E.bin .gt (.agg .count .star) (.litNum 5))
                    else none
                  (some (.select (EL.ofList selects)
                    (some (.tbl rootTable rootAlias)) .nil none
                    (.cons (.col groupCol rootAlias) .nil) havingOpt .nil none), g)
  | .advanced =>
      let (st, g) := g.choiceD ["subquery_where", "subquery_from", "self_join"]
        "subquery_where"
      if st == "subquery_where" then genAdvSubqueryWhere s fks rootTable rootAlias g
      else if st == "subquery_from" then genAdvSubqueryFrom s rootTable g
      else genAdvSelfJoin rootTable rootAlias g

/-- `generate_query`: draw the root table, build its alias from its first
character (raising on an empty name), draw the complexity class, delegate. -/
def generateQuery (s : Schema) (fks : FKeys) (g : G) :
    Option (E × Complexity) × G :=
  let (rq, g) := g.choose (tableNames s)
  match rq with
  | none => (none, g)
  | some rootTable =>
      if rootTable == "" then (none, g)
      else
        let rootAlias := String.mk (rootTable.data.take 1) ++ "1"
        let (c, g) := g.choiceD complexityClasses .simple
        let (astq, g) := generateQueryWith s fks c rootTable rootAlias g
        match astq with
        | none => (none, g)
        | some ast => (some (ast, c), g)

/-- The joins of a SELECT statement. -/
def E.joinsOf : E → EL
  | .select _ _ joins _ _ _ _ _ => joins
  | _ => .nil

/-- The WHERE condition of a statement. -/
def E.whereOf : E → Option E
  | .select _ _ _ w _ _ _ _ => w
  | .update _ _ w => w
  | .delete _ w => w
  | _ => none

/-- Does the statement carry a WHERE clause? -/
def hasWhereStmt (e : E) : Bool := e.whereOf.isSome

/-- Lookup of a foreign-key edge by its (left table, right table) key. -/
def fkLookup (fks : FKeys) (key : String × String) : Option (String × String) :=
  (fks.find? (fun e => e.1 == key)).map Prod.snd

/-- The keys of the Foreign-Key Graph are pairwise distinct (true of the
dictionary the source builds). -/
def fkKeysNodup (fks : FKeys) : Prop := (fks.map Prod.fst).Nodup

/-- Well-formedness of the generator input, as the failure-policy claims
assume it: every table keeps at least one non-`id` column, and every
foreign-key edge points between schema tables, with a non-empty target
name. -/
def wfInput (s : Schema) (fks : FKeys) : Bool :=
  s.all (fun tc => tc.2.any (fun c => c.1 != "id")) &&
  fks.all (fun e =>
    (tableNames s).contains e.1.1 && (tableNames s).contains e.1.2 && e.1.2 != "")


/-! Definitions supporting the claims below: substring-freedom of rendered
text, structural goodness of AST identifiers, shapes of generated
statements, and concrete instances. -/

/-- The character list of the pattern "ON". -/
def patON : List Char := ['O', 'N']

/-- The character list of the pattern "JOIN". -/
def patJOIN : List Char := ['J', 'O', 'I', 'N']

/-- A string free of both of the substrings "ON" and "JOIN". -/
def strOk (s : String) : Bool :=
  !(occursL patON s.data) && !(occursL patJOIN s.data)

mutual
/-- Every identifier and literal embedded in the AST avoids the substrings
"ON" and "JOIN" (true of every schema-generated AST). -/
def goodE : E → Bool
  | .star => true
  | .tbl name al => strOk name && strOk al
  | .ident s => strOk s
  | .col name table => strOk name && strOk table
  | .litNum n => strOk (toString n)
  | .litStr s => strOk s
  | .boolE _ => true
  | .bin _ l r => goodE l && goodE r
  | .inSub l q => goodE l && goodE q
  | .inList l vs => goodE l && goodEL vs
  | .agg _ arg => goodE arg
  | .anon name args => strOk name && goodEL args
  | .currentTs => true
  | .dateSub d arg => goodE d && goodE arg
  | .dateAdd d arg => goodE d && goodE arg
  | .interval v unit => strOk (toLowerStr unit) && goodE v
  | .ordered e _ => goodE e
  | .limitNode e => goodE e
  | .aliasE e _ => goodE e
  | .subq q _ => goodE q
  | .join _ tE onE => goodE tE && (match onE with | some c => goodE c | none => true)
  | .select cols src joins whereE group having order limit =>
      goodEL cols && (match src with | some s => goodE s | none => true) &&
      goodEL joins && (match whereE with | some w => goodE w | none => true) &&
      goodEL group && (match having with | some h => goodE h | none => true) &&
      goodEL order && (match limit with | some l => goodE l | none => true)
  | .insert tableE colsL vals =>
      goodE tableE && colsL.all strOk && goodEL vals
  | .update tableE sets whereE =>
      goodE tableE && goodEL sets &&
      (match whereE with | some w => goodE w | none => true)
  | .delete tableE whereE =>
      goodE tableE && (match whereE with | some w => goodE w | none => true)
  | .other => true

/-- List version of `goodE`. -/
def goodEL : EL → Bool
  | .nil => true
  | .cons e es => goodE e && goodEL es
end

/-- Statement-rooted ASTs (the Query AST shape of the data model: a
Select/Insert/Update/Delete root). -/
def isStmt : E → Bool
  | .select _ _ _ _ _ _ _ _ => true
  | .insert _ _ _ => true
  | .update _ _ _ => true
  | .delete _ _ => true
  | _ => false

/-- An active-perturbation test with exactly INCOMPLETE_JOINS active. -/
def onlyIncompleteJoins (act : PerturbationType → Bool) : Prop :=
  act .incompleteJoins = true ∧ ∀ p, p ≠ PerturbationType.incompleteJoins → act p = false

/-- One word arises from the other by one typo pattern: adjacent-character
swap, character deletion, or character duplication at some position. -/
def IsTypoOf (w w' : String) : Prop :=
  ∃ pos, w' = swapAt pos w ∨ w' = delAt pos w ∨ w' = dupAt pos w

/-- Rendering in an explicit process state: the source renderer reads no
mutable process state (every PRNG is freshly constructed from the seed and
a context string), so the state passes through untouched and the output
ignores it. -/
def renderInState (procState : Nat) (sqlText : E → String) (cfg : PerturbationConfig)
    (ast : E) : (String × Nat) × Nat :=
  (render sqlText cfg ast, procState)

/-- A comparison node (the only shape `generate_where` produces). -/
def isComparison : E → Bool
  | .bin _ _ _ => true
  | _ => false

/-- C6 shape: every join of a generated AST carries an ON condition equating
the stored left key (qualified by the root alias) with the stored right key
(qualified by the drawn target alias), for the foreign-key entry of the
(root, target) pair. -/
def JoinOnRespectsFk (fks : FKeys) (root al : String) (res : Option E) : Prop :=
  ∀ a, res = some a →
    a.joinsOf = .nil ∨
    ∃ side t2 ta k1 k2,
      a.joinsOf = .cons (.join side (.tbl t2 ta)
        (some (.bin .eq (.col k1 al) (.col k2 ta)))) .nil ∧
      fkLookup fks (root, t2) = some (k1, k2)

/-- C7: the generator never fails on a schema table, for any class and
oracle. -/
def GeneratorTotalOn (s : Schema) (fks : FKeys) : Prop :=
  ∀ c root al g, root ∈ tableNames s →
    (generateQueryWith s fks c root al g).1.isSome = true

/-- C7: when no join candidate exists, the join class degrades to a plain
select on the root (no joins, no filter). -/
def JoinDegradesToSimple (s : Schema) (fks : FKeys) : Prop :=
  ∀ root al g, fkCandidates fks root [] = [] →
    ∀ a, (generateQueryWith s fks .join root al g).1 = some a →
      ∃ sel, a = .select sel (some (.tbl root al)) .nil none .nil none .nil none

/-- C7: when no foreign key leaves the root, the `subquery_where` advanced
subtype degrades to a plain WHERE comparison (no subquery). -/
def AdvancedWhereDegrades (s : Schema) (fks : FKeys) : Prop :=
  ∀ root al g, fkFrom fks root = [] →
    ∀ a, (genAdvSubqueryWhere s fks root al g).1 = some a →
      ∃ sel w, a = .select sel (some (.tbl root al)) .nil w .nil none .nil none ∧
        ∀ c, w = some c → isComparison c = true

/-- One column type falls in one of the four categories. -/
def typeCategorized (ty : String) : Bool :=
  NUMERIC_TYPES.contains ty || TEXT_TYPES.contains ty ||
  DATE_TYPES.contains ty || BOOLEAN_TYPES.contains ty

/-- Every column type of the schema is categorized. -/
def schemaTypesCategorized (s : Schema) : Bool :=
  s.all (fun tc => tc.2.all (fun cp => typeCategorized cp.2))

/-- C10: `generate_where` returns a condition (never the inner `None`) on
this table, for every alias and oracle. -/
def WhereAlwaysSome (s : Schema) (t : String) : Prop :=
  ∀ al g, ∃ w, (generateWhere s t al g).1 = some (some w)

/-- C10: every generated UPDATE and DELETE statement on this table carries a
WHERE clause (and generation never fails). -/
def UpdateDeleteFiltered (s : Schema) (t : String) : Prop :=
  ∀ g,
    (∀ a, (generateUpdate s t g).1 = some a → hasWhereStmt a = true) ∧
    (∀ a, (generateDelete s t g).1 = some a → hasWhereStmt a = true) ∧
    (generateUpdate s t g).1.isSome = true ∧
    (generateDelete s t g).1.isSome = true

/-! Concrete instances used by counterexamples and witnesses. -/

/-- Placeholder for the external sqlglot serializer; never consulted on a
statement-rooted AST. -/
def emptySql : E → String := fun _ => ""

/-- The all-zero oracle. -/
def gZero : G := { o := fun _ => 0, k := 0 }

/-- A concrete joined SELECT over the repository schema:
SELECT * FROM users AS u1 INNER JOIN posts AS p1 ON u1.id = p1.user_id. -/
def astJoinC : E :=
  .select (.cons .star .nil) (some (.tbl "users" "u1"))
    (.cons (.join "" (.tbl "posts" "p1")
      (some (.bin .eq (.col "id" "u1") (.col "user_id" "p1")))) .nil)
    none .nil none .nil none

/-- A joined SELECT whose joined table is named "ONIONS". -/
def astOnions : E :=
  .select (.cons .star .nil) (some (.tbl "users" "u1"))
    (.cons (.join "" (.tbl "ONIONS" "")
      (some (.bin .eq (.col "id" "u1") (.col "user_id" "")))) .nil)
    none .nil none .nil none

/-- A concrete SELECT with no join: SELECT id FROM users. -/
def astNoJoin : E :=
  .select (.cons (.col "id" "") .nil) (some (.tbl "users" "")) .nil none .nil
    none .nil none


/-! Support for C8: characters that can participate in an occurrence of
"ON" or "JOIN", and safety of a string's boundary characters. -/

/-- The characters appearing in either forbidden pattern. -/
def patChars : List Char := ['O', 'N', 'J', 'I']

/-- The first character (if any) cannot start or continue a forbidden
pattern occurrence. -/
def safeHead (s : String) : Bool :=
  match s.data with
  | [] => true
  | c :: _ => !(patChars.contains c)

/-- The last character (if any) cannot start or continue a forbidden
pattern occurrence. -/
def safeLast (s : String) : Bool :=
  match s.data.getLast? with
  | none => true
  | some c => !(patChars.contains c)

/-- The three connective phrases of the INCOMPLETE_JOINS rendering of a
join node. -/
def connStrings : List String := ["with", "and their", "along with"]

/-- The full INCOMPLETE_JOINS safety property of a render: the output avoids
the substrings "ON" and "JOIN", and every join node is rendered as a bare
connective phrase followed by the joined table. -/
def IncompleteJoinsSafe (sqlText : E → String) (seed : Int) (ast : E) : Prop :=
  strOk (render sqlText ⟨[.incompleteJoins], seed⟩ ast).1 = true ∧
  ∀ fuel (e : E) (ctx : String), ∃ conn,
    conn ∈ connStrings ∧
    renderJoin (fuel + 1)
      (fun p => PerturbationConfig.isActive ⟨[.incompleteJoins], seed⟩ p) seed e ctx =
      (conn ++ " " ++
        (renderTable (fun p => PerturbationConfig.isActive ⟨[.incompleteJoins], seed⟩ p)
          seed (joinTableOf e) (ctx ++ "_join_table")).1,
       (renderTable (fun p => PerturbationConfig.isActive ⟨[.incompleteJoins], seed⟩ p)
          seed (joinTableOf e) (ctx ++ "_join_table")).2)

/-! ************************ Theorems ************************ -/

/-- C1 (counterexample): the perturbation enumeration does not have 13
members; `PerturbationType` is a closed finite enumeration of a different
cardinality (see the amended theorem). -/
theorem perturbation_taxonomy_not_thirteen : Fintype.card PerturbationType ≠ 13 := by
  decide

/-- C1 (amended): the perturbation taxonomy is a fixed closed enumeration
with exactly 10 entries; `perturbationTypes` (the list main.py iterates)
enumerates every member, without duplicates, and has length 10. -/
theorem perturbation_taxonomy_ten :
    Fintype.card PerturbationType = 10 ∧
    perturbationTypes.length = 10 ∧
    perturbationTypes.Nodup ∧
    ∀ p : PerturbationType, p ∈ perturbationTypes := by
  refine ⟨by decide, by decide, by decide, ?_⟩
  intro p
  cases p <;> simp [perturbationTypes]

/-- C2: rendering is deterministic: the output depends only on the AST, the
set of active perturbations and the seed.  Two configurations whose active
lists agree as sets (in any order, with any duplication) and whose seeds
agree render identically; an explicit process state neither influences the
output nor is touched; and a repeated call after a first one returns the
same text. -/
theorem render_deterministic :
    ∀ (sqlText : E → String) (ast : E) (cfg₁ cfg₂ : PerturbationConfig) (s₁ s₂ : Nat),
      (∀ p, cfg₁.isActive p = cfg₂.isActive p) → cfg₁.seed = cfg₂.seed →
      (renderInState s₁ sqlText cfg₁ ast).1 = (renderInState s₂ sqlText cfg₂ ast).1 ∧
      (renderInState s₁ sqlText cfg₁ ast).1 =
        (renderInState (renderInState s₁ sqlText cfg₁ ast).2 sqlText cfg₂ ast).1 := by
  intro sqlText ast cfg₁ cfg₂ s₁ s₂ hmem hseed
  have h : render sqlText cfg₁ ast = render sqlText cfg₂ ast := by
    unfold render
    rw [funext hmem, hseed]
  exact ⟨h, h⟩

/-- C2 (witness): two configurations with the same active set (one listing
TYPOS twice) and seed 5 render the no-join query identically, in any
process state, also on a repeated call. -/
theorem render_deterministic_witness :
    (renderInState 0 emptySql { activePerturbations := [.typos, .typos], seed := 5 }
        astNoJoin).1 =
      (renderInState 9 emptySql { activePerturbations := [.typos], seed := 5 }
        astNoJoin).1 ∧
    (renderInState 0 emptySql { activePerturbations := [.typos, .typos], seed := 5 }
        astNoJoin).1 =
      (renderInState
        (renderInState 0 emptySql { activePerturbations := [.typos, .typos], seed := 5 }
          astNoJoin).2 emptySql { activePerturbations := [.typos], seed := 5 }
        astNoJoin).1 :=
  render_deterministic emptySql astNoJoin
    { activePerturbations := [.typos, .typos], seed := 5 }
    { activePerturbations := [.typos], seed := 5 } 0 9
    (by intro p; cases p <;> decide) rfl

/-- C4: for every perturbation type whose applicability predicate is false
on an AST, the assembled record carries a null perturbed prompt and the
non-empty reason string; and on any AST without a JOIN node the
INCOMPLETE_JOINS predicate is false, so its record is null. -/
theorem applicability_sound :
    ∀ (sqlText : E → String) (ast : E) (pid : Nat) (p : PerturbationType),
      (isApplicable ast p = false →
        (buildRecord sqlText ast pid p).perturbedNlPrompt = none ∧
        (buildRecord sqlText ast pid p).reasonNotApplicable = some "Logic check failed." ∧
        ("Logic check failed." : String) ≠ "") ∧
      (hasJoinE ast = false →
        isApplicable ast .incompleteJoins = false ∧
        (buildRecord sqlText ast pid .incompleteJoins).perturbedNlPrompt = none) := by
  intro sqlText ast pid p
  constructor
  · intro h
    refine ⟨?_, ?_, by decide⟩ <;> simp [buildRecord, h]
  · intro h
    have happ : isApplicable ast .incompleteJoins = false := by
      simpa [isApplicable] using h
    exact ⟨happ, by simp [buildRecord, happ]⟩

/-- C4 (witness): on the concrete no-join SELECT, the INCOMPLETE_JOINS
record is null with the reason string present. -/
theorem applicability_sound_witness :
    ((buildRecord emptySql astNoJoin 4 .incompleteJoins).perturbedNlPrompt = none ∧
     (buildRecord emptySql astNoJoin 4 .incompleteJoins).reasonNotApplicable =
       some "Logic check failed." ∧
     ("Logic check failed." : String) ≠ "") ∧
    (isApplicable astNoJoin .incompleteJoins = false ∧
     (buildRecord emptySql astNoJoin 4 .incompleteJoins).perturbedNlPrompt = none) :=
  ⟨(applicability_sound emptySql astNoJoin 4 .incompleteJoins).1 (by decide),
   (applicability_sound emptySql astNoJoin 4 .incompleteJoins).2 (by decide)⟩

/-- C5: rendering is a pure read of the AST: the AST returned to the caller
after a render call is the input, any number of iterated render calls
leaves it unchanged, and hence any serialization of the AST to SQL text
before and after those calls coincides. -/
theorem render_pure :
    ∀ (sqlText : E → String) (cfg : PerturbationConfig) (ast : E) (n : Nat)
      (serialize : E → String),
      (renderMutating sqlText cfg ast).2 = ast ∧
      renderIter sqlText cfg n ast = ast ∧
      serialize (renderIter sqlText cfg n ast) = serialize ast := by
  intro sqlText cfg ast n serialize
  have hiter : renderIter sqlText cfg n ast = ast := by
    induction n with
    | zero => rfl
    | succ n ih => simpa [renderIter, renderMutating] using ih
  exact ⟨rfl, hiter, by rw [hiter]⟩


/-- `random.choice` on a non-empty list returns a member. -/
theorem choose_eq_some {α : Type} (g : G) (xs : List α) (h : xs ≠ []) :
    ∃ x g', g.choose xs = (some x, g') ∧ x ∈ xs := by
  have hlen : 0 < xs.length := List.length_pos.mpr h
  have hmax : max xs.length 1 = xs.length := by omega
  have hn : g.o g.k % max xs.length 1 < xs.length := by
    rw [hmax]; exact Nat.mod_lt _ hlen
  refine ⟨xs.get ⟨g.o g.k % max xs.length 1, hn⟩, ⟨g.o, g.k + 1⟩, ?_,
    List.get_mem xs _ hn⟩
  unfold G.choose G.draw
  simp [List.get?_eq_get hn]

/-- Looking up a table present in the schema. -/
theorem schemaCols_of_mem {s : Schema} {t : String} (h : t ∈ tableNames s) :
    ∃ colsT, schemaCols s t = some colsT ∧ (t, colsT) ∈ s := by
  induction s with
  | nil => simp [tableNames] at h
  | cons a rest ih =>
      by_cases ha : a.1 = t
      · refine ⟨a.2, by simp [schemaCols, ha], ?_⟩
        rw [← ha]
        simp
      · have : t ∈ tableNames rest := by
          simp [tableNames] at h ⊢
          rcases h with h | h
          · exact absurd h.symm ha
          · exact h
        obtain ⟨colsT, hc, hm⟩ := ih this
        refine ⟨colsT, ?_, .tail _ hm⟩
        simpa [schemaCols, ha] using hc

/-- Looking up the type of a column present in the list. -/
theorem getColumnType_mem {colsT : List (String × String)} {c : String}
    (h : c ∈ colsT.map Prod.fst) :
    ∃ ty, getColumnType colsT c = some ty ∧ (c, ty) ∈ colsT := by
  induction colsT with
  | nil => simp at h
  | cons a rest ih =>
      by_cases ha : a.1 = c
      · refine ⟨a.2, by simp [getColumnType, ha], ?_⟩
        rw [← ha]
        simp
      · have : c ∈ rest.map Prod.fst := by
          simp at h ⊢
          rcases h with h | h
          · exact absurd h.symm ha
          · exact h
        obtain ⟨ty, hc, hm⟩ := ih this
        refine ⟨ty, ?_, .tail _ hm⟩
        simpa [getColumnType, ha] using hc

/-- `_create_binary_op` always yields a comparison node. -/
theorem isComparison_createBinaryOp (op : String) (l r : E) :
    isComparison (createBinaryOp op l r) = true := by
  unfold createBinaryOp
  repeat' split
  all_goals rfl

/-- `generate_where` on a schema table whose column types are all
categorized always returns a comparison condition. -/
theorem generateWhere_some (s : Schema) (t : String) (al : Option String) (g : G)
    {colsT} (hc : schemaCols s t = some colsT) (hne : colsT ≠ [])
    (hcat : ∀ cp ∈ colsT, typeCategorized cp.2 = true) :
    ∃ w g', generateWhere s t al g = (some (some w), g') ∧ isComparison w = true := by
  have hmapne : colsT.map Prod.fst ≠ [] := by simpa using hne
  obtain ⟨colName, g₁, hchoose, hmem⟩ := choose_eq_some g (colsT.map Prod.fst) hmapne
  obtain ⟨ty, hty, htymem⟩ := getColumnType_mem hmem
  have hcatty : typeCategorized ty = true := hcat _ htymem
  unfold generateWhere
  rw [hc]
  simp only []
  rw [hchoose]
  simp only [hty]
  by_cases h1 : typeIn (some ty) NUMERIC_TYPES
  · simp only [h1, if_true]
    exact ⟨_, _, rfl, isComparison_createBinaryOp _ _ _⟩
  · by_cases h2 : typeIn (some ty) TEXT_TYPES
    · simp only [h1, h2, if_true, if_false]
      by_cases h3 : (g₁.choiceD ["=", "!=", "LIKE"] "=").1 == "LIKE"
      · simp only [h3, if_true]
        exact ⟨_, _, rfl, rfl⟩
      · simp only [h3, if_false]
        exact ⟨_, _, rfl, isComparison_createBinaryOp _ _ _⟩
    · by_cases h4 : typeIn (some ty) DATE_TYPES
      · simp only [h1, h2, h4, if_true, if_false]
        exact ⟨_, _, rfl, isComparison_createBinaryOp _ _ _⟩
      · by_cases h5 : typeIn (some ty) BOOLEAN_TYPES
        · simp only [h1, h2, h4, h5, if_true, if_false]
          exact ⟨_, _, rfl, rfl⟩
        · exfalso
          unfold typeCategorized at hcatty
          unfold typeIn at h1 h2 h4 h5
          simp at h1 h2 h4 h5 hcatty
          tauto


/-- Every SCHEMA table has columns, non-`id` columns, and categorized types. -/
theorem schema_facts :
    (∀ p ∈ SCHEMA, p.2 ≠ []) ∧
    (∀ p ∈ SCHEMA, (p.2.map Prod.fst).filter (fun c => c != "id") ≠ []) ∧
    (∀ p ∈ SCHEMA, ∀ cp ∈ p.2, typeCategorized cp.2 = true) := by
  refine ⟨?_, ?_, ?_⟩ <;> decide

/-- `generate_update` on a categorized schema table always succeeds and the
result carries the WHERE clause `generate_where` produced. -/
theorem generateUpdate_filtered {s : Schema} {t : String} (g : G)
    {colsT} (hc : schemaCols s t = some colsT)
    (hcne : (colsT.map Prod.fst).filter (fun c => c != "id") ≠ [])
    (hcat : ∀ cp ∈ colsT, typeCategorized cp.2 = true) :
    ∃ a g', generateUpdate s t g = (some a, g') ∧ hasWhereStmt a = true := by
  unfold generateUpdate
  rw [hc]
  simp only []
  obtain ⟨colName, g₁, hchoose, hmemc⟩ :=
    choose_eq_some g ((colsT.map Prod.fst).filter (fun c => c != "id")) hcne
  rw [hchoose]
  dsimp only
  have hne : colsT ≠ [] := by
    intro hnil
    rw [hnil] at hcne
    simp at hcne
  generalize hvg : (if typeIn (getColumnType colsT colName) NUMERIC_TYPES = true then
      (E.litNum (Int.ofNat (g₁.randintT 1 1000).1), (g₁.randintT 1 1000).2)
    else if typeIn (getColumnType colsT colName) TEXT_TYPES = true then
      (E.litStr ("Updated text " ++ toString (g₁.randintT 1 100).1), (g₁.randintT 1 100).2)
    else if typeIn (getColumnType colsT colName) DATE_TYPES = true then
      (E.anon "NOW" EL.nil, g₁)
    else if typeIn (getColumnType colsT colName) BOOLEAN_TYPES = true then
      (E.boolE (g₁.choiceD [true, false] true).1, (g₁.choiceD [true, false] true).2)
    else (E.litStr "val", g₁)) = vg
  obtain ⟨v, g₂⟩ := vg
  dsimp only
  obtain ⟨w, g₃, hw, _⟩ := generateWhere_some s t none g₂ hc hne hcat
  rw [hw]
  exact ⟨_, _, rfl, rfl⟩

/-- `generate_delete` on a categorized schema table always succeeds and
carries a WHERE clause. -/
theorem generateDelete_filtered {s : Schema} {t : String} (g : G)
    {colsT} (hc : schemaCols s t = some colsT) (hne : colsT ≠ [])
    (hcat : ∀ cp ∈ colsT, typeCategorized cp.2 = true) :
    ∃ a g', generateDelete s t g = (some a, g') ∧ hasWhereStmt a = true := by
  unfold generateDelete
  obtain ⟨w, g', hw, _⟩ := generateWhere_some s t none g hc hne hcat
  rw [hw]
  exact ⟨_, _, rfl, rfl⟩

/-- C10: every SCHEMA column type is categorized, `generate_where` never
returns the inner None on a SCHEMA table, and therefore every generated
UPDATE and DELETE carries a WHERE clause. -/
theorem update_delete_always_filtered :
    schemaTypesCategorized SCHEMA = true ∧
    ∀ t, t ∈ tableNames SCHEMA →
      WhereAlwaysSome SCHEMA t ∧ UpdateDeleteFiltered SCHEMA t := by
  refine ⟨by decide, ?_⟩
  intro t ht
  obtain ⟨colsT, hc, hmem⟩ := schemaCols_of_mem ht
  have hne : colsT ≠ [] := schema_facts.1 _ hmem
  have hcne : (colsT.map Prod.fst).filter (fun c => c != "id") ≠ [] :=
    schema_facts.2.1 _ hmem
  have hcat : ∀ cp ∈ colsT, typeCategorized cp.2 = true := schema_facts.2.2 _ hmem
  constructor
  · intro al g
    obtain ⟨w, g', hw, _⟩ := generateWhere_some _ _ al g hc hne hcat
    exact ⟨w, by rw [hw]⟩
  · intro g
    obtain ⟨aU, gU, hU, hUw⟩ := generateUpdate_filtered g hc hcne hcat
    obtain ⟨aD, gD, hD, hDw⟩ := generateDelete_filtered g hc hne hcat
    refine ⟨?_, ?_, by rw [hU]; rfl, by rw [hD]; rfl⟩
    · intro a ha
      rw [hU] at ha
      simp only [] at ha
      cases ha
      exact hUw
    · intro a ha
      rw [hD] at ha
      simp only [] at ha
      cases ha
      exact hDw

/-- C10 (witness): the facts at the users table. -/
theorem update_delete_always_filtered_witness :
    schemaTypesCategorized SCHEMA = true ∧
    WhereAlwaysSome SCHEMA "users" ∧ UpdateDeleteFiltered SCHEMA "users" :=
  ⟨update_delete_always_filtered.1,
   update_delete_always_filtered.2 "users" (by simp [tableNames, SCHEMA])⟩


/-- `randint` with ordered bounds returns a value in range. -/
theorem randint_some (g : G) (a b : Nat) (hab : a ≤ b) :
    ∃ n g', G.randint g a b = (some n, g') ∧ a ≤ n ∧ n ≤ b := by
  unfold G.randint G.draw
  rw [if_neg (by omega)]
  refine ⟨_, _, rfl, Nat.le_add_right _ _, ?_⟩
  have h1 : max (b + 1 - a) 1 = b + 1 - a := by omega
  have h2 : g.o g.k % max (b + 1 - a) 1 < b + 1 - a := by
    rw [h1]; exact Nat.mod_lt _ (by omega)
  omega

/-- `sample` with a feasible size succeeds. -/
theorem sample_some {α : Type} (g : G) (xs : List α) (k : Nat) (hk : k ≤ xs.length) :
    ∃ ys g', G.sample g xs k = (some ys, g') := by
  unfold G.sample G.draw
  dsimp only
  rw [if_neg (by omega)]
  exact ⟨_, _, rfl⟩

/-- `generate_where` on a non-empty schema table never raises (the inner
result may still be None for an uncategorised type). -/
theorem generateWhere_outer_some (s : Schema) (t : String) (al : Option String) (g : G)
    {colsT} (hc : schemaCols s t = some colsT) (hne : colsT ≠ []) :
    ∃ wq g', generateWhere s t al g = (some wq, g') := by
  have hmapne : colsT.map Prod.fst ≠ [] := by simpa using hne
  obtain ⟨colName, g₁, hchoose, _⟩ := choose_eq_some g (colsT.map Prod.fst) hmapne
  unfold generateWhere
  rw [hc]
  dsimp only
  rw [hchoose]
  dsimp only
  repeat' split
  all_goals exact ⟨_, _, rfl⟩

/-- Whenever `generate_where` produces a condition, it is a comparison. -/
theorem generateWhere_comparison {s : Schema} {t : String} {al : Option String}
    {g : G} {w : E} {g' : G}
    (h : generateWhere s t al g = (some (some w), g')) : isComparison w = true := by
  unfold generateWhere at h
  rcases hc : schemaCols s t with _ | colsT
  · rw [hc] at h; simp at h
  · rw [hc] at h
    dsimp only at h
    rcases hch : G.choose g (colsT.map Prod.fst) with ⟨cq, g₁⟩
    rw [hch] at h
    rcases cq with _ | colName
    · simp at h
    · dsimp only at h
      repeat' split at h
      all_goals
        simp only [Prod.mk.injEq, Option.some.injEq] at h
        try (rw [← h.1]; first | exact isComparison_createBinaryOp _ _ _ | rfl)
      all_goals simp_all

/-- Members of the join-candidate scan come from foreign-key entries. -/
theorem fkCandidates_mem {fks : FKeys} {cur : String} (avail : List String)
    {t2 k1 k2 : String} (h : (t2, k1, k2) ∈ fkCandidates fks cur avail) :
    ((cur, t2), (k1, k2)) ∈ fks := by
  unfold fkCandidates at h
  obtain ⟨e, hmem, he⟩ := List.mem_filterMap.mp h
  rcases e with ⟨⟨a, b⟩, ⟨c, d⟩⟩
  split at he
  · rename_i hcond
    simp only [Option.some.injEq, Prod.mk.injEq] at he
    obtain ⟨rfl, rfl, rfl⟩ := he
    simp only [Bool.and_eq_true, beq_iff_eq] at hcond
    rw [hcond.1] at hmem
    exact hmem
  · simp at he

/-- Members of the subquery candidate scan come from foreign-key entries. -/
theorem fkFrom_mem {fks : FKeys} {cur : String} {t2 k1 k2 : String}
    (h : (t2, k1, k2) ∈ fkFrom fks cur) : ((cur, t2), (k1, k2)) ∈ fks := by
  unfold fkFrom at h
  obtain ⟨e, hmem, he⟩ := List.mem_filterMap.mp h
  rcases e with ⟨⟨a, b⟩, ⟨c, d⟩⟩
  split at he
  · rename_i hcond
    simp only [Option.some.injEq, Prod.mk.injEq] at he
    obtain ⟨rfl, rfl, rfl⟩ := he
    simp only [beq_iff_eq] at hcond
    rw [hcond] at hmem
    exact hmem
  · simp at he

/-- With pairwise-distinct keys, a member edge is what the lookup returns. -/
theorem fkLookup_of_mem {fks : FKeys} {key v : String × String}
    (hnd : fkKeysNodup fks) (h : (key, v) ∈ fks) :
    fkLookup fks key = some v := by
  induction fks with
  | nil => simp at h
  | cons e rest ih =>
      have hnd' : (rest.map Prod.fst).Nodup ∧ e.1 ∉ rest.map Prod.fst := by
        unfold fkKeysNodup at hnd
        simp only [List.map_cons, List.nodup_cons] at hnd
        exact ⟨hnd.2, hnd.1⟩
      rcases List.mem_cons.mp h with rfl | htail
      · simp [fkLookup]
      · have hne : (e.1 == key) ≠ true := by
          intro heq
          have heq' : e.1 = key := by simpa using heq
          have hk : key ∈ rest.map Prod.fst :=
            List.mem_map.mpr ⟨(key, v), htail, rfl⟩
          rw [heq'] at hnd'
          exact hnd'.2 hk
        have := ih hnd'.1 htail
        unfold fkLookup at this ⊢
        simp only [List.find?]
        rw [Bool.of_not_eq_true hne]
        exact this


/-- `generate_select` on a non-empty schema table never raises. -/
theorem generateSelect_some {s : Schema} {t : String} (useAgg : Bool)
    (groupByCols : List String) (al : Option String) (g : G)
    {colsT} (hc : schemaCols s t = some colsT) (hne : colsT ≠ []) :
    ∃ sel g', generateSelect s t useAgg groupByCols al g = (some sel, g') := by
  have hmapne : colsT.map Prod.fst ≠ [] := by simpa using hne
  have hlen : 0 < (colsT.map Prod.fst).length := List.length_pos.mpr hmapne
  unfold generateSelect
  rw [hc]
  dsimp only
  split
  · obtain ⟨aggCol, g₁, hchoose, _⟩ :=
      choose_eq_some ((g.choiceD ["COUNT", "SUM", "AVG", "MIN", "MAX"] "COUNT").2)
        (colsT.map Prod.fst) hmapne
    rw [hchoose]
    dsimp only
    repeat' split
    all_goals exact ⟨_, _, rfl⟩
  · split
    · exact ⟨_, _, rfl⟩
    · obtain ⟨numCols, g₂, hrand, h1n, hn4⟩ :=
        randint_some (g.chance 300000).2 1 (min 4 (colsT.map Prod.fst).length)
          (by omega)
      rw [hrand]
      dsimp only
      obtain ⟨sel, g₃, hsample⟩ :=
        sample_some g₂ (colsT.map Prod.fst) numCols (by omega)
      rw [hsample]
      exact ⟨_, _, rfl⟩

/-- Facts the well-formedness predicate gives about one foreign-key edge. -/
theorem wf_edge {s : Schema} {fks : FKeys} (hwf : wfInput s fks = true)
    {e : (String × String) × (String × String)} (he : e ∈ fks) :
    e.1.1 ∈ tableNames s ∧ e.1.2 ∈ tableNames s ∧ e.1.2 ≠ "" := by
  unfold wfInput at hwf
  simp only [Bool.and_eq_true, List.all_eq_true] at hwf
  have := hwf.2 e he
  simp only [Bool.and_eq_true, bne_iff_ne] at this
  obtain ⟨⟨h1, h2⟩, h3⟩ := this
  refine ⟨?_, ?_, h3⟩
  · simpa using h1
  · simpa using h2

/-- Non-empty and non-`id`-filtered-non-empty columns of a well-formed
schema table. -/
theorem wf_table {s : Schema} {fks : FKeys} (hwf : wfInput s fks = true)
    {t : String} {colsT} (hmem : (t, colsT) ∈ s) :
    colsT ≠ [] ∧ (colsT.map Prod.fst).filter (fun c => c != "id") ≠ [] := by
  unfold wfInput at hwf
  simp only [Bool.and_eq_true, List.all_eq_true] at hwf
  have h := hwf.1 (t, colsT) hmem
  simp only [List.any_eq_true, bne_iff_ne] at h
  obtain ⟨cp, hcp, hne⟩ := h
  constructor
  · intro hnil; rw [hnil] at hcp; simp at hcp
  · intro hnil
    have : cp.1 ∈ (colsT.map Prod.fst).filter (fun c => c != "id") := by
      rw [List.mem_filter]
      exact ⟨List.mem_map.mpr ⟨cp, hcp, rfl⟩, by simpa using hne⟩
    rw [hnil] at this
    simp at this


/-- A synthesized join's ON condition equates exactly the key columns the
Foreign-Key Graph stores for the chosen pair, qualified by the two aliases. -/
theorem generateJoin_fk {fks : FKeys} {cur al : String} {avail : List String}
    {g : G} {t2 ta : String} {cond : E} {g' : G} (hnd : fkKeysNodup fks)
    (h : generateJoin fks cur al avail g = (some (some (t2, ta, cond)), g')) :
    ∃ k1 k2, cond = .bin .eq (.col k1 al) (.col k2 ta) ∧
      fkLookup fks (cur, t2) = some (k1, k2) := by
  unfold generateJoin at h
  rcases hcand : fkCandidates fks cur avail with _ | ⟨c, cs⟩
  · rw [hcand] at h
    simp at h
  · rw [hcand] at h
    dsimp only at h
    obtain ⟨x, g₁, hch, hxmem⟩ := choose_eq_some g (c :: cs) (by simp)
    rw [hch] at h
    obtain ⟨tt, k1, k2⟩ := x
    dsimp only at h
    split at h
    · simp at h
    · try dsimp only at h
      simp only [Prod.mk.injEq, Option.some.injEq] at h
      obtain ⟨⟨rfl, rfl, rfl⟩, _⟩ := h
      have hmem : ((cur, tt), (k1, k2)) ∈ fks := by
        apply fkCandidates_mem avail
        rw [hcand]
        exact hxmem
      exact ⟨k1, k2, rfl, fkLookup_of_mem hnd hmem⟩

/-- C6: for every generated query of the join class, a synthesized join's ON
condition equates the stored left key qualified by the root alias with the
stored right key qualified by the target alias, as recorded in the
Foreign-Key Graph for that (root, target) pair; with no synthesized join
the result has no joins. -/
theorem join_on_respects_fk :
    ∀ (s : Schema) (fks : FKeys) (root al : String) (g : G), fkKeysNodup fks →
      JoinOnRespectsFk fks root al (generateQueryWith s fks .join root al g).1 := by
  intro s fks root al g hnd a ha
  unfold generateQueryWith at ha
  rcases hj : generateJoin fks root al [] g with ⟨jq, g₁⟩
  rw [hj] at ha
  rcases jq with _ | mj
  · simp at ha
  rcases mj with _ | ⟨t2, ta, onC⟩
  · dsimp only at ha
    rcases hsel : generateSelect s root false [] (some al) g₁ with ⟨selq, g₂⟩
    rw [hsel] at ha
    rcases selq with _ | sel
    · simp at ha
    · dsimp only at ha
      simp only [Option.some.injEq] at ha
      subst ha
      left
      rfl
  · dsimp only at ha
    rcases hs1 : generateSelect s root false [] (some al)
        (g₁.choiceD ["INNER", "LEFT"] "INNER").2 with ⟨s1q, g₂⟩
    rw [hs1] at ha
    rcases s1q with _ | s1
    · simp at ha
    dsimp only at ha
    rcases hs2 : generateSelect s t2 false [] (some ta) g₂ with ⟨s2q, g₃⟩
    rw [hs2] at ha
    rcases s2q with _ | s2
    · simp at ha
    dsimp only at ha
    rcases hfs : G.sample g₃ (s1 ++ s2) (min (s1 ++ s2).length 4) with ⟨fsq, g₄⟩
    rw [hfs] at ha
    rcases fsq with _ | finalSelects
    · simp at ha
    dsimp only at ha
    rcases hwq : (if (g₄.chance 500000).1 = true then
        generateWhere s t2 (some ta) (g₄.chance 500000).2
      else (some none, (g₄.chance 500000).2)) with ⟨wq, g₅⟩
    rw [hwq] at ha
    rcases wq with _ | whereOpt
    · simp at ha
    dsimp only at ha
    simp only [Option.some.injEq] at ha
    subst ha
    right
    obtain ⟨k1, k2, hcond, hlook⟩ := generateJoin_fk hnd hj
    subst hcond
    exact ⟨_, t2, ta, k1, k2, rfl, hlook⟩

/-- C6 (witness): the join generated over the repository schema from the
users table under the all-zero oracle respects the Foreign-Key Graph. -/
theorem join_on_respects_fk_witness :
    fkKeysNodup FOREIGN_KEYS ∧
    JoinOnRespectsFk FOREIGN_KEYS "users" "u1"
      (generateQueryWith SCHEMA FOREIGN_KEYS .join "users" "u1" gZero).1 :=
  ⟨by unfold fkKeysNodup; decide,
   join_on_respects_fk SCHEMA FOREIGN_KEYS "users" "u1" gZero
     (by unfold fkKeysNodup; decide)⟩


/-- `generate_insert` never raises on a schema table. -/
theorem generateInsert_some {s : Schema} {t : String} (g : G)
    {colsT} (hc : schemaCols s t = some colsT) :
    ∃ a g', generateInsert s t g = (some a, g') := by
  unfold generateInsert
  rw [hc]
  dsimp only
  exact ⟨_, _, rfl⟩

/-- `generate_update` never raises on a well-formed schema table (the WHERE
clause may be absent when a type is uncategorised). -/
theorem generateUpdate_some {s : Schema} {t : String} (g : G)
    {colsT} (hc : schemaCols s t = some colsT)
    (hcne : (colsT.map Prod.fst).filter (fun c => c != "id") ≠ []) :
    ∃ a g', generateUpdate s t g = (some a, g') := by
  have hne : colsT ≠ [] := by
    intro hnil; rw [hnil] at hcne; simp at hcne
  unfold generateUpdate
  rw [hc]
  dsimp only
  obtain ⟨colName, g₁, hchoose, _⟩ :=
    choose_eq_some g ((colsT.map Prod.fst).filter (fun c => c != "id")) hcne
  rw [hchoose]
  dsimp only
  generalize (if typeIn (getColumnType colsT colName) NUMERIC_TYPES = true then
      (E.litNum (Int.ofNat (g₁.randintT 1 1000).1), (g₁.randintT 1 1000).2)
    else if typeIn (getColumnType colsT colName) TEXT_TYPES = true then
      (E.litStr ("Updated text " ++ toString (g₁.randintT 1 100).1), (g₁.randintT 1 100).2)
    else if typeIn (getColumnType colsT colName) DATE_TYPES = true then
      (E.anon "NOW" EL.nil, g₁)
    else if typeIn (getColumnType colsT colName) BOOLEAN_TYPES = true then
      (E.boolE (g₁.choiceD [true, false] true).1, (g₁.choiceD [true, false] true).2)
    else (E.litStr "val", g₁)) = vg
  obtain ⟨v, g₂⟩ := vg
  dsimp only
  obtain ⟨wq, g₃, hw⟩ := generateWhere_outer_some s t none g₂ hc hne
  rw [hw]
  exact ⟨_, _, rfl⟩

/-- `generate_delete` never raises on a non-empty schema table. -/
theorem generateDelete_some {s : Schema} {t : String} (g : G)
    {colsT} (hc : schemaCols s t = some colsT) (hne : colsT ≠ []) :
    ∃ a g', generateDelete s t g = (some a, g') := by
  unfold generateDelete
  obtain ⟨wq, g', hw⟩ := generateWhere_outer_some s t none g hc hne
  rw [hw]
  exact ⟨_, _, rfl⟩

/-- `generate_join` never raises under well-formed input, and any produced
target table is a schema table with a non-empty column list. -/
theorem generateJoin_some {s : Schema} {fks : FKeys} (hwf : wfInput s fks = true)
    (cur al : String) (avail : List String) (g : G) :
    ∃ jq g', generateJoin fks cur al avail g = (some jq, g') ∧
      ∀ t2 ta c, jq = some (t2, ta, c) → t2 ∈ tableNames s := by
  unfold generateJoin
  rcases hcand : fkCandidates fks cur avail with _ | ⟨c, cs⟩
  · exact ⟨none, g, rfl, by simp⟩
  · dsimp only
    obtain ⟨x, g₁, hch, hxmem⟩ := choose_eq_some g (c :: cs) (by simp)
    rw [hch]
    obtain ⟨t2, k1, k2⟩ := x
    dsimp only
    have hmem : ((cur, t2), (k1, k2)) ∈ fks := by
      apply fkCandidates_mem avail
      rw [hcand]
      exact hxmem
    have hedge := wf_edge hwf hmem
    rw [if_neg (by simpa using hedge.2.2)]
    exact ⟨_, _, rfl, by intro a b c h; cases h; exact hedge.2.1⟩

/-- The simple class never fails on a non-empty schema table. -/
theorem genSimple_some {s : Schema} (fks : FKeys) (root al : String) (g : G)
    {colsT} (hc : schemaCols s root = some colsT) (hne : colsT ≠ []) :
    ∃ a g', generateQueryWith s fks .simple root al g = (some a, g') := by
  unfold generateQueryWith
  obtain ⟨sel, g₁, hsel⟩ := generateSelect_some false [] (some al) g hc hne
  rw [hsel]
  dsimp only
  have hwq : ∃ wq g₂, (if ((g₁.chance 500000).1 : Bool) = true then
      generateWhere s root (some al) (g₁.chance 500000).2
    else (some none, (g₁.chance 500000).2)) = (some wq, g₂) := by
    split
    · exact generateWhere_outer_some _ _ _ _ hc hne
    · exact ⟨_, _, rfl⟩
  obtain ⟨wq, g₂, hwqe⟩ := hwq
  rw [hwqe]
  dsimp only
  cases hb : ((g₂.chance 300000).1 : Bool) with
  | false =>
      simp only [Bool.false_eq_true, if_false]
      split
      all_goals exact ⟨_, _, rfl⟩
  | true =>
      simp only [if_true]
      rw [hc]
      dsimp only
      obtain ⟨cn, g', hcn, _⟩ :=
        choose_eq_some ((g₂.chance 300000).2) (colsT.map Prod.fst) (by simpa using hne)
      rw [hcn]
      dsimp only
      split
      all_goals exact ⟨_, _, rfl⟩


/-- The join class never fails under well-formed input. -/
theorem genJoinClass_some {s : Schema} {fks : FKeys} (hwf : wfInput s fks = true)
    (root al : String) (g : G) (hroot : root ∈ tableNames s) :
    ∃ a g', generateQueryWith s fks .join root al g = (some a, g') := by
  obtain ⟨colsT, hc, hmem⟩ := schemaCols_of_mem hroot
  have hne : colsT ≠ [] := (wf_table hwf hmem).1
  unfold generateQueryWith
  obtain ⟨jq, g₁, hj, hjt⟩ := generateJoin_some hwf root al [] g
  rw [hj]
  rcases jq with _ | ⟨t2, ta, onC⟩
  · dsimp only
    obtain ⟨sel, g₂, hsel⟩ := generateSelect_some false [] (some al) g₁ hc hne
    rw [hsel]
    exact ⟨_, _, rfl⟩
  · dsimp only
    have ht2 : t2 ∈ tableNames s := hjt t2 ta onC rfl
    obtain ⟨cols2, hc2, hmem2⟩ := schemaCols_of_mem ht2
    have hne2 : cols2 ≠ [] := (wf_table hwf hmem2).1
    obtain ⟨s1, g₂, hs1⟩ := generateSelect_some false [] (some al)
      ((g₁.choiceD ["INNER", "LEFT"] "INNER").2) hc hne
    rw [hs1]
    dsimp only
    obtain ⟨s2, g₃, hs2⟩ := generateSelect_some false [] (some ta) g₂ hc2 hne2
    rw [hs2]
    dsimp only
    obtain ⟨fs, g₄, hfs⟩ := sample_some g₃ (s1 ++ s2)
      (min (s1 ++ s2).length 4) (Nat.min_le_left _ _)
    rw [hfs]
    dsimp only
    have hwq : ∃ wq g₅, (if ((g₄.chance 500000).1 : Bool) = true then
        generateWhere s t2 (some ta) (g₄.chance 500000).2
      else (some none, (g₄.chance 500000).2)) = (some wq, g₅) := by
      split
      · exact generateWhere_outer_some _ _ _ _ hc2 hne2
      · exact ⟨_, _, rfl⟩
    obtain ⟨wq, g₅, hwqe⟩ := hwq
    rw [hwqe]
    exact ⟨_, _, rfl⟩

/-- The aggregate class never fails on a non-empty schema table. -/
theorem genAggregate_some {s : Schema} (fks : FKeys) (root al : String) (g : G)
    {colsT} (hc : schemaCols s root = some colsT) (hne : colsT ≠ []) :
    ∃ a g', generateQueryWith s fks .aggregate root al g = (some a, g') := by
  unfold generateQueryWith
  rw [hc]
  dsimp only
  obtain ⟨gc, g₁, hgc, _⟩ := choose_eq_some g (colsT.map Prod.fst) (by simpa using hne)
  rw [hgc]
  dsimp only
  obtain ⟨sel, g₂, hsel⟩ := generateSelect_some true [gc] (some al) g₁ hc hne
  rw [hsel]
  exact ⟨_, _, rfl⟩

/-- The self-join advanced subtype never fails. -/
theorem genAdvSelfJoin_some (root al : String) (g : G) :
    ∃ a g', genAdvSelfJoin root al g = (some a, g') := by
  unfold genAdvSelfJoin
  exact ⟨_, _, rfl⟩

/-- The derived-table advanced subtype never fails on a non-empty schema
table. -/
theorem genAdvSubqueryFrom_some {s : Schema} (root : String) (g : G)
    {colsT} (hc : schemaCols s root = some colsT) (hne : colsT ≠ []) :
    ∃ a g', genAdvSubqueryFrom s root g = (some a, g') := by
  unfold genAdvSubqueryFrom
  dsimp only
  obtain ⟨iwq, g₁, hiw⟩ :=
    generateWhere_outer_some _ _ (some ("inner_" ++ root)) g hc hne
  rw [hiw]
  dsimp only
  cases hb : ((g₁.chance 500000).1 : Bool) with
  | false =>
      simp only [Bool.false_eq_true, if_false]
      exact ⟨_, _, rfl⟩
  | true =>
      simp only [if_true]
      rw [hc]
      dsimp only
      obtain ⟨cn, g₂, hcn, _⟩ :=
        choose_eq_some ((g₁.chance 500000).2) (colsT.map Prod.fst) (by simpa using hne)
      rw [hcn]
      dsimp only
      obtain ⟨owq, g₃, how⟩ := generateWhere_outer_some _ _ (some "derived_table") g₂ hc hne
      rw [how]
      exact ⟨_, _, rfl⟩

/-- The IN-subquery advanced subtype never fails under well-formed input. -/
theorem genAdvSubqueryWhere_some {s : Schema} {fks : FKeys}
    (hwf : wfInput s fks = true) (root al : String) (g : G)
    (hroot : root ∈ tableNames s) :
    ∃ a g', genAdvSubqueryWhere s fks root al g = (some a, g') := by
  obtain ⟨colsT, hc, hmem⟩ := schemaCols_of_mem hroot
  have hne : colsT ≠ [] := (wf_table hwf hmem).1
  unfold genAdvSubqueryWhere
  obtain ⟨sel, g₁, hsel⟩ := generateSelect_some false [] (some al) g hc hne
  rw [hsel]
  dsimp only
  rcases hcand : fkFrom fks root with _ | ⟨c, cs⟩
  · dsimp only
    obtain ⟨wq, g₂, hwq⟩ := generateWhere_outer_some _ _ (some al) g₁ hc hne
    rw [hwq]
    exact ⟨_, _, rfl⟩
  · dsimp only
    obtain ⟨x, g₂, hch, hxmem⟩ := choose_eq_some g₁ (c :: cs) (by simp)
    rw [hch]
    obtain ⟨t2, k1, k2⟩ := x
    dsimp only
    have hmem2 : ((root, t2), (k1, k2)) ∈ fks := by
      apply fkFrom_mem
      rw [hcand]
      exact hxmem
    have hedge := wf_edge hwf hmem2
    rw [if_neg (by simpa using hedge.2.2)]
    obtain ⟨cols2, hc2, hm2⟩ := schemaCols_of_mem hedge.2.1
    have hne2 : cols2 ≠ [] := (wf_table hwf hm2).1
    obtain ⟨swq, g₃, hsw⟩ :=
      generateWhere_outer_some _ _ (some ("sub_" ++ String.mk (t2.data.take 1))) g₂ hc2 hne2
    rw [hsw]
    exact ⟨_, _, rfl⟩

/-- The advanced class never fails under well-formed input. -/
theorem genAdvanced_some {s : Schema} {fks : FKeys} (hwf : wfInput s fks = true)
    (root al : String) (g : G) (hroot : root ∈ tableNames s) :
    ∃ a g', generateQueryWith s fks .advanced root al g = (some a, g') := by
  obtain ⟨colsT, hc, hmem⟩ := schemaCols_of_mem hroot
  have hne : colsT ≠ [] := (wf_table hwf hmem).1
  unfold generateQueryWith
  dsimp only
  split
  · exact genAdvSubqueryWhere_some hwf root al _ hroot
  · split
    · exact genAdvSubqueryFrom_some root _ hc hne
    · exact genAdvSelfJoin_some root al _

/-- C7: under well-formed schema and foreign-key input the generator never
fails for any complexity class, any schema root table and any oracle; when
a join target is unavailable the join class degrades to a plain select, and
when no foreign key leaves the root the subquery-WHERE advanced subtype
degrades to a plain comparison filter. -/
theorem generator_never_fails :
    ∀ (s : Schema) (fks : FKeys), wfInput s fks = true →
      GeneratorTotalOn s fks ∧ JoinDegradesToSimple s fks ∧
        AdvancedWhereDegrades s fks := by
  intro s fks hwf
  refine ⟨?_, ?_, ?_⟩
  · intro c root al g hroot
    obtain ⟨colsT, hc, hmem⟩ := schemaCols_of_mem hroot
    obtain ⟨hne, hcne⟩ := wf_table hwf hmem
    cases c with
    | simple =>
        obtain ⟨a, g', h⟩ := genSimple_some fks root al g hc hne
        rw [h]; rfl
    | join =>
        obtain ⟨a, g', h⟩ := genJoinClass_some hwf root al g hroot
        rw [h]; rfl
    | aggregate =>
        obtain ⟨a, g', h⟩ := genAggregate_some fks root al g hc hne
        rw [h]; rfl
    | advanced =>
        obtain ⟨a, g', h⟩ := genAdvanced_some hwf root al g hroot
        rw [h]; rfl
    | insert =>
        show (generateInsert s root g).1.isSome = true
        obtain ⟨a, g', h⟩ := generateInsert_some g hc
        rw [h]; rfl
    | update =>
        show (generateUpdate s root g).1.isSome = true
        obtain ⟨a, g', h⟩ := generateUpdate_some g hc hcne
        rw [h]; rfl
    | delete =>
        show (generateDelete s root g).1.isSome = true
        obtain ⟨a, g', h⟩ := generateDelete_some g hc hne
        rw [h]; rfl
  · intro root al g hcand a ha
    have hj : generateJoin fks root al [] g = (some none, g) := by
      unfold generateJoin
      rw [hcand]
    unfold generateQueryWith at ha
    rw [hj] at ha
    dsimp only at ha
    rcases hsel : generateSelect s root false [] (some al) g with ⟨selq, g₂⟩
    rw [hsel] at ha
    rcases selq with _ | sel
    · simp at ha
    · dsimp only at ha
      simp only [Option.some.injEq] at ha
      exact ⟨EL.ofList sel, ha.symm⟩
  · intro root al g hfkfrom a ha
    unfold genAdvSubqueryWhere at ha
    rcases hsel : generateSelect s root false [] (some al) g with ⟨selq, g₁⟩
    rw [hsel] at ha
    rcases selq with _ | sel
    · simp at ha
    dsimp only at ha
    rw [hfkfrom] at ha
    dsimp only at ha
    rcases hwq : generateWhere s root (some al) g₁ with ⟨wq, g₂⟩
    rw [hwq] at ha
    rcases wq with _ | w
    · simp at ha
    dsimp only at ha
    simp only [Option.some.injEq] at ha
    refine ⟨EL.ofList sel, w, ha.symm, ?_⟩
    intro cnd hcnd
    subst hcnd
    exact generateWhere_comparison hwq

/-- C7 (witness): a one-table schema with no foreign keys: generation
succeeds and both degradation paths are exercised. -/
theorem generator_never_fails_witness :
    wfInput [("t", [("a", "int")])] [] = true ∧
    (GeneratorTotalOn [("t", [("a", "int")])] [] ∧
     JoinDegradesToSimple [("t", [("a", "int")])] [] ∧
     AdvancedWhereDegrades [("t", [("a", "int")])] []) :=
  ⟨by decide, generator_never_fails [("t", [("a", "int")])] [] (by decide)⟩


/-! C3: the pronoun ghost counter. -/

theorem renderTable_count (act : PerturbationType → Bool) (seed : Int) (e : E) (ctx : String)
    (hA : act .ambiguousPronouns = true) (hU : act .underSpecification = false) :
    (renderTable act seed e ctx).2 = 1 := by
  unfold renderTable
  rw [hA, hU]
  simp

theorem renderJoin_count (act : PerturbationType → Bool) (seed : Int)
    (hA : act .ambiguousPronouns = true) (hU : act .underSpecification = false) :
    ∀ fuel (e : E) (ctx : String), 1 ≤ fuel →
      1 ≤ (renderJoin fuel act seed e ctx).2 := by
  intro fuel e ctx hf
  match fuel, hf with
  | f + 1, _ =>
    unfold renderJoin
    dsimp only
    split
    · dsimp only
      rw [renderTable_count act seed _ _ hA hU]
    · dsimp only
      rw [renderTable_count act seed _ _ hA hU]
      omega

theorem renderJoins_count (act : PerturbationType → Bool) (seed : Int)
    (hA : act .ambiguousPronouns = true) (hU : act .underSpecification = false) :
    ∀ (js : EL) (fuel i : Nat), EL.length js + 1 ≤ fuel →
      EL.length js ≤ ((renderJoins fuel act seed i js).map Prod.snd).sum := by
  intro js
  match js with
  | .nil => intro fuel i hf; exact Nat.zero_le _
  | .cons j rest =>
      have ih := renderJoins_count act seed hA hU rest
      intro fuel i hf
      match fuel, hf with
      | f + 1, hf =>
        unfold renderJoins
        dsimp only
        simp only [List.map_cons, List.sum_cons]
        have hlen : EL.length (EL.cons j rest) = EL.length rest + 1 := by
          simp [EL.length]
          omega
        have h1 := renderJoin_count act seed hA hU f j ("join_" ++ toString i) (by omega)
        have h2 := ih f (i + 1) (by omega)
        omega

theorem renderSelect_count (act : PerturbationType → Bool) (seed : Int)
    (hA : act .ambiguousPronouns = true) (hU : act .underSpecification = false)
    (cols : EL) (tE : E) (joins : EL) (w : Option E) (gb : EL) (hv : Option E)
    (ob : EL) (lim : Option E) :
    ∀ fuel, EL.length joins + 3 ≤ fuel →
      1 + EL.length joins ≤
        (renderSelect fuel act seed (.select cols (some tE) joins w gb hv ob lim)).2 := by
  intro fuel hf
  match fuel, hf with
  | f + 1, hf =>
    unfold renderSelect
    dsimp only
    match f, hf with
    | f2 + 1, hf =>
      unfold renderFromClause
      dsimp only [optPart, partsJoin]
      simp only [List.map_append, List.sum_append, List.map_cons, List.sum_cons]
      rw [renderTable_count act seed _ _ hA hU]
      have h2 := renderJoins_count act seed hA hU joins f2 0 (by omega)
      omega

/-- C3 (counterexample): with AMBIGUOUS_PRONOUNS active, a single render of a
one-join SELECT performs two pronoun substitutions — there is no per-render
counter limiting them to one. -/
theorem pronoun_rate_limit_refuted :
    ¬ ((render emptySql ⟨[.ambiguousPronouns], 42⟩ astJoinC).2 ≤ 1) := by
  decide

theorem len_le_sizeEL : ∀ js : EL, EL.length js ≤ sizeEL js := by
  intro js
  match js with
  | .nil => simp [EL.length, sizeEL]
  | .cons j rest =>
      have ih := len_le_sizeEL rest
      simp [EL.length, sizeEL]
      omega

/-- Sufficient fuel for a SELECT covers its join list plus the clause
nesting. -/
theorem renderFuel_select_ge (cols : EL) (tE : E) (joins : EL) (w : Option E)
    (gb : EL) (hv : Option E) (ob : EL) (lim : Option E) :
    EL.length joins + 3 ≤ renderFuel (.select cols (some tE) joins w gb hv ob lim) := by
  have h := len_le_sizeEL joins
  unfold renderFuel
  rcases w with _ | wv <;> rcases hv with _ | hvv <;> rcases lim with _ | lv <;>
    (conv in sizeE _ => whnf) <;> simp only [Nat.add_eq] <;> omega

set_option maxHeartbeats 1000000 in
/-- C3 (amended): pronoun substitution has no rate limit — with
AMBIGUOUS_PRONOUNS active and UNDER_SPECIFICATION inactive, rendering a
SELECT with a FROM source substitutes a pronoun for the source table and for
every joined table, so the substitution count is at least one plus the
number of joins. -/
theorem pronoun_substitutions_unbounded :
    ∀ (sqlText : E → String) (cfg : PerturbationConfig) (cols : EL) (tE : E)
      (joins : EL) (w : Option E) (gb : EL) (hv : Option E) (ob : EL)
      (lim : Option E),
      cfg.isActive .ambiguousPronouns = true →
      cfg.isActive .underSpecification = false →
      1 + EL.length joins ≤
        (render sqlText cfg (.select cols (some tE) joins w gb hv ob lim)).2 := by
  intro sqlText cfg cols tE joins w gb hv ob lim hA hU
  unfold render renderA
  dsimp only
  have hfuel := renderFuel_select_ge cols tE joins w gb hv ob lim
  have hc := renderSelect_count (fun p => cfg.isActive p) cfg.seed
    hA hU cols tE joins w gb hv ob lim _ hfuel
  split
  · exact hc
  · exact hc

/-- C3 (amended, witness): the one-join SELECT with only AMBIGUOUS_PRONOUNS
active gets at least two substitutions. -/
theorem pronoun_substitutions_unbounded_witness :
    (PerturbationConfig.isActive ⟨[.ambiguousPronouns], 42⟩ .ambiguousPronouns = true ∧
     PerturbationConfig.isActive ⟨[.ambiguousPronouns], 42⟩ .underSpecification = false) ∧
    1 + EL.length (.cons (.join "" (.tbl "posts" "p1")
      (some (.bin .eq (.col "id" "u1") (.col "user_id" "p1")))) .nil) ≤
      (render emptySql ⟨[.ambiguousPronouns], 42⟩
        (.select (.cons .star .nil) (some (.tbl "users" "u1"))
          (.cons (.join "" (.tbl "posts" "p1")
            (some (.bin .eq (.col "id" "u1") (.col "user_id" "p1")))) .nil)
          none .nil none .nil none)).2 :=
  ⟨⟨by decide, by decide⟩,
   pronoun_substitutions_unbounded emptySql ⟨[.ambiguousPronouns], 42⟩
     (.cons .star .nil) (.tbl "users" "u1")
     (.cons (.join "" (.tbl "posts" "p1")
       (some (.bin .eq (.col "id" "u1") (.col "user_id" "p1")))) .nil)
     none .nil none .nil none (by decide) (by decide)⟩


/-! C9: the typo pass. -/

/-- On a word longer than three characters, one typo-loop iteration always
produces a swap, deletion, or duplication at some position. -/
theorem typoWord_eligible (r : RSrc) (w : String) (h : 3 < w.length) :
    IsTypoOf w (typoWord r w).1 := by
  unfold typoWord
  dsimp only
  repeat' split
  all_goals
    first
      | exact ⟨_, Or.inl rfl⟩
      | exact ⟨_, Or.inr (Or.inl rfl)⟩
      | exact ⟨_, Or.inr (Or.inr rfl)⟩
      | exact False.elim (by omega)

theorem applyTyposAt_len : ∀ (idxs : List Nat) (r : RSrc) (ws : List String),
    (applyTyposAt r ws idxs).1.length = ws.length := by
  intro idxs
  induction idxs with
  | nil => intro r ws; rfl
  | cons i is ih =>
      intro r ws
      unfold applyTyposAt
      dsimp only
      rw [ih]
      exact List.length_set ws i _

theorem applyTyposAt_spec : ∀ (idxs : List Nat) (r : RSrc) (ws : List String),
    idxs.Nodup →
    (∀ i ∈ idxs, i < ws.length ∧ 3 < (ws.getD i "").length) →
    (∀ j, j ∉ idxs → (applyTyposAt r ws idxs).1.getD j "" = ws.getD j "") ∧
    (∀ j ∈ idxs, IsTypoOf (ws.getD j "") ((applyTyposAt r ws idxs).1.getD j "")) := by
  intro idxs
  induction idxs with
  | nil => intro r ws _ _; exact ⟨fun j _ => rfl, fun j hj => absurd hj (List.not_mem_nil j)⟩
  | cons i is ih =>
      intro r ws hnd hok
      have hi := hok i (List.mem_cons_self i is)
      have hiis : i ∉ is := (List.nodup_cons.mp hnd).1
      unfold applyTyposAt
      dsimp only
      have hset : ∀ j, j ≠ i →
          (ws.set i (typoWord r (ws.getD i "")).1).getD j "" = ws.getD j "" := by
        intro j hj
        simp [List.getD_eq_getElem?_getD, List.getElem?_set_ne (Ne.symm hj)]
      have hseti : (ws.set i (typoWord r (ws.getD i "")).1).getD i "" =
          (typoWord r (ws.getD i "")).1 := by
        simp [List.getD_eq_getElem?_getD, List.getElem?_set_self, hi.1]
      have hok2 : ∀ j ∈ is, j < (ws.set i (typoWord r (ws.getD i "")).1).length ∧
          3 < ((ws.set i (typoWord r (ws.getD i "")).1).getD j "").length := by
        intro j hj
        have hji : j ≠ i := fun he => hiis (he ▸ hj)
        rw [List.length_set, hset j hji]
        exact hok j (List.mem_cons_of_mem i hj)
      obtain ⟨h1, h2⟩ := ih _ _ (List.nodup_cons.mp hnd).2 hok2
      constructor
      · intro j hj
        have hji : j ≠ i := fun he => hj (he ▸ List.mem_cons_self i is)
        have hjis : j ∉ is := fun he => hj (List.mem_cons_of_mem i he)
        rw [h1 j hjis, hset j hji]
      · intro j hj
        rcases List.mem_cons.mp hj with he | hm
        · subst he
          rw [h1 j hiis, hseti]
          exact typoWord_eligible r _ hi.2
        · have hji : j ≠ i := fun he => hiis (he ▸ hm)
          have := h2 j hm
          rwa [hset j hji] at this

theorem typoable_aux_mem : ∀ (ws : List String) (i0 j : Nat),
    j ∈ typoableIdxAux i0 ws →
    i0 ≤ j ∧ j - i0 < ws.length ∧ eligibleWord (ws.getD (j - i0) "") = true := by
  intro ws
  induction ws with
  | nil => intro i0 j hj; simp [typoableIdxAux] at hj
  | cons w ws ih =>
      intro i0 j hj
      unfold typoableIdxAux at hj
      by_cases he : eligibleWord w = true
      · rw [if_pos he] at hj
        rcases List.mem_cons.mp hj with rfl | hm
        · refine ⟨Nat.le_refl _, by simp, ?_⟩
          simpa using he
        · obtain ⟨ha, hb, hc⟩ := ih (i0 + 1) j hm
          refine ⟨by omega, by simp; omega, ?_⟩
          have hd : j - i0 = (j - (i0 + 1)) + 1 := by omega
          rw [hd, List.getD_cons_succ]
          exact hc
      · rw [if_neg he] at hj
        obtain ⟨ha, hb, hc⟩ := ih (i0 + 1) j hj
        refine ⟨by omega, by simp; omega, ?_⟩
        have hd : j - i0 = (j - (i0 + 1)) + 1 := by omega
        rw [hd, List.getD_cons_succ]
        exact hc

theorem typoable_aux_nodup : ∀ (ws : List String) (i0 : Nat),
    (typoableIdxAux i0 ws).Nodup := by
  intro ws
  induction ws with
  | nil => intro i0; simp [typoableIdxAux]
  | cons w ws ih =>
      intro i0
      unfold typoableIdxAux
      by_cases he : eligibleWord w = true
      · rw [if_pos he]
        refine List.nodup_cons.mpr ⟨?_, ih (i0 + 1)⟩
        intro hm
        have := (typoable_aux_mem ws (i0 + 1) i0 hm).1
        omega
      · rw [if_neg he]
        exact ih (i0 + 1)

theorem choiceD_le_two (r : RSrc) : ((r.choiceD [1, 2] 1).1 : Nat) ≤ 2 := by
  unfold RSrc.choiceD
  dsimp only
  rcases (r.next [1, 2].length).1 with _ | _ | k <;> simp [List.getD]

/-- C9 (counterexample): the typo pass can modify zero words — on the
non-empty text "a b c" (which has no word longer than three characters) the
output is unchanged for the default seed, so a render with TYPOS active need
not modify any word. -/
theorem typos_at_least_one_refuted :
    applyTypos 42 "a b c" = "a b c" ∧ splitWs "a b c" ≠ [] := by
  exact ⟨rfl, by decide⟩

/-- C9 (amended): the typo pass modifies between zero and two words: either
the text passes through unchanged, or there is a set of one or two distinct
word positions, each holding a word longer than three characters that is not
a protected SQL keyword, such that every off-set word is unchanged and every
in-set word is rewritten by an adjacent-character swap, a character
deletion, or a character duplication. -/
theorem typos_zero_to_two :
    ∀ (seed : Int) (text : String),
      applyTypos seed text = text ∨
      ∃ (ws' : List String) (S : List Nat),
        applyTypos seed text = joinSep " " ws' ∧
        ws'.length = (splitWs text).length ∧
        S.Nodup ∧ 1 ≤ S.length ∧ S.length ≤ 2 ∧
        (∀ i ∈ S, i < (splitWs text).length ∧
          eligibleWord ((splitWs text).getD i "") = true) ∧
        (∀ j, j ∉ S → ws'.getD j "" = (splitWs text).getD j "") ∧
        (∀ i ∈ S, IsTypoOf ((splitWs text).getD i "") (ws'.getD i "")) := by
  intro seed text
  unfold applyTypos
  dsimp only
  split
  · exact Or.inl rfl
  · set r := mkRng seed "typos" with hr
    set nt := (if (splitWs text).length < 5 then
        ((if (r.below 700000).1 = true then 1 else 0), (r.below 700000).2)
      else
        if (r.below 800000).1 = true then (r.below 800000).2.choiceD [1, 2] 1
        else (0, (r.below 800000).2)).1 with hnt
    have hnt2 : nt ≤ 2 := by
      rw [hnt]
      split
      · dsimp only
        split <;> omega
      · split
        · exact choiceD_le_two _
        · dsimp only
          omega
    split
    · exact Or.inl rfl
    · rename_i hne0
      split
      · exact Or.inl rfl
      · rename_i htne
        right
        set ws := splitWs text with hws
        set tyb := typoableIndices ws with htyb
        have htybne : tyb ≠ [] := fun he => htne (by rw [he]; rfl)
        set k := min nt tyb.length with hk
        set drawn := sampleIdx ((if ws.length < 5 then
            ((if (r.below 700000).1 = true then 1 else 0), (r.below 700000).2)
          else
            if (r.below 800000).1 = true then (r.below 800000).2.choiceD [1, 2] 1
            else (0, (r.below 800000).2)).2) tyb k with hdrawn
        refine ⟨(applyTyposAt drawn.2 ws drawn.1).1, drawn.1, rfl, applyTyposAt_len _ _ _, ?_⟩
        have hmemty : ∀ i ∈ drawn.1, i ∈ tyb := by
          intro i hi
          rw [hdrawn] at hi
          unfold sampleIdx at hi
          dsimp only at hi
          have := List.take_subset k _ hi
          exact (List.mem_rotate).mp this
        have hmem : ∀ i ∈ drawn.1, i < ws.length ∧
            eligibleWord (ws.getD i "") = true := by
          intro i hi
          have h2 := typoable_aux_mem ws 0 i (hmemty i hi)
          exact ⟨by omega, by simpa using h2.2.2⟩
        have hnd : drawn.1.Nodup := by
          rw [hdrawn]
          unfold sampleIdx
          dsimp only
          exact List.Nodup.sublist (List.take_sublist _ _)
            ((List.nodup_rotate).mpr (typoable_aux_nodup ws 0))
        have hlen : drawn.1.length = k := by
          rw [hdrawn]
          unfold sampleIdx
          dsimp only
          rw [List.length_take, List.length_rotate]
          omega
        have hok : ∀ i ∈ drawn.1, i < ws.length ∧ 3 < (ws.getD i "").length := by
          intro i hi
          obtain ⟨h1, h2⟩ := hmem i hi
          refine ⟨h1, ?_⟩
          unfold eligibleWord at h2
          have := (Bool.and_eq_true _ _).mp h2
          simpa using this.2
        obtain ⟨hoff, hin⟩ := applyTyposAt_spec drawn.1 drawn.2 ws hnd hok
        have htyblen : 1 ≤ tyb.length := by
          cases htybe : tyb with
          | nil => exact absurd htybe htybne
          | cons a l => simp
        refine ⟨hnd, ?_, ?_, hmem, hoff, hin⟩
        · rw [hlen, hk]
          have : 1 ≤ nt := Nat.one_le_iff_ne_zero.mpr hne0
          omega
        · rw [hlen, hk]
          omega

theorem occursL_nil : ∀ l : List Char, occursL [] l = true := by
  intro l
  cases l <;> rfl

theorem isPre_append_left : ∀ (p u v : List Char), p.length ≤ u.length →
    isPre p (u ++ v) = true → isPre p u = true := by
  intro p
  induction p with
  | nil => intro u v _ _; rfl
  | cons c p' ih =>
      intro u v hl hp
      cases u with
      | nil => simp at hl
      | cons d u' =>
          simp only [List.cons_append] at hp
          unfold isPre at hp ⊢
          obtain ⟨h1, h2⟩ := (Bool.and_eq_true _ _).mp hp
          exact (Bool.and_eq_true _ _).mpr ⟨h1, ih u' v (by simpa using hl) h2⟩

theorem isPre_chars : ∀ (p u v : List Char), isPre p (u ++ v) = true →
    u.length ≤ p.length → ∀ c ∈ u, c ∈ p := by
  intro p
  induction p with
  | nil =>
      intro u v hp hl c hc
      cases u with
      | nil => simp at hc
      | cons d u' => simp at hl
  | cons a p' ih =>
      intro u v hp hl c hc
      cases u with
      | nil => simp at hc
      | cons d u' =>
          simp only [List.cons_append] at hp
          unfold isPre at hp
          obtain ⟨h1, h2⟩ := (Bool.and_eq_true _ _).mp hp
          rcases List.mem_cons.mp hc with rfl | hm
          · have : a = c := by simpa using h1
            exact this ▸ List.mem_cons_self a p'
          · exact List.mem_cons_of_mem a (ih u' v h2 (by simpa using hl) c hm)

theorem isPre_head_mem : ∀ (p u : List Char) (d : Char) (w : List Char),
    isPre p (u ++ d :: w) = true → u.length < p.length → d ∈ p := by
  intro p
  induction p with
  | nil => intro u d w _ hl; simp at hl
  | cons a p' ih =>
      intro u d w hp hl
      cases u with
      | nil =>
          simp only [List.nil_append] at hp
          unfold isPre at hp
          obtain ⟨h1, _⟩ := (Bool.and_eq_true _ _).mp hp
          have : a = d := by simpa using h1
          exact this ▸ List.mem_cons_self a p'
      | cons c u' =>
          simp only [List.cons_append] at hp
          unfold isPre at hp
          obtain ⟨_, h2⟩ := (Bool.and_eq_true _ _).mp hp
          exact List.mem_cons_of_mem a (ih u' d w h2 (by simpa using hl))

theorem isPre_mono : ∀ (p u v : List Char), isPre p u = true →
    isPre p (u ++ v) = true := by
  intro p
  induction p with
  | nil => intro u v _; rfl
  | cons c p' ih =>
      intro u v hp
      cases u with
      | nil => simp [isPre] at hp
      | cons d u' =>
          simp only [List.cons_append]
          unfold isPre at hp ⊢
          obtain ⟨h1, h2⟩ := (Bool.and_eq_true _ _).mp hp
          exact (Bool.and_eq_true _ _).mpr ⟨h1, ih u' v h2⟩

theorem occursL_append_mono : ∀ (p u v : List Char), occursL p u = true →
    occursL p (u ++ v) = true := by
  intro p u
  induction u with
  | nil =>
      intro v hu
      have : p = [] := by
        unfold occursL at hu
        simpa using hu
      subst this
      exact occursL_nil v
  | cons d u' ih =>
      intro v hu
      unfold occursL at hu
      rcases (Bool.or_eq_true _ _).mp hu with h | h
      · show occursL p (d :: (u' ++ v)) = true
        unfold occursL
        exact (Bool.or_eq_true _ _).mpr (Or.inl (isPre_mono p (d :: u') v h))
      · show occursL p (d :: (u' ++ v)) = true
        unfold occursL
        exact (Bool.or_eq_true _ _).mpr (Or.inr (ih v h))

theorem occursL_append_safeR : ∀ (p u v : List Char),
    occursL p u = false → occursL p v = false →
    (∀ d w, v = d :: w → d ∉ p) →
    occursL p (u ++ v) = false := by
  intro p u
  induction u with
  | nil => intro v _ hv _; simpa using hv
  | cons c u' ih =>
      intro v hu hv hsep
      unfold occursL at hu
      have hu1 : isPre p (c :: u') = false := by
        cases hp : isPre p (c :: u') <;> simp [hp] at hu ⊢
      have hu2 : occursL p u' = false := by
        cases hp : occursL p u' <;> simp [hp] at hu ⊢
      show occursL p (c :: (u' ++ v)) = false
      unfold occursL
      have hrec := ih v hu2 hv hsep
      have hpre : isPre p ((c :: u') ++ v) = false := by
        cases hb : isPre p ((c :: u') ++ v)
        · rfl
        · exfalso
          by_cases hl : p.length ≤ (c :: u').length
          · rw [isPre_append_left p (c :: u') v hl hb] at hu1
            simp at hu1
          · cases v with
            | nil =>
                rw [List.append_nil] at hb
                rw [hb] at hu1
                simp at hu1
            | cons d w =>
                exact hsep d w rfl (isPre_head_mem p (c :: u') d w hb (by omega))
      simp only [List.cons_append] at hpre
      simp [hpre, hrec]

theorem occursL_append_safeL : ∀ (p u v : List Char),
    occursL p u = false → occursL p v = false →
    (∀ c, u.getLast? = some c → c ∉ p) →
    occursL p (u ++ v) = false := by
  intro p u
  induction u with
  | nil => intro v _ hv _; simpa using hv
  | cons c u' ih =>
      intro v hu hv hsep
      unfold occursL at hu
      have hu1 : isPre p (c :: u') = false := by
        cases hp : isPre p (c :: u') <;> simp [hp] at hu ⊢
      have hu2 : occursL p u' = false := by
        cases hp : occursL p u' <;> simp [hp] at hu ⊢
      show occursL p (c :: (u' ++ v)) = false
      unfold occursL
      have hrec : occursL p (u' ++ v) = false := by
        cases u' with
        | nil => simpa using hv
        | cons c2 u2 =>
            refine ih v hu2 hv ?_
            intro x hx
            apply hsep
            rwa [List.getLast?_cons_cons]
      have hpre : isPre p ((c :: u') ++ v) = false := by
        cases hb : isPre p ((c :: u') ++ v)
        · rfl
        · exfalso
          by_cases hl : p.length ≤ (c :: u').length
          · rw [isPre_append_left p (c :: u') v hl hb] at hu1
            simp at hu1
          · obtain ⟨x, hx⟩ : ∃ x, (c :: u').getLast? = some x :=
              ⟨(c :: u').getLast (by simp), List.getLast?_eq_getLast _ (by simp)⟩
            refine hsep x hx ?_
            have hxm : x ∈ c :: u' := List.mem_of_mem_getLast? (by rw [hx]; rfl)
            exact isPre_chars p (c :: u') v hb (by omega) x hxm
      simp only [List.cons_append] at hpre
      simp [hpre, hrec]

theorem patON_sub : ∀ c ∈ patON, c ∈ patChars := by decide

theorem patJOIN_sub : ∀ c ∈ patJOIN, c ∈ patChars := by decide

theorem strOk_parts {s : String} (h : strOk s = true) :
    occursL patON s.data = false ∧ occursL patJOIN s.data = false := by
  unfold strOk at h
  obtain ⟨h1, h2⟩ := (Bool.and_eq_true _ _).mp h
  exact ⟨by simpa using h1, by simpa using h2⟩

theorem strOk_of_parts {s : String} (h1 : occursL patON s.data = false)
    (h2 : occursL patJOIN s.data = false) : strOk s = true := by
  unfold strOk
  simp [h1, h2]

theorem safeHead_spec (s : String) (h : safeHead s = true) :
    ∀ d w, s.data = d :: w → d ∉ patChars := by
  intro d w hd hm
  unfold safeHead at h
  rw [hd] at h
  dsimp only at h
  have h2 : patChars.contains d = false := by
    cases hq : patChars.contains d
    · rfl
    · rw [hq] at h; exact Bool.noConfusion h
  have hcon : patChars.contains d = true := List.elem_eq_true_of_mem hm
  rw [hcon] at h2
  exact Bool.noConfusion h2

theorem safeLast_spec (s : String) (h : safeLast s = true) :
    ∀ c, s.data.getLast? = some c → c ∉ patChars := by
  intro c hc hm
  unfold safeLast at h
  rw [hc] at h
  dsimp only at h
  have h2 : patChars.contains c = false := by
    cases hq : patChars.contains c
    · rfl
    · rw [hq] at h; exact Bool.noConfusion h
  have hcon : patChars.contains c = true := List.elem_eq_true_of_mem hm
  rw [hcon] at h2
  exact Bool.noConfusion h2

theorem sOk_seq_r (x g : String) (hx : strOk x = true) (hg : strOk g = true)
    (hh : safeHead g = true) : strOk (x ++ g) = true := by
  obtain ⟨hx1, hx2⟩ := strOk_parts hx
  obtain ⟨hg1, hg2⟩ := strOk_parts hg
  have hsep : ∀ (p : List Char), (∀ c ∈ p, c ∈ patChars) →
      ∀ d w, g.data = d :: w → d ∉ p := by
    intro p hp d w hd hmem
    exact safeHead_spec g hh d w hd (hp d hmem)
  apply strOk_of_parts
  · rw [String.data_append]
    exact occursL_append_safeR patON x.data g.data hx1 hg1 (hsep patON patON_sub)
  · rw [String.data_append]
    exact occursL_append_safeR patJOIN x.data g.data hx2 hg2 (hsep patJOIN patJOIN_sub)

theorem sOk_seq_l (x g : String) (hx : strOk x = true) (hl : safeLast x = true)
    (hg : strOk g = true) : strOk (x ++ g) = true := by
  obtain ⟨hx1, hx2⟩ := strOk_parts hx
  obtain ⟨hg1, hg2⟩ := strOk_parts hg
  have hsep : ∀ (p : List Char), (∀ c ∈ p, c ∈ patChars) →
      ∀ c, x.data.getLast? = some c → c ∉ p := by
    intro p hp c hc hmem
    exact safeLast_spec x hl c hc (hp c hmem)
  apply strOk_of_parts
  · rw [String.data_append]
    exact occursL_append_safeL patON x.data g.data hx1 hg1 (hsep patON patON_sub)
  · rw [String.data_append]
    exact occursL_append_safeL patJOIN x.data g.data hx2 hg2 (hsep patJOIN patJOIN_sub)

theorem safeLast_append (x y : String) (hy : y.data ≠ []) :
    safeLast (x ++ y) = safeLast y := by
  unfold safeLast
  rw [String.data_append, List.getLast?_append_of_ne_nil x.data hy]

theorem safeHead_append (x y : String) (hx : x.data ≠ []) :
    safeHead (x ++ y) = safeHead x := by
  unfold safeHead
  rw [String.data_append]
  cases hd : x.data with
  | nil => exact absurd hd hx
  | cons c cs => rw [List.cons_append]

/-- The workhorse: a fragment, a glue string with safe boundary characters,
and another fragment concatenate safely. -/
theorem sOk_glue3 (a g b : String) (ha : strOk a = true) (hg : strOk g = true)
    (hgh : safeHead g = true) (hgl : safeLast g = true) (hgne : g.data ≠ [])
    (hb : strOk b = true) : strOk (a ++ g ++ b) = true := by
  have h1 : strOk (a ++ g) = true := sOk_seq_r a g ha hg hgh
  have h2 : safeLast (a ++ g) = true := by
    rw [safeLast_append a g hgne]
    exact hgl
  exact sOk_seq_l (a ++ g) b h1 h2 hb

theorem joinSep_ok (sep : String) (hsep : strOk sep = true)
    (hh : safeHead sep = true) (hl : safeLast sep = true) (hne : sep.data ≠ []) :
    ∀ l : List String, (∀ s ∈ l, strOk s = true) → strOk (joinSep sep l) = true := by
  intro l
  induction l with
  | nil =>
      intro _
      show strOk "" = true
      decide
  | cons s rest ih =>
      intro hall
      cases rest with
      | nil => exact hall s (by simp)
      | cons s2 r2 =>
          show strOk (s ++ sep ++ joinSep sep (s2 :: r2)) = true
          exact sOk_glue3 s sep (joinSep sep (s2 :: r2)) (hall s (by simp)) hsep hh hl
            hne (ih (fun t ht => hall t (List.mem_cons_of_mem s ht)))

theorem occursL_prefix_false (p u t : List Char)
    (h : occursL p (u ++ t) = false) : occursL p u = false := by
  cases hb : occursL p u
  · rfl
  · rw [occursL_append_mono p u t hb] at h
    exact Bool.noConfusion h

theorem rstripDots_ok {s : String} (h : strOk s = true) :
    strOk (rstripDots s) = true := by
  obtain ⟨h1, h2⟩ := strOk_parts h
  have hsuf : (s.data.reverse.dropWhile (· = '.')) <:+ s.data.reverse :=
    List.dropWhile_suffix _
  obtain ⟨t, ht⟩ := hsuf
  have hdec : (s.data.reverse.dropWhile (· = '.')).reverse ++ t.reverse = s.data := by
    have := congrArg List.reverse ht
    rwa [List.reverse_append, List.reverse_reverse] at this
  apply strOk_of_parts
  · show occursL patON (s.data.reverse.dropWhile (· = '.')).reverse = false
    apply occursL_prefix_false patON _ t.reverse
    rw [hdec]
    exact h1
  · show occursL patJOIN (s.data.reverse.dropWhile (· = '.')).reverse = false
    apply occursL_prefix_false patJOIN _ t.reverse
    rw [hdec]
    exact h2

theorem endDot_ok {s : String} (h : strOk s = true) : strOk (endDot s) = true := by
  unfold endDot
  split
  · exact h
  · exact sOk_seq_r s "." h (by decide) (by decide)

theorem chooseWord_off {act : PerturbationType → Bool} {seed : Int}
    (hs : act .synonymSubstitution = false) (c ctx : String) :
    chooseWord act seed c ctx = (synOptions c).headD c := by
  unfold chooseWord
  rw [hs]
  rfl

theorem choiceD_ok {xs : List String} {d : String} (r : RSrc)
    (hxs : ∀ s ∈ xs, strOk s = true) (hd : strOk d = true) :
    strOk (r.choiceD xs d).1 = true := by
  unfold RSrc.choiceD
  dsimp only
  rcases hlt : xs[(r.next xs.length).1]? with _ | x
  · rw [List.getD_eq_getElem?_getD, hlt]
    exact hd
  · rw [List.getD_eq_getElem?_getD, hlt]
    exact hxs x (List.getElem?_mem hlt)

theorem renderTable_ok {act : PerturbationType → Bool} {seed : Int}
    (hU : act .underSpecification = false) (hA : act .ambiguousPronouns = false)
    (e : E) (ctx : String) (hg : goodE e = true) :
    strOk (renderTable act seed e ctx).1 = true := by
  unfold renderTable
  rw [hU, hA]
  simp only [Bool.false_and, Bool.false_eq_true, if_false]
  cases e
  case tbl name al =>
      dsimp only
      have hp : strOk name = true ∧ strOk al = true := by
        have hq : goodE (.tbl name al) = (strOk name && strOk al) := rfl
        rw [hq] at hg
        exact (Bool.and_eq_true _ _).mp hg
      split
      · have h2 : strOk (" (as " ++ al) = true :=
          sOk_seq_l " (as " al (by decide) (by decide) hp.2
        have h1 : strOk (" (as " ++ al ++ ")") = true :=
          sOk_seq_r (" (as " ++ al) ")" h2 (by decide) (by decide)
        have hne1 : (" (as " ++ al).data ≠ [] := by
          rw [String.data_append]
          exact List.append_ne_nil_of_left_ne_nil (by decide) al.data
        have hh : safeHead (" (as " ++ al ++ ")") = true := by
          rw [safeHead_append _ ")" hne1, safeHead_append " (as " al (by decide)]
          decide
        exact sOk_seq_r name (" (as " ++ al ++ ")") hp.1 h1 hh
      · exact sOk_seq_r name "" hp.1 (by decide) (by decide)
  case ident s =>
      dsimp only
      have hp : strOk s = true := by
        have hq : goodE (.ident s) = strOk s := rfl
        rwa [hq] at hg
      rw [if_neg (by decide)]
      exact sOk_seq_r s "" hp (by decide) (by decide)
  all_goals (dsimp only; decide)

theorem renderColumn_ok {act : PerturbationType → Bool} {seed : Int}
    (hU : act .underSpecification = false) (hA : act .ambiguousPronouns = false)
    (hCV : act .columnVariations = false) (name0 table0 ctx : String)
    (hn : strOk name0 = true) (ht : strOk table0 = true) :
    strOk (renderColumn act seed name0 table0 ctx).1 = true := by
  unfold renderColumn
  rw [hU, hA, hCV]
  simp only [Bool.false_and, Bool.false_eq_true, if_false]
  split
  · exact sOk_glue3 table0 "." name0 ht (by decide) (by decide) (by decide)
      (by decide) hn
  · exact hn

theorem renderLiteral_ok {act : PerturbationType → Bool} {seed : Int}
    (hRT : act .relativeTemporal = false) (hA : act .ambiguousPronouns = false)
    (val ctx : String) (hv : strOk val = true) :
    strOk (renderLiteral act seed val ctx).1 = true := by
  unfold renderLiteral
  rw [hRT, hA]
  simp only [Bool.false_and, if_false]
  exact hv

theorem renderInsertCols_off {act : PerturbationType → Bool} {seed : Int}
    (hCV : act .columnVariations = false) :
    ∀ (i : Nat) (cs : List String), renderInsertCols act seed i cs = cs := by
  intro i cs
  induction cs generalizing i with
  | nil => rfl
  | cons c cs ih =>
      unfold renderInsertCols
      rw [hCV]
      simp only [Bool.false_eq_true, if_false]
      rw [ih]

theorem zipPairs_ok : ∀ (cs vs : List String),
    (∀ c ∈ cs, strOk c = true) → (∀ v ∈ vs, strOk v = true) →
    ∀ s ∈ zipPairs cs vs, strOk s = true := by
  intro cs
  induction cs with
  | nil => intro vs _ _ s hs; simp [zipPairs] at hs
  | cons c cs ih =>
      intro vs hcs hvs s hs
      cases vs with
      | nil => simp [zipPairs] at hs
      | cons v vs =>
          unfold zipPairs at hs
          rcases List.mem_cons.mp hs with rfl | hm
          · exact sOk_glue3 c " " v (hcs c (by simp)) (by decide) (by decide)
              (by decide) (by decide) (hvs v (by simp))
          · exact ih vs (fun x hx => hcs x (List.mem_cons_of_mem c hx))
              (fun x hx => hvs x (List.mem_cons_of_mem v hx)) s hm

/-! Decompositions of `goodE` per constructor. -/

theorem goodE_col (n t : String) : goodE (.col n t) = (strOk n && strOk t) := rfl

theorem goodE_litNum (n : Int) : goodE (.litNum n) = strOk (toString n) := rfl

theorem goodE_litStr (s : String) : goodE (.litStr s) = strOk s := rfl

theorem goodE_bin (op : Bop) (l r : E) : goodE (.bin op l r) = (goodE l && goodE r) := rfl

theorem goodE_inSub (l q : E) : goodE (.inSub l q) = (goodE l && goodE q) := rfl

theorem goodE_inList (l : E) (vs : EL) :
    goodE (.inList l vs) = (goodE l && goodEL vs) := rfl

theorem goodE_agg (k : AggK) (arg : E) : goodE (.agg k arg) = goodE arg := rfl

theorem goodE_anon (n : String) (args : EL) :
    goodE (.anon n args) = (strOk n && goodEL args) := rfl

theorem goodE_dateSub (d arg : E) : goodE (.dateSub d arg) = (goodE d && goodE arg) := rfl

theorem goodE_dateAdd (d arg : E) : goodE (.dateAdd d arg) = (goodE d && goodE arg) := rfl

theorem goodE_interval (v : E) (unit : String) :
    goodE (.interval v unit) = (strOk (toLowerStr unit) && goodE v) := rfl

theorem goodE_ordered (e : E) (b : Bool) : goodE (.ordered e b) = goodE e := rfl

theorem goodE_limitNode (e : E) : goodE (.limitNode e) = goodE e := rfl

theorem goodE_aliasE (e : E) (n : String) : goodE (.aliasE e n) = goodE e := rfl

theorem goodE_subq (q : E) (n : String) : goodE (.subq q n) = goodE q := rfl

theorem goodE_join_none (s : String) (tE : E) :
    goodE (.join s tE none) = (goodE tE && true) := rfl

theorem goodE_join_some (s : String) (tE c : E) :
    goodE (.join s tE (some c)) = (goodE tE && goodE c) := rfl

theorem goodEL_cons (e : E) (es : EL) : goodEL (.cons e es) = (goodE e && goodEL es) := rfl

theorem goodE_joinTableOf {e : E} (h : goodE e = true) :
    goodE (joinTableOf e) = true := by
  cases e
  case join s tE onE =>
      show goodE tE = true
      rcases onE with _ | c
      · rw [goodE_join_none] at h
        exact ((Bool.and_eq_true _ _).mp h).1
      · rw [goodE_join_some] at h
        exact ((Bool.and_eq_true _ _).mp h).1
  all_goals exact h

theorem goodE_sel_nnnn (cols joins gb ob : EL) :
    goodE (.select cols none joins none gb none ob none) =
      (goodEL cols && true && goodEL joins && true && goodEL gb && true &&
        goodEL ob && true) := rfl

theorem goodE_sel_nnns (cols joins gb ob : EL) (lv : E) :
    goodE (.select cols none joins none gb none ob (some lv)) =
      (goodEL cols && true && goodEL joins && true && goodEL gb && true &&
        goodEL ob && goodE lv) := rfl

theorem goodE_sel_nnsn (cols joins gb ob : EL) (hva : E) :
    goodE (.select cols none joins none gb (some hva) ob none) =
      (goodEL cols && true && goodEL joins && true && goodEL gb && goodE hva &&
        goodEL ob && true) := rfl

theorem goodE_sel_nnss (cols joins gb ob : EL) (hva : E) (lv : E) :
    goodE (.select cols none joins none gb (some hva) ob (some lv)) =
      (goodEL cols && true && goodEL joins && true && goodEL gb && goodE hva &&
        goodEL ob && goodE lv) := rfl

theorem goodE_sel_nsnn (cols joins gb ob : EL) (wv : E) :
    goodE (.select cols none joins (some wv) gb none ob none) =
      (goodEL cols && true && goodEL joins && goodE wv && goodEL gb && true &&
        goodEL ob && true) := rfl

theorem goodE_sel_nsns (cols joins gb ob : EL) (wv : E) (lv : E) :
    goodE (.select cols none joins (some wv) gb none ob (some lv)) =
      (goodEL cols && true && goodEL joins && goodE wv && goodEL gb && true &&
        goodEL ob && goodE lv) := rfl

theorem goodE_sel_nssn (cols joins gb ob : EL) (wv : E) (hva : E) :
    goodE (.select cols none joins (some wv) gb (some hva) ob none) =
      (goodEL cols && true && goodEL joins && goodE wv && goodEL gb && goodE hva &&
        goodEL ob && true) := rfl

theorem goodE_sel_nsss (cols joins gb ob : EL) (wv : E) (hva : E) (lv : E) :
    goodE (.select cols none joins (some wv) gb (some hva) ob (some lv)) =
      (goodEL cols && true && goodEL joins && goodE wv && goodEL gb && goodE hva &&
        goodEL ob && goodE lv) := rfl

theorem goodE_sel_snnn (cols joins gb ob : EL) (s : E) :
    goodE (.select cols (some s) joins none gb none ob none) =
      (goodEL cols && goodE s && goodEL joins && true && goodEL gb && true &&
        goodEL ob && true) := rfl

theorem goodE_sel_snns (cols joins gb ob : EL) (s : E) (lv : E) :
    goodE (.select cols (some s) joins none gb none ob (some lv)) =
      (goodEL cols && goodE s && goodEL joins && true && goodEL gb && true &&
        goodEL ob && goodE lv) := rfl

theorem goodE_sel_snsn (cols joins gb ob : EL) (s : E) (hva : E) :
    goodE (.select cols (some s) joins none gb (some hva) ob none) =
      (goodEL cols && goodE s && goodEL joins && true && goodEL gb && goodE hva &&
        goodEL ob && true) := rfl

theorem goodE_sel_snss (cols joins gb ob : EL) (s : E) (hva : E) (lv : E) :
    goodE (.select cols (some s) joins none gb (some hva) ob (some lv)) =
      (goodEL cols && goodE s && goodEL joins && true && goodEL gb && goodE hva &&
        goodEL ob && goodE lv) := rfl

theorem goodE_sel_ssnn (cols joins gb ob : EL) (s : E) (wv : E) :
    goodE (.select cols (some s) joins (some wv) gb none ob none) =
      (goodEL cols && goodE s && goodEL joins && goodE wv && goodEL gb && true &&
        goodEL ob && true) := rfl

theorem goodE_sel_ssns (cols joins gb ob : EL) (s : E) (wv : E) (lv : E) :
    goodE (.select cols (some s) joins (some wv) gb none ob (some lv)) =
      (goodEL cols && goodE s && goodEL joins && goodE wv && goodEL gb && true &&
        goodEL ob && goodE lv) := rfl

theorem goodE_sel_sssn (cols joins gb ob : EL) (s : E) (wv : E) (hva : E) :
    goodE (.select cols (some s) joins (some wv) gb (some hva) ob none) =
      (goodEL cols && goodE s && goodEL joins && goodE wv && goodEL gb && goodE hva &&
        goodEL ob && true) := rfl

theorem goodE_sel_ssss (cols joins gb ob : EL) (s : E) (wv : E) (hva : E) (lv : E) :
    goodE (.select cols (some s) joins (some wv) gb (some hva) ob (some lv)) =
      (goodEL cols && goodE s && goodEL joins && goodE wv && goodEL gb && goodE hva &&
        goodEL ob && goodE lv) := rfl

theorem goodE_select_parts (cols : EL) (src : Option E) (joins : EL) (w : Option E)
    (gb : EL) (hv : Option E) (ob : EL) (lim : Option E)
    (h : goodE (.select cols src joins w gb hv ob lim) = true) :
    goodEL cols = true ∧ goodEL joins = true ∧ goodEL gb = true ∧ goodEL ob = true ∧
    (∀ x, src = some x → goodE x = true) ∧ (∀ x, w = some x → goodE x = true) ∧
    (∀ x, hv = some x → goodE x = true) ∧ (∀ x, lim = some x → goodE x = true) := by
  rcases src with _ | s <;> rcases w with _ | wv <;> rcases hv with _ | hva <;>
      rcases lim with _ | lv <;>
    · first
        | rw [goodE_sel_nnnn] at h
        | rw [goodE_sel_nnns] at h
        | rw [goodE_sel_nnsn] at h
        | rw [goodE_sel_nnss] at h
        | rw [goodE_sel_nsnn] at h
        | rw [goodE_sel_nsns] at h
        | rw [goodE_sel_nssn] at h
        | rw [goodE_sel_nsss] at h
        | rw [goodE_sel_snnn] at h
        | rw [goodE_sel_snns] at h
        | rw [goodE_sel_snsn] at h
        | rw [goodE_sel_snss] at h
        | rw [goodE_sel_ssnn] at h
        | rw [goodE_sel_ssns] at h
        | rw [goodE_sel_sssn] at h
        | rw [goodE_sel_ssss] at h
      simp only [Bool.and_eq_true] at h
      refine ⟨h.1.1.1.1.1.1.1, h.1.1.1.1.1.2, h.1.1.1.2, h.1.2, ?_, ?_, ?_, ?_⟩ <;>
        (intro x hx
         first
           | exact Option.noConfusion hx
           | (cases hx
              first
                | exact h.1.1.1.1.1.1.2
                | exact h.1.1.1.1.2
                | exact h.1.1.2
                | exact h.2))

theorem goodE_insert_parts (tableE : E) (colsL : List String) (vals : EL)
    (h : goodE (.insert tableE colsL vals) = true) :
    goodE tableE = true ∧ (∀ c ∈ colsL, strOk c = true) ∧ goodEL vals = true := by
  have hq : goodE (.insert tableE colsL vals) =
      (goodE tableE && colsL.all strOk && goodEL vals) := rfl
  rw [hq] at h
  simp only [Bool.and_eq_true] at h
  refine ⟨h.1.1, ?_, h.2⟩
  intro c hc
  have := h.1.2
  rw [List.all_eq_true] at this
  exact this c hc

theorem goodE_update_none (tableE : E) (sets : EL) :
    goodE (.update tableE sets none) = (goodE tableE && goodEL sets && true) := rfl

theorem goodE_update_some (tableE : E) (sets : EL) (c : E) :
    goodE (.update tableE sets (some c)) =
      (goodE tableE && goodEL sets && goodE c) := rfl

theorem goodE_delete_none (tableE : E) :
    goodE (.delete tableE none) = (goodE tableE && true) := rfl

theorem goodE_delete_some (tableE : E) (c : E) :
    goodE (.delete tableE (some c)) = (goodE tableE && goodE c) := rfl

theorem goodE_update_parts (tableE : E) (sets : EL) (whereE : Option E)
    (h : goodE (.update tableE sets whereE) = true) :
    goodE tableE = true ∧ goodEL sets = true ∧
    (∀ c, whereE = some c → goodE c = true) := by
  rcases whereE with _ | c <;>
    · first
        | rw [goodE_update_none] at h
        | rw [goodE_update_some] at h
      simp only [Bool.and_eq_true] at h
      refine ⟨h.1.1, h.1.2, ?_⟩
      intro x hx
      first
        | exact Option.noConfusion hx
        | (cases hx; exact h.2)

theorem goodE_delete_parts (tableE : E) (whereE : Option E)
    (h : goodE (.delete tableE whereE) = true) :
    goodE tableE = true ∧ (∀ c, whereE = some c → goodE c = true) := by
  rcases whereE with _ | c <;>
    · first
        | rw [goodE_delete_none] at h
        | rw [goodE_delete_some] at h
      simp only [Bool.and_eq_true] at h
      refine ⟨h.1, ?_⟩
      intro x hx
      first
        | exact Option.noConfusion hx
        | (cases hx; exact h.2)

theorem onlyIJ_facts {act : PerturbationType → Bool} (hact : onlyIncompleteJoins act) :
    act .incompleteJoins = true ∧ act .underSpecification = false ∧
    act .ambiguousPronouns = false ∧ act .synonymSubstitution = false ∧
    act .columnVariations = false ∧ act .relativeTemporal = false ∧
    act .vagueAggregation = false ∧ act .implicitBusinessLogic = false ∧
    act .missingWhereDetails = false ∧ act .typos = false :=
  ⟨hact.1, hact.2 _ (by decide), hact.2 _ (by decide), hact.2 _ (by decide),
   hact.2 _ (by decide), hact.2 _ (by decide), hact.2 _ (by decide),
   hact.2 _ (by decide), hact.2 _ (by decide), hact.2 _ (by decide)⟩

theorem optPart_mem {ox : Option (String × Nat)} {pr : String × Nat}
    (h : pr ∈ optPart ox) : ox = some pr := by
  rcases ox with _ | p
  · simp [optPart] at h
  · simp [optPart] at h
    rw [h]

set_option maxHeartbeats 8000000 in
theorem renderAllOk (act : PerturbationType → Bool) (seed : Int)
    (hact : onlyIncompleteJoins act) : ∀ fuel,
    (∀ e ctx, goodE e = true → strOk (renderExpr fuel act seed e ctx).1 = true) ∧
    (∀ e ctx, goodE e = true → strOk (renderBinaryOp fuel act seed e ctx).1 = true) ∧
    (∀ e ctx, goodE e = true → strOk (renderAggregate fuel act seed e ctx).1 = true) ∧
    (∀ e ctx, goodE e = true → strOk (renderJoin fuel act seed e ctx).1 = true) ∧
    (∀ i es, goodEL es = true →
      ∀ pr ∈ renderSelectItems fuel act seed i es, strOk pr.1 = true) ∧
    (∀ i js, goodEL js = true →
      ∀ pr ∈ renderJoins fuel act seed i js, strOk pr.1 = true) ∧
    (∀ pre i es, goodEL es = true →
      ∀ pr ∈ renderCtxItems fuel act seed pre i es, strOk pr.1 = true) ∧
    (∀ i es, goodEL es = true →
      ∀ pr ∈ renderOrderItems fuel act seed i es, strOk pr.1 = true) ∧
    (∀ ctx i vs, goodEL vs = true →
      ∀ pr ∈ renderInItems fuel act seed ctx i vs, strOk pr.1 = true) ∧
    (∀ ctx i as', goodEL as' = true →
      ∀ pr ∈ renderAnonArgs fuel act seed ctx i as', strOk pr.1 = true) ∧
    (∀ cols, goodEL cols = true → strOk (renderSelectClause fuel act seed cols).1 = true) ∧
    (∀ node, goodE node = true →
      ∀ pr, renderFromClause fuel act seed node = some pr → strOk pr.1 = true) ∧
    (∀ node, goodE node = true →
      ∀ pr, renderWhereClause fuel act seed node = some pr → strOk pr.1 = true) ∧
    (∀ node, goodE node = true →
      ∀ pr, renderGroupByClause fuel act seed node = some pr → strOk pr.1 = true) ∧
    (∀ node, goodE node = true →
      ∀ pr, renderHavingClause fuel act seed node = some pr → strOk pr.1 = true) ∧
    (∀ node, goodE node = true →
      ∀ pr, renderOrderByClause fuel act seed node = some pr → strOk pr.1 = true) ∧
    (∀ node, goodE node = true →
      ∀ pr, renderLimitClause fuel act seed node = some pr → strOk pr.1 = true) ∧
    (∀ node, goodE node = true → strOk (renderSelect fuel act seed node).1 = true) ∧
    (∀ i vs, goodEL vs = true →
      ∀ pr ∈ renderInsertVals fuel act seed i vs, strOk pr.1 = true) ∧
    (∀ i es, goodEL es = true →
      ∀ pr ∈ renderUpdateSets fuel act seed i es, strOk pr.1 = true) ∧
    (∀ node, goodE node = true → strOk (renderInsertStmt fuel act seed node).1 = true) ∧
    (∀ node, goodE node = true → strOk (renderUpdateStmt fuel act seed node).1 = true) ∧
    (∀ node, goodE node = true → strOk (renderDeleteStmt fuel act seed node).1 = true) := by
  obtain ⟨hIJ, hU, hA, hSY, hCV, hRT, hVA, hIB, hMW, hTY⟩ := onlyIJ_facts hact
  intro fuel
  induction fuel with
  | zero =>
      refine ⟨?_, ?_, ?_, ?_, ?_, ?_, ?_, ?_, ?_, ?_, ?_, ?_, ?_, ?_, ?_, ?_, ?_,
        ?_, ?_, ?_, ?_, ?_, ?_⟩
      · intro e ctx _
        rw [show renderExpr 0 act seed e ctx = ("", 0) from rfl]
        decide
      · intro e ctx _
        rw [show renderBinaryOp 0 act seed e ctx = ("", 0) from rfl]
        decide
      · intro e ctx _
        rw [show renderAggregate 0 act seed e ctx = ("", 0) from rfl]
        decide
      · intro e ctx _
        rw [show renderJoin 0 act seed e ctx = ("", 0) from rfl]
        decide
      · intro i es _ pr hpr
        rw [show renderSelectItems 0 act seed i es = [] from rfl] at hpr
        exact absurd hpr (List.not_mem_nil pr)
      · intro i js _ pr hpr
        rw [show renderJoins 0 act seed i js = [] from rfl] at hpr
        exact absurd hpr (List.not_mem_nil pr)
      · intro pre i es _ pr hpr
        rw [show renderCtxItems 0 act seed pre i es = [] from rfl] at hpr
        exact absurd hpr (List.not_mem_nil pr)
      · intro i es _ pr hpr
        rw [show renderOrderItems 0 act seed i es = [] from rfl] at hpr
        exact absurd hpr (List.not_mem_nil pr)
      · intro ctx i vs _ pr hpr
        rw [show renderInItems 0 act seed ctx i vs = [] from rfl] at hpr
        exact absurd hpr (List.not_mem_nil pr)
      · intro ctx i as' _ pr hpr
        rw [show renderAnonArgs 0 act seed ctx i as' = [] from rfl] at hpr
        exact absurd hpr (List.not_mem_nil pr)
      · intro cols _
        rw [show renderSelectClause 0 act seed cols = ("", 0) from rfl]
        decide
      · intro node _ pr hpr
        rw [show renderFromClause 0 act seed node = none from rfl] at hpr
        exact Option.noConfusion hpr
      · intro node _ pr hpr
        rw [show renderWhereClause 0 act seed node = none from rfl] at hpr
        exact Option.noConfusion hpr
      · intro node _ pr hpr
        rw [show renderGroupByClause 0 act seed node = none from rfl] at hpr
        exact Option.noConfusion hpr
      · intro node _ pr hpr
        rw [show renderHavingClause 0 act seed node = none from rfl] at hpr
        exact Option.noConfusion hpr
      · intro node _ pr hpr
        rw [show renderOrderByClause 0 act seed node = none from rfl] at hpr
        exact Option.noConfusion hpr
      · intro node _ pr hpr
        rw [show renderLimitClause 0 act seed node = none from rfl] at hpr
        exact Option.noConfusion hpr
      · intro node _
        rw [show renderSelect 0 act seed node = ("", 0) from rfl]
        decide
      · intro i vs _ pr hpr
        rw [show renderInsertVals 0 act seed i vs = [] from rfl] at hpr
        exact absurd hpr (List.not_mem_nil pr)
      · intro i es _ pr hpr
        rw [show renderUpdateSets 0 act seed i es = [] from rfl] at hpr
        exact absurd hpr (List.not_mem_nil pr)
      · intro node _
        rw [show renderInsertStmt 0 act seed node = ("", 0) from rfl]
        decide
      · intro node _
        rw [show renderUpdateStmt 0 act seed node = ("", 0) from rfl]
        decide
      · intro node _
        rw [show renderDeleteStmt 0 act seed node = ("", 0) from rfl]
        decide
  | succ n ih =>
      obtain ⟨ihE, ihB, ihAg, ihJ, ihSI, ihJS, ihCI, ihOI, ihII, ihAA, ihSC, ihFC,
        ihWC, ihGC, ihHC, ihOC, ihLC, ihS, ihIV, ihUS, ihIns, ihUpd, ihDel⟩ := ih
      refine ⟨?_, ?_, ?_, ?_, ?_, ?_, ?_, ?_, ?_, ?_, ?_, ?_, ?_, ?_, ?_, ?_, ?_,
        ?_, ?_, ?_, ?_, ?_, ?_⟩
      · -- renderExpr
        intro e ctx hg
        unfold renderExpr
        dsimp only
        cases e
        case col cn tn =>
            rw [goodE_col] at hg
            obtain ⟨h1, h2⟩ := (Bool.and_eq_true _ _).mp hg
            exact renderColumn_ok hU hA hCV cn tn ctx h1 h2
        case litNum m =>
            rw [goodE_litNum] at hg
            exact renderLiteral_ok hRT hA _ ctx hg
        case litStr s =>
            rw [goodE_litStr] at hg
            exact renderLiteral_ok hRT hA _ ctx hg
        case boolE b => cases b <;> (dsimp only; decide)
        case agg k arg => exact ihAg _ ctx hg
        case bin op l r => exact ihB _ ctx hg
        case inSub l q =>
            rw [goodE_inSub] at hg
            obtain ⟨hl, hq⟩ := (Bool.and_eq_true _ _).mp hg
            have hleft := ihE l (ctx ++ "_left") hl
            dsimp only
            cases q
            case subq inner al =>
                rw [goodE_subq] at hq
                dsimp only
                cases inner
                case select c1 c2 c3 c4 c5 c6 c7 c8 =>
                    dsimp only
                    have hinner := ihS _ hq
                    exact sOk_seq_r _ ")"
                      (sOk_glue3 _ " in (" _ hleft (by decide) (by decide) (by decide)
                        (by decide) (rstripDots_ok hinner)) (by decide) (by decide)
                all_goals
                  exact sOk_seq_r _ " in (subquery)" hleft (by decide) (by decide)
            all_goals
              exact sOk_seq_r _ " in ()" hleft (by decide) (by decide)
        case inList l vs =>
            rw [goodE_inList] at hg
            obtain ⟨hl, hvs⟩ := (Bool.and_eq_true _ _).mp hg
            have hleft := ihE l (ctx ++ "_left") hl
            dsimp only
            cases vs
            case nil =>
                exact sOk_seq_r _ " in ()" hleft (by decide) (by decide)
            case cons v rest =>
                dsimp only
                have hjs : strOk (joinSep ", "
                    ((renderInItems n act seed ctx 0 (.cons v rest)).map Prod.fst)) = true := by
                  apply joinSep_ok ", " (by decide) (by decide) (by decide) (by decide)
                  intro s hs
                  obtain ⟨pr, hpr, rfl⟩ := List.mem_map.mp hs
                  exact ihII ctx 0 _ hvs pr hpr
                exact sOk_seq_r _ ")"
                  (sOk_glue3 _ " in (" _ hleft (by decide) (by decide) (by decide)
                    (by decide) hjs) (by decide) (by decide)
        case anon nm args =>
            rw [goodE_anon] at hg
            obtain ⟨hn, hargs⟩ := (Bool.and_eq_true _ _).mp hg
            dsimp only
            have hjs : strOk (joinSep ", "
                ((renderAnonArgs n act seed ctx 0 args).map Prod.fst)) = true := by
              apply joinSep_ok ", " (by decide) (by decide) (by decide) (by decide)
              intro s hs
              obtain ⟨pr, hpr, rfl⟩ := List.mem_map.mp hs
              exact ihAA ctx 0 _ hargs pr hpr
            exact sOk_seq_r _ ")"
              (sOk_glue3 _ "(" _ hn (by decide) (by decide) (by decide)
                (by decide) hjs) (by decide) (by decide)
        case dateSub d arg =>
            rw [goodE_dateSub] at hg
            obtain ⟨hd, harg⟩ := (Bool.and_eq_true _ _).mp hg
            have hdate := ihE d (ctx ++ "_date") hd
            dsimp only
            cases arg
            case interval v unit =>
                rw [goodE_interval] at harg
                obtain ⟨hunit, hv⟩ := (Bool.and_eq_true _ _).mp harg
                dsimp only
                exact sOk_seq_r _ "s"
                  (sOk_glue3 _ " " _
                    (sOk_glue3 _ " minus " _ hdate (by decide) (by decide) (by decide)
                      (by decide) (ihE v (ctx ++ "_interval_val") hv))
                    (by decide) (by decide) (by decide) (by decide) hunit)
                  (by decide) (by decide)
            all_goals
              exact sOk_seq_l "date subtraction from " _ (by decide) (by decide) hdate
        case dateAdd d arg =>
            rw [goodE_dateAdd] at hg
            obtain ⟨hd, harg⟩ := (Bool.and_eq_true _ _).mp hg
            have hdate := ihE d (ctx ++ "_date") hd
            dsimp only
            cases arg
            case interval v unit =>
                rw [goodE_interval] at harg
                obtain ⟨hunit, hv⟩ := (Bool.and_eq_true _ _).mp harg
                dsimp only
                exact sOk_seq_r _ "s"
                  (sOk_glue3 _ " " _
                    (sOk_glue3 _ " plus " _ hdate (by decide) (by decide) (by decide)
                      (by decide) (ihE v (ctx ++ "_interval_val") hv))
                    (by decide) (by decide) (by decide) (by decide) hunit)
                  (by decide) (by decide)
            all_goals
              exact sOk_seq_l "date addition to " _ (by decide) (by decide) hdate
        case interval v unit =>
            rw [goodE_interval] at hg
            obtain ⟨hunit, hv⟩ := (Bool.and_eq_true _ _).mp hg
            dsimp only
            exact sOk_seq_r _ "s"
              (sOk_glue3 _ " " _ (ihE v (ctx ++ "_val") hv) (by decide) (by decide)
                (by decide) (by decide) hunit)
              (by decide) (by decide)
        all_goals (dsimp only; decide)
      · -- renderBinaryOp
        intro e ctx hg
        unfold renderBinaryOp
        dsimp only
        cases e
        case bin op l r =>
            rw [goodE_bin] at hg
            obtain ⟨hl, hr⟩ := (Bool.and_eq_true _ _).mp hg
            dsimp only
            rw [hIB, hMW]
            simp only [Bool.false_and, Bool.false_eq_true, if_false]
            have hcw : strOk (chooseWord act seed
                (match op with
                 | .eq => "equals"
                 | .neq => "not equals"
                 | .gt => "greater than"
                 | .gte => "greater than or equal to"
                 | .lt => "less than"
                 | .lte => "less than or equal to"
                 | .like => "like") (ctx ++ "_op")) = true := by
              rw [chooseWord_off hSY]
              cases op <;> decide
            exact sOk_glue3 _ " " _
              (sOk_glue3 _ " " _ (ihE l (ctx ++ "_left") hl) (by decide) (by decide)
                (by decide) (by decide) hcw)
              (by decide) (by decide) (by decide) (by decide)
              (ihE r (ctx ++ "_right") hr)
        all_goals (dsimp only; decide)
      · -- renderAggregate
        intro e ctx hg
        unfold renderAggregate
        dsimp only
        cases e
        case agg k arg =>
            rw [goodE_agg] at hg
            dsimp only
            rw [hVA, hSY]
            simp only [Bool.false_eq_true, if_false, Bool.not_false, if_true]
            have htpl : strOk ((aggVariations k).headD "") = true := by
              cases k <;> decide
            cases arg
            case star =>
                dsimp only
                split
                · exact sOk_seq_r _ " of all rows" htpl (by decide) (by decide)
                · exact sOk_seq_r _ " all rows" htpl (by decide) (by decide)
            all_goals
              (try dsimp only
               split
               · exact sOk_glue3 _ " of " _ htpl (by decide) (by decide) (by decide)
                   (by decide) (ihE _ (ctx ++ "_inner") hg)
               · exact sOk_glue3 _ " " _ htpl (by decide) (by decide) (by decide)
                   (by decide) (ihE _ (ctx ++ "_inner") hg))
        all_goals (dsimp only; decide)
      · -- renderJoin
        intro e ctx hg
        unfold renderJoin
        dsimp only
        rw [hIJ]
        simp only [if_true]
        have hconn : strOk ((mkRng seed (ctx ++ "_inc_join")).choiceD
            ["with", "and their", "along with"] "with").1 = true :=
          choiceD_ok _ (by decide) (by decide)
        exact sOk_glue3 _ " " _ hconn (by decide) (by decide) (by decide) (by decide)
          (renderTable_ok hU hA _ (ctx ++ "_join_table") (goodE_joinTableOf hg))
      · -- renderSelectItems
        intro i es hes pr hpr
        cases es with
        | nil =>
            rw [show renderSelectItems (n + 1) act seed i .nil = [] from rfl] at hpr
            exact absurd hpr (List.not_mem_nil pr)
        | cons e rest =>
            unfold renderSelectItems at hpr
            dsimp only at hpr
            rw [goodEL_cons] at hes
            obtain ⟨he, hrest⟩ := (Bool.and_eq_true _ _).mp hes
            rcases List.mem_cons.mp hpr with rfl | hm
            · cases e
              case star => dsimp only; decide
              case agg k arg => exact ihAg _ _ he
              all_goals exact ihE _ _ he
            · exact ihSI (i + 1) rest hrest pr hm
      · -- renderJoins
        intro i js hjs pr hpr
        cases js with
        | nil =>
            rw [show renderJoins (n + 1) act seed i .nil = [] from rfl] at hpr
            exact absurd hpr (List.not_mem_nil pr)
        | cons j rest =>
            unfold renderJoins at hpr
            dsimp only at hpr
            rw [goodEL_cons] at hjs
            obtain ⟨hj, hrest⟩ := (Bool.and_eq_true _ _).mp hjs
            rcases List.mem_cons.mp hpr with rfl | hm
            · exact ihJ _ _ hj
            · exact ihJS (i + 1) rest hrest pr hm
      · -- renderCtxItems
        intro pre i es hes pr hpr
        cases es with
        | nil =>
            rw [show renderCtxItems (n + 1) act seed pre i .nil = [] from rfl] at hpr
            exact absurd hpr (List.not_mem_nil pr)
        | cons e rest =>
            unfold renderCtxItems at hpr
            dsimp only at hpr
            rw [goodEL_cons] at hes
            obtain ⟨he, hrest⟩ := (Bool.and_eq_true _ _).mp hes
            rcases List.mem_cons.mp hpr with rfl | hm
            · exact ihE _ _ he
            · exact ihCI pre (i + 1) rest hrest pr hm
      · -- renderOrderItems
        intro i es hes pr hpr
        cases es with
        | nil =>
            rw [show renderOrderItems (n + 1) act seed i .nil = [] from rfl] at hpr
            exact absurd hpr (List.not_mem_nil pr)
        | cons e rest =>
            unfold renderOrderItems at hpr
            dsimp only at hpr
            rw [goodEL_cons] at hes
            obtain ⟨he, hrest⟩ := (Bool.and_eq_true _ _).mp hes
            rcases List.mem_cons.mp hpr with rfl | hm
            · cases e
              case ordered x desc =>
                  rw [goodE_ordered] at he
                  dsimp only
                  have hb : strOk (if desc then "descending" else "ascending") = true := by
                    cases desc <;> decide
                  exact sOk_glue3 _ " " _ (ihE x _ he) (by decide) (by decide)
                    (by decide) (by decide) hb
              all_goals exact ihE _ _ he
            · exact ihOI (i + 1) rest hrest pr hm
      · -- renderInItems
        intro ctx i vs hvs pr hpr
        cases vs with
        | nil =>
            rw [show renderInItems (n + 1) act seed ctx i .nil = [] from rfl] at hpr
            exact absurd hpr (List.not_mem_nil pr)
        | cons v rest =>
            unfold renderInItems at hpr
            dsimp only at hpr
            rw [goodEL_cons] at hvs
            obtain ⟨hv, hrest⟩ := (Bool.and_eq_true _ _).mp hvs
            rcases List.mem_cons.mp hpr with rfl | hm
            · exact ihE _ _ hv
            · exact ihII ctx (i + 1) rest hrest pr hm
      · -- renderAnonArgs
        intro ctx i as' has pr hpr
        cases as' with
        | nil =>
            rw [show renderAnonArgs (n + 1) act seed ctx i .nil = [] from rfl] at hpr
            exact absurd hpr (List.not_mem_nil pr)
        | cons a rest =>
            unfold renderAnonArgs at hpr
            dsimp only at hpr
            rw [goodEL_cons] at has
            obtain ⟨ha, hrest⟩ := (Bool.and_eq_true _ _).mp has
            rcases List.mem_cons.mp hpr with rfl | hm
            · exact ihE _ _ ha
            · exact ihAA ctx (i + 1) rest hrest pr hm
      · -- renderSelectClause
        intro cols hcols
        unfold renderSelectClause
        dsimp only
        cases cols with
        | nil =>
            dsimp only
            exact sOk_seq_r _ " all columns" (by rw [chooseWord_off hSY]; decide)
              (by decide) (by decide)
        | cons c rest =>
            dsimp only
            have hjs : strOk (joinSep ", "
                ((renderSelectItems n act seed 0 (.cons c rest)).map Prod.fst)) = true := by
              apply joinSep_ok ", " (by decide) (by decide) (by decide) (by decide)
              intro s hs
              obtain ⟨pr, hpr, rfl⟩ := List.mem_map.mp hs
              exact ihSI 0 _ hcols pr hpr
            exact sOk_glue3 _ " " _ (by rw [chooseWord_off hSY]; decide) (by decide)
              (by decide) (by decide) (by decide) hjs
      · -- renderFromClause
        intro node hg pr hpr
        cases node
        case select cols src joins w gb hv ob lim =>
            obtain ⟨hcols, hjoins, hgb, hob, hsrc, hw, hhv, hlim⟩ :=
              goodE_select_parts _ _ _ _ _ _ _ _ hg
            rcases src with _ | tE
            · unfold renderFromClause at hpr
              dsimp only at hpr
              exact Option.noConfusion hpr
            · unfold renderFromClause at hpr
              dsimp only at hpr
              simp only [Option.some.injEq] at hpr
              subst hpr
              unfold partsJoin
              dsimp only
              apply joinSep_ok " " (by decide) (by decide) (by decide) (by decide)
              intro s hs
              simp only [List.map_cons] at hs
              rcases List.mem_cons.mp hs with rfl | hm
              · exact sOk_glue3 _ " " _ (by rw [chooseWord_off hSY]; decide) (by decide)
                  (by decide) (by decide) (by decide)
                  (renderTable_ok hU hA _ "from_table" (hsrc tE rfl))
              · obtain ⟨pr2, hpr2, rfl⟩ := List.mem_map.mp hm
                exact ihJS 0 joins hjoins pr2 hpr2
        all_goals
          (unfold renderFromClause at hpr
           try dsimp only at hpr
           exact Option.noConfusion hpr)
      · -- renderWhereClause
        intro node hg pr hpr
        cases node
        case select cols src joins w gb hv ob lim =>
            obtain ⟨hcols, hjoins, hgb, hob, hsrc, hw, hhv, hlim⟩ :=
              goodE_select_parts _ _ _ _ _ _ _ _ hg
            rcases w with _ | c
            · unfold renderWhereClause at hpr
              dsimp only at hpr
              exact Option.noConfusion hpr
            · unfold renderWhereClause at hpr
              dsimp only at hpr
              simp only [Option.some.injEq] at hpr
              subst hpr
              exact sOk_glue3 _ " " _ (by rw [chooseWord_off hSY]; decide) (by decide)
                (by decide) (by decide) (by decide) (ihE c "where_condition" (hw c rfl))
        all_goals
          (unfold renderWhereClause at hpr
           try dsimp only at hpr
           exact Option.noConfusion hpr)
      · -- renderGroupByClause
        intro node hg pr hpr
        cases node
        case select cols src joins w gb hv ob lim =>
            obtain ⟨hcols, hjoins, hgb, hob, hsrc, hw, hhv, hlim⟩ :=
              goodE_select_parts _ _ _ _ _ _ _ _ hg
            cases gb with
            | nil =>
                unfold renderGroupByClause at hpr
                dsimp only at hpr
                exact Option.noConfusion hpr
            | cons g gs =>
                unfold renderGroupByClause at hpr
                dsimp only at hpr
                rw [hVA] at hpr
                simp only [Bool.false_eq_true, if_false] at hpr
                simp only [Option.some.injEq] at hpr
                subst hpr
                have hjs : strOk (joinSep ", "
                    ((renderCtxItems n act seed "group_" 0 (.cons g gs)).map
                      Prod.fst)) = true := by
                  apply joinSep_ok ", " (by decide) (by decide) (by decide) (by decide)
                  intro s hs
                  obtain ⟨pr2, hpr2, rfl⟩ := List.mem_map.mp hs
                  exact ihCI "group_" 0 _ hgb pr2 hpr2
                exact sOk_glue3 _ " " _ (by rw [chooseWord_off hSY]; decide) (by decide)
                  (by decide) (by decide) (by decide) hjs
        all_goals
          (unfold renderGroupByClause at hpr
           try dsimp only at hpr
           exact Option.noConfusion hpr)
      · -- renderHavingClause
        intro node hg pr hpr
        cases node
        case select cols src joins w gb hv ob lim =>
            obtain ⟨hcols, hjoins, hgb, hob, hsrc, hw, hhv, hlim⟩ :=
              goodE_select_parts _ _ _ _ _ _ _ _ hg
            rcases hv with _ | c
            · unfold renderHavingClause at hpr
              dsimp only at hpr
              exact Option.noConfusion hpr
            · unfold renderHavingClause at hpr
              dsimp only at hpr
              simp only [Option.some.injEq] at hpr
              subst hpr
              exact sOk_glue3 _ " " _ (by rw [chooseWord_off hSY]; decide) (by decide)
                (by decide) (by decide) (by decide) (ihE c "having_condition" (hhv c rfl))
        all_goals
          (unfold renderHavingClause at hpr
           try dsimp only at hpr
           exact Option.noConfusion hpr)
      · -- renderOrderByClause
        intro node hg pr hpr
        cases node
        case select cols src joins w gb hv ob lim =>
            obtain ⟨hcols, hjoins, hgb, hob, hsrc, hw, hhv, hlim⟩ :=
              goodE_select_parts _ _ _ _ _ _ _ _ hg
            cases ob with
            | nil =>
                unfold renderOrderByClause at hpr
                dsimp only at hpr
                exact Option.noConfusion hpr
            | cons o os =>
                unfold renderOrderByClause at hpr
                dsimp only at hpr
                simp only [Option.some.injEq] at hpr
                subst hpr
                have hjs : strOk (joinSep ", "
                    ((renderOrderItems n act seed 0 (.cons o os)).map Prod.fst)) = true := by
                  apply joinSep_ok ", " (by decide) (by decide) (by decide) (by decide)
                  intro s hs
                  obtain ⟨pr2, hpr2, rfl⟩ := List.mem_map.mp hs
                  exact ihOI 0 _ hob pr2 hpr2
                exact sOk_glue3 _ " " _ (by rw [chooseWord_off hSY]; decide) (by decide)
                  (by decide) (by decide) (by decide) hjs
        all_goals
          (unfold renderOrderByClause at hpr
           try dsimp only at hpr
           exact Option.noConfusion hpr)
      · -- renderLimitClause
        intro node hg pr hpr
        cases node
        case select cols src joins w gb hv ob lim =>
            obtain ⟨hcols, hjoins, hgb, hob, hsrc, hw, hhv, hlim⟩ :=
              goodE_select_parts _ _ _ _ _ _ _ _ hg
            rcases lim with _ | l
            · unfold renderLimitClause at hpr
              dsimp only at hpr
              exact Option.noConfusion hpr
            · unfold renderLimitClause at hpr
              dsimp only at hpr
              have hgl : goodE l = true := hlim l rfl
              cases l <;>
                (simp only [Option.some.injEq] at hpr
                 subst hpr
                 refine sOk_seq_r _ " results" ?_ (by decide) (by decide)
                 refine sOk_glue3 _ " " _ (by rw [chooseWord_off hSY]; decide) (by decide)
                   (by decide) (by decide) (by decide) ?_
                 first
                   | exact ihE _ "limit_val" (by rw [goodE_limitNode] at hgl; exact hgl)
                   | exact ihE _ "limit_val" hgl)
        all_goals
          (unfold renderLimitClause at hpr
           try dsimp only at hpr
           exact Option.noConfusion hpr)
      · -- renderSelect
        intro node hg
        unfold renderSelect
        dsimp only
        cases node
        case select cols src joins w gb hv ob lim =>
            dsimp only
            apply endDot_ok
            unfold partsJoin
            dsimp only
            apply joinSep_ok " " (by decide) (by decide) (by decide) (by decide)
            intro s hs
            obtain ⟨pr, hpr, rfl⟩ := List.mem_map.mp hs
            simp only [List.mem_append, List.mem_singleton] at hpr
            rcases hpr with ((((((h | h) | h) | h) | h) | h) | h)
            · subst h
              exact ihSC cols (goodE_select_parts _ _ _ _ _ _ _ _ hg).1
            · exact ihFC _ hg pr (optPart_mem h)
            · exact ihWC _ hg pr (optPart_mem h)
            · exact ihGC _ hg pr (optPart_mem h)
            · exact ihHC _ hg pr (optPart_mem h)
            · exact ihOC _ hg pr (optPart_mem h)
            · exact ihLC _ hg pr (optPart_mem h)
        all_goals (dsimp only; decide)
      · -- renderInsertVals
        intro i vs hvs pr hpr
        cases vs with
        | nil =>
            rw [show renderInsertVals (n + 1) act seed i .nil = [] from rfl] at hpr
            exact absurd hpr (List.not_mem_nil pr)
        | cons v rest =>
            unfold renderInsertVals at hpr
            dsimp only at hpr
            rw [goodEL_cons] at hvs
            obtain ⟨hv, hrest⟩ := (Bool.and_eq_true _ _).mp hvs
            rcases List.mem_cons.mp hpr with rfl | hm
            · exact ihE _ _ hv
            · exact ihIV (i + 1) rest hrest pr hm
      · -- renderUpdateSets
        intro i es hes pr hpr
        cases es with
        | nil =>
            rw [show renderUpdateSets (n + 1) act seed i .nil = [] from rfl] at hpr
            exact absurd hpr (List.not_mem_nil pr)
        | cons e rest =>
            rw [goodEL_cons] at hes
            obtain ⟨he, hrest⟩ := (Bool.and_eq_true _ _).mp hes
            cases e
            case bin op l rE =>
                rw [goodE_bin] at he
                obtain ⟨hl, hr⟩ := (Bool.and_eq_true _ _).mp he
                cases op
                case eq =>
                    unfold renderUpdateSets at hpr
                    dsimp only at hpr
                    rcases List.mem_cons.mp hpr with rfl | hm
                    · exact sOk_glue3 _ " = " _ (ihE l _ hl) (by decide) (by decide)
                        (by decide) (by decide) (ihE rE _ hr)
                    · exact ihUS (i + 1) rest hrest pr hm
                all_goals
                  (unfold renderUpdateSets at hpr
                   dsimp only at hpr
                   exact ihUS (i + 1) rest hrest pr hpr)
            all_goals
              (unfold renderUpdateSets at hpr
               dsimp only at hpr
               exact ihUS (i + 1) rest hrest pr hpr)
      · -- renderInsertStmt
        intro node hg
        unfold renderInsertStmt
        dsimp only
        cases node
        case insert tableE colsL vals =>
            obtain ⟨htab, hcolsL, hvals⟩ := goodE_insert_parts _ _ _ hg
            dsimp only
            have htout : strOk ("Insert into " ++
                (renderTable act seed tableE "insert_table").1) = true :=
              sOk_seq_l "Insert into " _ (by decide) (by decide)
                (renderTable_ok hU hA _ "insert_table" htab)
            cases colsL with
            | nil =>
                cases vals <;>
                  (dsimp only
                   exact sOk_seq_r _ "." htout (by decide) (by decide))
            | cons c cs =>
                cases vals with
                | nil =>
                    dsimp only
                    exact sOk_seq_r _ "." htout (by decide) (by decide)
                | cons v vs =>
                    dsimp only
                    rw [renderInsertCols_off hCV]
                    have hjs : strOk (joinSep ", " (zipPairs (c :: cs)
                        ((renderInsertVals n act seed 0 (.cons v vs)).map
                          Prod.fst))) = true := by
                      apply joinSep_ok ", " (by decide) (by decide) (by decide)
                        (by decide)
                      intro s hs
                      refine zipPairs_ok (c :: cs) _ hcolsL ?_ s hs
                      intro x hx
                      obtain ⟨pr2, hpr2, rfl⟩ := List.mem_map.mp hx
                      exact ihIV 0 _ hvals pr2 hpr2
                    have h1 : strOk ("Insert into " ++
                        (renderTable act seed tableE "insert_table").1 ++ " with " ++
                        joinSep ", " (zipPairs (c :: cs)
                          ((renderInsertVals n act seed 0 (.cons v vs)).map
                            Prod.fst))) = true :=
                      sOk_glue3 _ " with " _ htout (by decide) (by decide) (by decide)
                        (by decide) hjs
                    exact sOk_seq_r _ "." h1 (by decide) (by decide)
        all_goals (dsimp only; decide)
      · -- renderUpdateStmt
        intro node hg
        unfold renderUpdateStmt
        dsimp only
        cases node
        case update tableE sets whereE =>
            obtain ⟨htab, hsets, hw⟩ := goodE_update_parts _ _ _ hg
            dsimp only
            refine sOk_seq_r _ "." ?_ (by decide) (by decide)
            unfold partsJoin
            dsimp only
            apply joinSep_ok " " (by decide) (by decide) (by decide) (by decide)
            intro s hs
            obtain ⟨pr, hpr, rfl⟩ := List.mem_map.mp hs
            rcases List.mem_cons.mp hpr with rfl | hm
            · exact sOk_seq_l "Update " _ (by decide) (by decide)
                (renderTable_ok hU hA _ "update_table" htab)
            · rcases List.mem_append.mp hm with h | h
              · -- setParts
                cases hsp : renderUpdateSets n act seed 0 sets with
                | nil => rw [hsp] at h; simp at h
                | cons p ps =>
                    rw [hsp] at h
                    dsimp only at h
                    rcases List.mem_singleton.mp h with rfl
                    have hjs : strOk (joinSep ", "
                        ((p :: ps).map Prod.fst)) = true := by
                      apply joinSep_ok ", " (by decide) (by decide) (by decide)
                        (by decide)
                      intro s2 hs2
                      obtain ⟨pr2, hpr2, rfl⟩ := List.mem_map.mp hs2
                      refine ihUS 0 sets hsets pr2 ?_
                      rw [hsp]
                      exact hpr2
                    exact sOk_seq_l "set " _ (by decide) (by decide) hjs
              · -- whereParts
                rcases whereE with _ | c
                · simp at h
                · dsimp only at h
                  rcases List.mem_singleton.mp h with rfl
                  exact sOk_glue3 _ " " _ (by rw [chooseWord_off hSY]; decide)
                    (by decide) (by decide) (by decide) (by decide)
                    (ihE c "update_where" (hw c rfl))
        all_goals (dsimp only; decide)
      · -- renderDeleteStmt
        intro node hg
        unfold renderDeleteStmt
        dsimp only
        cases node
        case delete tableE whereE =>
            obtain ⟨htab, hw⟩ := goodE_delete_parts _ _ hg
            dsimp only
            refine sOk_seq_r _ "." ?_ (by decide) (by decide)
            unfold partsJoin
            dsimp only
            apply joinSep_ok " " (by decide) (by decide) (by decide) (by decide)
            intro s hs
            obtain ⟨pr, hpr, rfl⟩ := List.mem_map.mp hs
            rcases List.mem_cons.mp hpr with rfl | hm
            · exact sOk_seq_l "Delete from " _ (by decide) (by decide)
                (renderTable_ok hU hA _ "delete_table" htab)
            · rcases whereE with _ | c
              · simp at hm
              · dsimp only at hm
                rcases List.mem_singleton.mp hm with rfl
                exact sOk_glue3 _ " " _ (by rw [chooseWord_off hSY]; decide)
                  (by decide) (by decide) (by decide) (by decide)
                  (ihE c "delete_where" (hw c rfl))
        all_goals (dsimp only; decide)

theorem choiceD_mem {α : Type} (r : RSrc) (xs : List α) (d : α) (hd : d ∈ xs) :
    (r.choiceD xs d).1 ∈ xs := by
  unfold RSrc.choiceD
  dsimp only
  rcases hlt : xs[(r.next xs.length).1]? with _ | x
  · rw [List.getD_eq_getElem?_getD, hlt]
    exact hd
  · rw [List.getD_eq_getElem?_getD, hlt]
    exact List.getElem?_mem hlt

theorem onlyIJ_config (seed : Int) :
    onlyIncompleteJoins
      (fun p => PerturbationConfig.isActive ⟨[.incompleteJoins], seed⟩ p) := by
  constructor
  · rfl
  · intro p hp
    cases p <;> first | rfl | exact absurd rfl hp

/-- C8 (amended): for every good statement AST (one whose embedded
identifiers avoid the substrings "ON" and "JOIN") and every seed, rendering
with only INCOMPLETE_JOINS active yields text free of the substrings "ON"
and "JOIN", and every join node is rendered as one of the connective
phrases "with", "and their", "along with" followed by the joined table,
with no ON condition. -/
theorem incomplete_joins_render :
    ∀ (sqlText : E → String) (seed : Int) (ast : E),
      goodE ast = true → isStmt ast = true →
      IncompleteJoinsSafe sqlText seed ast := by
  intro sqlText seed ast hg hstmt
  have hact := onlyIJ_config seed
  obtain ⟨hIJ, hU, hA, hSY, hCV, hRT, hVA, hIB, hMW, hTY⟩ := onlyIJ_facts hact
  constructor
  · unfold render renderA
    dsimp only
    rw [hTY]
    simp only [Bool.false_eq_true, if_false]
    cases ast
    case select cols src joins w gb hv ob lim =>
        have R := renderAllOk _ seed hact
          (renderFuel (.select cols src joins w gb hv ob lim))
        exact R.2.2.2.2.2.2.2.2.2.2.2.2.2.2.2.2.2.1 _ hg
    case insert tableE colsL vals =>
        have R := renderAllOk _ seed hact (renderFuel (.insert tableE colsL vals))
        exact R.2.2.2.2.2.2.2.2.2.2.2.2.2.2.2.2.2.2.2.2.1 _ hg
    case update tableE sets whereE =>
        have R := renderAllOk _ seed hact (renderFuel (.update tableE sets whereE))
        exact R.2.2.2.2.2.2.2.2.2.2.2.2.2.2.2.2.2.2.2.2.2.1 _ hg
    case delete tableE whereE =>
        have R := renderAllOk _ seed hact (renderFuel (.delete tableE whereE))
        exact R.2.2.2.2.2.2.2.2.2.2.2.2.2.2.2.2.2.2.2.2.2.2 _ hg
    all_goals simp [isStmt] at hstmt
  · intro fuel e ctx
    refine ⟨((mkRng seed (ctx ++ "_inc_join")).choiceD
      ["with", "and their", "along with"] "with").1, ?_, ?_⟩
    · exact choiceD_mem _ _ _ (by simp [connStrings])
    · unfold renderJoin
      dsimp only
      rw [hIJ]
      simp only [if_true]

/-- C8 (amended, witness): the joined SELECT over the repository schema is
good, is a statement, and renders safely. -/
theorem incomplete_joins_render_witness :
    (goodE astJoinC = true ∧ isStmt astJoinC = true) ∧
    IncompleteJoinsSafe emptySql 11 astJoinC :=
  ⟨⟨by decide, by decide⟩,
   incomplete_joins_render emptySql 11 astJoinC (by decide) (by decide)⟩

/-- C8 (counterexample): the universal claim fails without the
identifier-goodness hypothesis — a joined table named "ONIONS" makes the
INCOMPLETE_JOINS render contain the substring "ON". -/
theorem incomplete_joins_no_on_refuted :
    hasJoinE astOnions = true ∧
    hasSub (render emptySql ⟨[.incompleteJoins], 7⟩ astOnions).1 "ON" = true := by
  exact ⟨by decide, by decide⟩

end SqlToNl
